import Mathlib

/-!
# Scene event manager (engine/source/2d/scene/SceneEventManager.cpp)

A shallow embedding of the per-scene deferred-event scheduler.

Modelling conventions

* `F32` scene times are modelled by integers: the operations only compare,
  copy and subtract times, and rounding and NaN are outside the model.
* `U32` values are natural numbers; the counter `eventSequence` is
  incremented modulo `2^32`.
* Pointers to `SimObject`s are natural numbers and `NULL` is `0`.
* The `nextEvent` chain of a queue is a `List SceneEvent`; the `nextQueue`
  chain that starts at `gGraphQueueRoot` is the root queue followed by a
  `List SceneGraphEventQueue`.
* `AssertFatal` is a macro of the platform layer that is compiled out unless
  asserts are enabled; every operation that uses it takes the build setting
  as the parameter `asserts`.
* `executeEvents` is embedded twice: as a function (`executeEvents`) for
  payloads that make no call into the scheduler, and as a step machine
  (`driverStep`, `executeEventsWith`) in which payloads call back and the
  local pointers of the driver follow their queues. For payloads that make no
  calls the two agree (`executeEventsWith_quiet`).
-/

namespace SceneEventManager

/-- Scene time (`F32` in the source). -/
abbrev F32 := Int

/-- A `SimObject *` (also used for `Scene *`). -/
abbrev SimObject := Nat

/-- The null pointer. -/
def NULL : SimObject := 0

/-- Number of values of a `U32`. -/
def U32_SIZE : Nat := 4294967296

/-- Modelled from the spec: the constant `InvalidEventId` is declared outside
this source file; the spec reserves the id 0 for "invalid/failed schedule". -/
def InvalidEventId : Nat := 0

/-- `class SceneEvent`. The fields `mArgc`, `mArgv`, `mOnObject` (the command
that `process` runs) are collected in `mArgv`; `nextEvent` is the tail of the
list the event sits in. -/
structure SceneEvent where
  mArgv : Nat
  startTime : F32
  time : F32
  sequenceCount : Nat
  destObject : SimObject
  execute : Bool
deriving DecidableEq, Repr

/-- `SceneEvent::SceneEvent(argc, argv, onObject)`: stores the command, sets
`destObject = NULL` and `execute = false`. The fields the constructor leaves
uninitialised (`startTime`, `time`, `sequenceCount`) are written by
`postEvent` before they are read. -/
def SceneEvent.new (argv : Nat) : SceneEvent :=
  { mArgv := argv, startTime := 0, time := 0, sequenceCount := 0,
    destObject := NULL, execute := false }

/-- `class SceneGraphEventQueue` without its `nextQueue` link. -/
structure SceneGraphEventQueue where
  pScene : SimObject
  eventQueue : List SceneEvent
  currentSceneTime : F32
  eventSequence : Nat
  executingEvents : Bool
deriving DecidableEq, Repr

/-- The globals of the namespace: `gGraphQueueRoot` (field `root`), the chain
`gGraphQueueRoot->nextQueue, ...` (field `rest`) and `gAbortEvents`. -/
structure Registry where
  root : SceneGraphEventQueue
  rest : List SceneGraphEventQueue
  gAbortEvents : Bool
deriving DecidableEq, Repr

/-- Result of a call: it returns a value, or an `AssertFatal` stops the
program in the given state. -/
inductive Outcome (α : Type) where
  | ret (val : α)
  | fatal (state : Registry)
deriving DecidableEq, Repr

/-- All queues in list order, the root first. -/
def Registry.all (r : Registry) : List SceneGraphEventQueue := r.root :: r.rest

/-- Writes through the pointer `queueCurrent` when it points at position `i`
of the chain (position 0 is the root). -/
def Registry.setQueue (r : Registry) (i : Nat) (q : SceneGraphEventQueue) : Registry :=
  match i with
  | 0 => { r with root := q }
  | j + 1 => { r with rest := r.rest.set j q }

/-- `SceneGraphEventQueue::SceneGraphEventQueue(destScene)` as it leaves the
new object. -/
def SceneGraphEventQueue.new (destScene : SimObject) : SceneGraphEventQueue :=
  { pScene := destScene, eventQueue := [], currentSceneTime := 0,
    eventSequence := 1, executingEvents := false }

/-- The static initialisers: `gGraphQueueRoot = new SceneGraphEventQueue(NULL)`
and `gAbortEvents = false`. -/
def Registry.init : Registry :=
  { root := SceneGraphEventQueue.new NULL, rest := [], gAbortEvents := false }

/-- The constructor run on an initialised registry: the walk to the last
queue of the chain and `current->nextQueue = this`. -/
def constructQueue (r : Registry) (destScene : SimObject) : Registry :=
  { r with rest := r.rest ++ [SceneGraphEventQueue.new destScene] }

/-- The lookup loop shared by all operations:
`while(queueWalk != NULL && queueCurrent->pScene != destScene)
 { queueCurrent = queueWalk; queueWalk = queueCurrent->nextQueue; }`.
`ci`/`cur` are the position and value of `queueCurrent`, `wi` the position of
`queueWalk` and the list is the chain from `queueWalk` on (empty for `NULL`).
The result is `queueCurrent` when the loop ends. -/
def lookupLoop (destScene : SimObject) :
    Nat → SceneGraphEventQueue → Nat → List SceneGraphEventQueue → Nat × SceneGraphEventQueue
  | ci, cur, _, [] => (ci, cur)
  | ci, cur, wi, w :: ws =>
    if cur.pScene ≠ destScene then lookupLoop destScene wi w (wi + 1) ws else (ci, cur)

/-- Lookup with `queueWalk = gGraphQueueRoot` (postEvent and the queries). -/
def lookupFromRoot (r : Registry) (destScene : SimObject) : Nat × SceneGraphEventQueue :=
  lookupLoop destScene 0 r.root 0 (r.root :: r.rest)

/-- Lookup with `queueWalk = gGraphQueueRoot->nextQueue` (cancelEvent and
advanceToTime). -/
def lookupFromNext (r : Registry) (destScene : SimObject) : Nat × SceneGraphEventQueue :=
  lookupLoop destScene 0 r.root 1 r.rest

/-- Second insertion loop of postEvent:
`while((current = *walk) != NULL && (current->time == event->time)) walk = &(current->nextEvent);`
followed by the splice `event->nextEvent = current; *walk = event;`. -/
def insertWalkEq (event : SceneEvent) : List SceneEvent → List SceneEvent
  | [] => [event]
  | current :: tl =>
    if current.time = event.time then current :: insertWalkEq event tl
    else event :: current :: tl

/-- First insertion loop of postEvent:
`while((current = *walk) != NULL && (current->time < event->time)) walk = &(current->nextEvent);`
continued by the second loop. -/
def insertWalkLt (event : SceneEvent) : List SceneEvent → List SceneEvent
  | [] => insertWalkEq event []
  | current :: tl =>
    if current.time < event.time then current :: insertWalkLt event tl
    else insertWalkEq event (current :: tl)

/-- `SceneEventManager::postEvent(SimObject*, SimObject*, SceneEvent*, F32)`. -/
def postEvent (asserts : Bool) (r : Registry) (destScene destObject : SimObject)
    (event : SceneEvent) (time : F32) : Outcome (Registry × Nat) :=
  if asserts && destObject == NULL then .fatal r
  else
    let found := lookupFromRoot r destScene
    let queueCurrent := found.2
    if queueCurrent.pScene ≠ destScene then .ret (r, InvalidEventId)
    else if asserts && !(time == -1 || decide (time ≥ queueCurrent.currentSceneTime)) then .fatal r
    else
      let time := if time = -1 then queueCurrent.currentSceneTime else time
      let event := { event with time := time, startTime := queueCurrent.currentSceneTime,
                                destObject := destObject }
      if destObject = NULL then .ret (r, InvalidEventId)
      else
        let event := { event with sequenceCount := queueCurrent.eventSequence }
        let queueCurrent := { queueCurrent with
          eventSequence := (queueCurrent.eventSequence + 1) % U32_SIZE,
          eventQueue := insertWalkLt event queueCurrent.eventQueue }
        .ret (r.setQueue found.1 queueCurrent, event.sequenceCount)

/-- The removal loop of cancelEvent: unlink the first event whose
`sequenceCount` is `eventSequence` and return. -/
def cancelWalk (eventSequence : Nat) : List SceneEvent → List SceneEvent
  | [] => []
  | current :: tl =>
    if current.sequenceCount = eventSequence then tl
    else current :: cancelWalk eventSequence tl

/-- `SceneEventManager::cancelEvent`. -/
def cancelEvent (r : Registry) (destScene : SimObject) (eventSequence : Nat) : Registry :=
  let found := lookupFromNext r destScene
  let queueCurrent := found.2
  if queueCurrent.pScene ≠ destScene then r
  else r.setQueue found.1
    { queueCurrent with eventQueue := cancelWalk eventSequence queueCurrent.eventQueue }

/-- The else-branch loop of cancelPendingEvents: unlink every event whose
`destObject` is `obj`. -/
def cancelObjectWalk (obj : SimObject) : List SceneEvent → List SceneEvent
  | [] => []
  | current :: tl =>
    if current.destObject = obj then cancelObjectWalk obj tl
    else current :: cancelObjectWalk obj tl

/-- The loop of cancelPendingEvents. `curScene` is the value read by the loop
test `queueCurrent->pScene`, the list is the chain from `queueWalk` on and
`abort` is `gAbortEvents`; the result is the chain that replaces it and the
flag. In the delete branch the queue is cleared, its destructor raises
`gAbortEvents` when `executingEvents` is set, and it is unlinked; the next
loop test reads `pScene` of that deleted queue, for which the model takes the
value the field held. -/
def cancelPendingLoop (obj : SimObject) :
    SimObject → List SceneGraphEventQueue → Bool → List SceneGraphEventQueue × Bool
  | _, [], abort => ([], abort)
  | curScene, w :: ws, abort =>
    if curScene ≠ obj then
      if w.pScene = obj then
        cancelPendingLoop obj w.pScene ws (abort || w.executingEvents)
      else
        let out := cancelPendingLoop obj w.pScene ws abort
        ({ w with eventQueue := cancelObjectWalk obj w.eventQueue } :: out.1, out.2)
    else (w :: ws, abort)

/-- `SceneEventManager::cancelPendingEvents`. -/
def cancelPendingEvents (r : Registry) (obj : SimObject) : Registry :=
  let out := cancelPendingLoop obj r.root.pScene r.rest r.gAbortEvents
  { r with rest := out.1, gAbortEvents := out.2 }

/-- The scan of the four queries:
`for(walk = eventQueue; walk; walk = walk->nextEvent) if(walk->sequenceCount == eventSequence)`. -/
def findEvent (eventSequence : Nat) : List SceneEvent → Option SceneEvent
  | [] => none
  | walk :: tl =>
    if walk.sequenceCount = eventSequence then some walk else findEvent eventSequence tl

/-- `SceneEventManager::isEventPending`. -/
def isEventPending (r : Registry) (destScene : SimObject) (eventSequence : Nat) : Bool :=
  let queueCurrent := (lookupFromRoot r destScene).2
  if queueCurrent.pScene ≠ destScene then false
  else match findEvent eventSequence queueCurrent.eventQueue with
    | some _ => true
    | none => false

/-- The for-loop of advanceToTime. The arguments are `currentSceneTime` and
the chain from `event` on; the result is `(ok, currentSceneTime, chain)`,
where `ok = false` means that the inner `AssertFatal` stopped the loop. -/
def advanceLoop (asserts : Bool) (targetTime : F32) :
    F32 → List SceneEvent → Bool × F32 × List SceneEvent
  | clock, [] => (true, clock, [])
  | clock, event :: tl =>
    if event.time ≤ targetTime then
      if event.execute then
        let out := advanceLoop asserts targetTime clock tl
        (out.1, out.2.1, event :: out.2.2)
      else if asserts && !decide (event.time ≥ clock) then (false, clock, event :: tl)
      else
        let out := advanceLoop asserts targetTime event.time tl
        (out.1, out.2.1, { event with execute := true } :: out.2.2)
    else (true, clock, event :: tl)

/-- `SceneEventManager::advanceToTime`. -/
def advanceToTime (asserts : Bool) (r : Registry) (destScene : SimObject) (targetTime : F32) :
    Outcome Registry :=
  let found := lookupFromNext r destScene
  let queueCurrent := found.2
  if queueCurrent.pScene ≠ destScene then .ret r
  else if asserts && !decide (targetTime ≥ queueCurrent.currentSceneTime) then .fatal r
  else
    let out := advanceLoop asserts targetTime queueCurrent.currentSceneTime queueCurrent.eventQueue
    if out.1 then
      .ret (r.setQueue found.1
        { queueCurrent with currentSceneTime := targetTime, eventQueue := out.2.2 })
    else
      .fatal (r.setQueue found.1
        { queueCurrent with currentSceneTime := out.2.1, eventQueue := out.2.2 })

/-- What happened to an event that left a queue. The number is the position
of the queue in the chain (the root is 0). -/
inductive Emit where
  | processed (queue : Nat) (event : SceneEvent)
  | dropped (queue : Nat) (event : SceneEvent)
deriving DecidableEq, Repr

/-- The inner loop of executeEvents for payloads that do not call back into
the scheduler (so `gAbortEvents` keeps the value `abort` during the loop):
while the flag is clear and the front event has `execute` set, unlink it,
call `process` unless `destObject->isDeleted()`, and delete it. The result is
the remaining chain and, in order, what was done with the removed events:
`processed` when `process` was called, `dropped` when the target was deleted. -/
def dispatchLoop (isDeleted : SimObject → Bool) (abort : Bool) (qi : Nat) :
    List SceneEvent → List SceneEvent × List Emit
  | [] => ([], [])
  | event :: tl =>
    if !abort && event.execute then
      let out := dispatchLoop isDeleted abort qi tl
      (out.1, (if isDeleted event.destObject then Emit.dropped qi event
               else Emit.processed qi event) :: out.2)
    else (event :: tl, [])

/-- The outer loop of executeEvents over the chain from `queueWalk` on, whose
first queue has position `qi`. Each queue gets `executingEvents = true`, the
inner loop, and `executingEvents = false`. -/
def executeLoop (isDeleted : SimObject → Bool) (abort : Bool) :
    Nat → List SceneGraphEventQueue → List SceneGraphEventQueue × List Emit
  | _, [] => ([], [])
  | qi, queueCurrent :: ws =>
    let out := dispatchLoop isDeleted abort qi queueCurrent.eventQueue
    let tl := executeLoop isDeleted abort (qi + 1) ws
    ({ queueCurrent with eventQueue := out.1, executingEvents := false } :: tl.1,
      out.2 ++ tl.2)

/-- `SceneEventManager::executeEvents` for payloads that do not call back into
the scheduler. -/
def executeEvents (isDeleted : SimObject → Bool) (r : Registry) : Registry × List Emit :=
  let out := executeLoop isDeleted r.gAbortEvents 1 r.rest
  ({ r with rest := out.1 }, out.2)

/-! ## Traces of calls -/

/-- One call of the interface: the queue constructor (`new
SceneGraphEventQueue(scene)`), `postEvent` with an event fresh from the
`SceneEvent` constructor (as both `sceneSchedule` console methods do),
`cancelEvent`, `cancelPendingEvents`, `advanceToTime`, and `executeEvents`
together with the answers `isDeleted` gives during that pass. -/
inductive Op where
  | construct (scene : SimObject)
  | post (scene obj : SimObject) (argv : Nat) (time : F32)
  | cancel (scene : SimObject) (id : Nat)
  | cancelPending (obj : SimObject)
  | advance (scene : SimObject) (time : F32)
  | execute (isDeleted : SimObject → Bool)

/-- One call run on a registry: the new registry and what executeEvents did
with the events it removed. -/
def step (asserts : Bool) (r : Registry) : Op → Outcome (Registry × List Emit)
  | .construct scene => .ret (constructQueue r scene, [])
  | .post scene obj argv time =>
    match postEvent asserts r scene obj (SceneEvent.new argv) time with
    | .ret out => .ret (out.1, [])
    | .fatal st => .fatal st
  | .cancel scene id => .ret (cancelEvent r scene id, [])
  | .cancelPending obj => .ret (cancelPendingEvents r obj, [])
  | .advance scene time =>
    match advanceToTime asserts r scene time with
    | .ret r2 => .ret (r2, [])
    | .fatal st => .fatal st
  | .execute isDeleted => .ret (executeEvents isDeleted r)

/-- A sequence of calls run from a registry; the outputs are concatenated. -/
def run (asserts : Bool) : Registry → List Op → Outcome (Registry × List Emit)
  | r, [] => .ret (r, [])
  | r, op :: ops =>
    match step asserts r op with
    | .ret out =>
      match run asserts out.1 ops with
      | .ret out2 => .ret (out2.1, out.2 ++ out2.2)
      | .fatal st => .fatal st
    | .fatal st => .fatal st

/-- The time precondition of a call in a registry: a post whose scene has a
queue gives a time that is -1 or not before that queue's clock, an advance
whose scene has a queue gives a time not before that queue's clock. -/
def Op.pre (r : Registry) : Op → Bool
  | .post scene _ _ time =>
    let q := (lookupFromRoot r scene).2
    (q.pScene != scene) || (time == -1 || decide (time ≥ q.currentSceneTime))
  | .advance scene time =>
    let q := (lookupFromNext r scene).2
    (q.pScene != scene) || decide (time ≥ q.currentSceneTime)
  | _ => true

/-- Every call of the sequence meets its time precondition in the registry
it is made in. -/
def respects (asserts : Bool) : Registry → List Op → Bool
  | _, [] => true
  | r, op :: ops =>
    op.pre r &&
      match step asserts r op with
      | .ret out => respects asserts out.1 ops
      | .fatal _ => true

/-- Number of postEvent calls for scene `s` in a sequence of calls. -/
def postsFor (s : SimObject) : List Op → Nat
  | [] => 0
  | .post scene _ _ _ :: ops => (if scene = s then 1 else 0) + postsFor s ops
  | .construct _ :: ops => postsFor s ops
  | .cancel _ _ :: ops => postsFor s ops
  | .cancelPending _ :: ops => postsFor s ops
  | .advance _ _ :: ops => postsFor s ops
  | .execute _ :: ops => postsFor s ops

/-- The call is cancelPendingEvents. -/
def Op.isCancelPending : Op → Bool
  | .cancelPending _ => true
  | _ => false

/-- The events that executeEvents passed to `process` from the queue at
position `p`, in the order of the calls. -/
def processedAt (p : Nat) : List Emit → List SceneEvent
  | [] => []
  | .processed qi e :: em => if qi = p then e :: processedAt p em else processedAt p em
  | .dropped _ _ :: em => processedAt p em

/-- The compound key order of the spec: earlier fire time, or equal fire time
and smaller `sequenceCount`. -/
def firesBefore (a b : SceneEvent) : Prop :=
  a.time < b.time ∨ (a.time = b.time ∧ a.sequenceCount < b.sequenceCount)

instance (a b : SceneEvent) : Decidable (firesBefore a b) := by
  unfold firesBefore; infer_instance

/-- `n` rounds on scene 1 that each post an event (target 5, time -1) and
cancel it again; `s` is the id the first post of the rounds returns. -/
def postCancelRounds : Nat → Nat → List Op
  | _, 0 => []
  | s, n + 1 => Op.post 1 5 0 (-1) :: Op.cancel 1 s :: postCancelRounds ((s + 1) % U32_SIZE) n

/-- The registry with the sentinel and one queue, owned by scene 1, that is
empty, has clock 0 and has `eventSequence = s`. -/
def registryAt (s : Nat) : Registry :=
  { root := SceneGraphEventQueue.new NULL,
    rest := [{ pScene := 1, eventQueue := [], currentSceneTime := 0, eventSequence := s,
               executingEvents := false }],
    gAbortEvents := false }

/-- What one call can do to one queue, at position `p` of the chain: nothing,
or the body of the call when the call operates on this queue. `pre` says
whether the call met its time precondition; the list holds the events the
call passed to `process` from this queue. -/
inductive QEffect (asserts : Bool) (p : Nat) :
    Op → Bool → SceneGraphEventQueue → SceneGraphEventQueue → List SceneEvent → Prop where
  | same (op : Op) (pre : Bool) (q : SceneGraphEventQueue) : QEffect asserts p op pre q q []
  | post (pre : Bool) (q : SceneGraphEventQueue) (s obj : SimObject) (argv : Nat) (t : F32)
      (hs : q.pScene = s) (hobj : obj ≠ NULL)
      (ht : pre = true → t = -1 ∨ t ≥ q.currentSceneTime) :
      QEffect asserts p (.post s obj argv t) pre q
        { q with
          eventSequence := (q.eventSequence + 1) % U32_SIZE,
          eventQueue := insertWalkLt
            { mArgv := argv, startTime := q.currentSceneTime,
              time := if t = -1 then q.currentSceneTime else t,
              sequenceCount := q.eventSequence, destObject := obj, execute := false }
            q.eventQueue } []
  | cancel (pre : Bool) (q : SceneGraphEventQueue) (s : SimObject) (id : Nat) :
      QEffect asserts p (.cancel s id) pre q
        { q with eventQueue := cancelWalk id q.eventQueue } []
  | cancelObject (pre : Bool) (q : SceneGraphEventQueue) (obj : SimObject) :
      QEffect asserts p (.cancelPending obj) pre q
        { q with eventQueue := cancelObjectWalk obj q.eventQueue } []
  | advance (pre : Bool) (q : SceneGraphEventQueue) (s : SimObject) (t : F32)
      (ht : pre = true → t ≥ q.currentSceneTime)
      (hok : (advanceLoop asserts t q.currentSceneTime q.eventQueue).1 = true) :
      QEffect asserts p (.advance s t) pre q
        { q with
          currentSceneTime := t,
          eventQueue := (advanceLoop asserts t q.currentSceneTime q.eventQueue).2.2 } []
  | dispatch (pre : Bool) (q : SceneGraphEventQueue) (isDeleted : SimObject → Bool)
      (abort : Bool) :
      QEffect asserts p (.execute isDeleted) pre q
        { q with
          eventQueue := (dispatchLoop isDeleted abort p q.eventQueue).1,
          executingEvents := false }
        (processedAt p (dispatchLoop isDeleted abort p q.eventQueue).2)

/-! ## Predicates of the statements -/

/-- The commands of the events queued in a chain of queues. An event object
is told apart from the others by its command (`mArgv`). -/
def queuedArgs : List SceneGraphEventQueue → List Nat
  | [] => []
  | q :: qs => q.eventQueue.map (fun e => e.mArgv) ++ queuedArgs qs

/-- The commands of the events that executeEvents removed (executed or
dropped). -/
def emitArgs : List Emit → List Nat
  | [] => []
  | .processed _ e :: em => e.mArgv :: emitArgs em
  | .dropped _ e :: em => e.mArgv :: emitArgs em

/-- The commands of the events handed to postEvent by a sequence of calls. -/
def postedArgs : List Op → List Nat
  | [] => []
  | .post _ _ argv _ :: ops => argv :: postedArgs ops
  | .construct _ :: ops => postedArgs ops
  | .cancel _ _ :: ops => postedArgs ops
  | .cancelPending _ :: ops => postedArgs ops
  | .advance _ _ :: ops => postedArgs ops
  | .execute _ :: ops => postedArgs ops

/-- The chain of a queue is ordered by the compound key and no two of its
events have the same `sequenceCount`. -/
def QueueOrdered (q : SceneGraphEventQueue) : Prop :=
  q.eventQueue.Pairwise firesBefore ∧ (q.eventQueue.map (fun e => e.sequenceCount)).Nodup

/-- The chain of a queue is in non-decreasing fire time. -/
def QueueTimeSorted (q : SceneGraphEventQueue) : Prop :=
  q.eventQueue.Pairwise (fun a b => a.time ≤ b.time)

/-- Every id in the chain was issued before the current `eventSequence`. -/
def QueueBelow (q : SceneGraphEventQueue) : Prop :=
  ∀ e ∈ q.eventQueue, e.sequenceCount < q.eventSequence

/-- Due events have fire time at most the clock, events that are not due have
fire time at least the clock, and no event that is not due precedes a due
one. -/
def QueueTimed (q : SceneGraphEventQueue) : Prop :=
  (∀ e ∈ q.eventQueue, e.execute = true → e.time ≤ q.currentSceneTime) ∧
  (∀ e ∈ q.eventQueue, e.execute = false → q.currentSceneTime ≤ e.time) ∧
  q.eventQueue.Pairwise (fun a b => b.execute = true → a.execute = true)

/-- Where an event that is executed later can come from, seen from a queue:
it has the key of an event of the chain, or it is posted later and then has a
fire time from the clock on and an id from `eventSequence` on. -/
def Origin (q : SceneGraphEventQueue) (e : SceneEvent) : Prop :=
  (∃ x ∈ q.eventQueue, x.time = e.time ∧ x.sequenceCount = e.sequenceCount) ∨
  (q.currentSceneTime ≤ e.time ∧ q.eventSequence ≤ e.sequenceCount)

/-- The fire times an event that is executed later can have, seen from a
queue: the fire time of an event of the chain, or a time from the clock on. -/
def OriginTime (q : SceneGraphEventQueue) (e : SceneEvent) : Prop :=
  (∃ x ∈ q.eventQueue, x.time = e.time) ∨ q.currentSceneTime ≤ e.time

/-- Order of posting among events of equal fire time, for sequences of calls
whose posts carry increasing commands (the command then numbers the posts in
the order they are made): earlier fire time, or equal fire time and smaller
command. No operation reads the command. -/
def postedBefore (a b : SceneEvent) : Prop :=
  a.time < b.time ∨ (a.time = b.time ∧ a.mArgv < b.mArgv)

/-- The commands in the chain are smaller than the commands the calls `ops`
will post. -/
def QueuePosted (q : SceneGraphEventQueue) (ops : List Op) : Prop :=
  ∀ e ∈ q.eventQueue, ∀ a ∈ postedArgs ops, e.mArgv < a

/-- Where an event that is executed during the calls `ops` can come from, by
fire time and command: the chain, or a post among `ops`. -/
def OriginPosted (q : SceneGraphEventQueue) (ops : List Op) (e : SceneEvent) : Prop :=
  (∃ x ∈ q.eventQueue, x.time = e.time ∧ x.mArgv = e.mArgv) ∨
  (q.currentSceneTime ≤ e.time ∧ e.mArgv ∈ postedArgs ops)

/-- What the loop of advanceToTime does to one event when it reaches it. -/
def markDue (targetTime : F32) (e : SceneEvent) : SceneEvent :=
  if e.time ≤ targetTime then { e with execute := true } else e

/-- Every queue of the registry that is owned by `s` has an ordered chain with
distinct ids that were issued before its `eventSequence`, and the counter is
at least 1 and will not wrap during the calls `ops`. -/
def RegistryOrdered (r : Registry) (s : SimObject) (ops : List Op) : Prop :=
  ∀ q ∈ r.all, q.pScene = s → QueueOrdered q ∧ QueueBelow q ∧ 1 ≤ q.eventSequence ∧
    q.eventSequence + postsFor s ops < U32_SIZE

/-- A sequence of calls that wraps the counter of scene 1: the queue is
constructed, `2^32 - 2` rounds of post and cancel bring `eventSequence` to
`2^32 - 1`, and two events are posted for time 5. -/
def wrapTwoPosts : List Op :=
  Op.construct 1 ::
    (postCancelRounds 1 4294967294 ++ [Op.post 1 5 0 5, Op.post 1 5 1 5])

/-- A sequence of calls that brings the counter of scene 1 to 0: the queue is
constructed and `2^32 - 1` rounds of post and cancel follow. -/
def wrapToZero : List Op :=
  Op.construct 1 :: postCancelRounds 1 4294967295

/-- Scenarios A and B of the spec in one sequence of calls on scene 1: three
posts (for times 5, 3 and 5), an advance to 10 and a dispatch pass. -/
def scenarioAB : List Op :=
  [Op.construct 1, Op.post 1 5 0 5, Op.post 1 5 1 3, Op.post 1 5 2 5, Op.advance 1 10,
    Op.execute (fun _ => false)]

/-- What the dispatch pass of `scenarioAB` does: it executes the event for
time 3 and then the two events for time 5, in the order they were posted. -/
def scenarioABLog : List Emit :=
  [Emit.processed 1 { mArgv := 1, startTime := 0, time := 3, sequenceCount := 2,
                      destObject := 5, execute := true },
   Emit.processed 1 { mArgv := 0, startTime := 0, time := 5, sequenceCount := 1,
                      destObject := 5, execute := true },
   Emit.processed 1 { mArgv := 2, startTime := 0, time := 5, sequenceCount := 3,
                      destObject := 5, execute := true }]

/-- The queue of scene 1 after the construction and the three posts of
`scenarioAB`. -/
def queueThreePosts : SceneGraphEventQueue :=
  { pScene := 1,
    eventQueue := [{ mArgv := 1, startTime := 0, time := 3, sequenceCount := 2,
                     destObject := 5, execute := false },
                   { mArgv := 0, startTime := 0, time := 5, sequenceCount := 1,
                     destObject := 5, execute := false },
                   { mArgv := 2, startTime := 0, time := 5, sequenceCount := 3,
                     destObject := 5, execute := false }],
    currentSceneTime := 0, eventSequence := 4, executingEvents := false }

/-- The registry after the construction and the three posts of `scenarioAB`. -/
def registryThreePosts : Registry :=
  { root := SceneGraphEventQueue.new NULL, rest := [queueThreePosts], gAbortEvents := false }

/-- The registry after `wrapTwoPosts`: the two events posted for time 5 carry
the ids `2^32 - 1` and `0`, in this order. -/
def registryWrapped : Registry :=
  { root := SceneGraphEventQueue.new NULL,
    rest := [{ pScene := 1,
               eventQueue := [{ mArgv := 0, startTime := 0, time := 5,
                                sequenceCount := 4294967295, destObject := 5,
                                execute := false },
                              { mArgv := 1, startTime := 0, time := 5, sequenceCount := 0,
                                destObject := 5, execute := false }],
               currentSceneTime := 0, eventSequence := 1, executingEvents := false }],
    gAbortEvents := false }

/-- On the fresh queue of scene 1: `2^32 - 2` rounds of post and cancel, two
posts for time 5, an advance to 5 and a dispatch pass. -/
def wrapDispatch : List Op :=
  postCancelRounds 1 4294967294 ++
    [Op.post 1 5 0 5, Op.post 1 5 1 5, Op.advance 1 5, Op.execute (fun _ => false)]

/-- Scenario C of the spec: the queue of scene 1 is constructed and an event
is posted for time 5. -/
def scenarioCStart : List Op := [Op.construct 1, Op.post 1 5 0 5]

/-- Scenario C of the spec, after the cancel: advance to 10 and dispatch. -/
def scenarioCEnd : List Op := [Op.advance 1 10, Op.execute (fun _ => false)]

/-- The registry of scenario C before the cancel: the event with id 1 waits
for time 5 in the queue of scene 1. -/
def registryScenarioC : Registry :=
  { root := SceneGraphEventQueue.new NULL,
    rest := [{ pScene := 1,
               eventQueue := [{ mArgv := 0, startTime := 0, time := 5, sequenceCount := 1,
                                destObject := 5, execute := false }],
               currentSceneTime := 0, eventSequence := 2, executingEvents := false }],
    gAbortEvents := false }

/-- The registry of scenario C at its end: the queue of scene 1 is empty at
clock 10. -/
def registryScenarioCEnd : Registry :=
  { root := SceneGraphEventQueue.new NULL,
    rest := [{ pScene := 1, eventQueue := [], currentSceneTime := 10, eventSequence := 2,
               executingEvents := false }],
    gAbortEvents := false }

/-- `q` is the first queue of the chain whose `pScene` is `s`, and it sits at
position `i`: the queue every lookup for `s` selects. -/
def Registry.firstOwned (r : Registry) (s : SimObject) (i : Nat)
    (q : SceneGraphEventQueue) : Prop :=
  ∃ l1 l2, r.all = l1 ++ q :: l2 ∧ l1.length = i ∧ (∀ x ∈ l1, x.pScene ≠ s) ∧ q.pScene = s

/-- The registry of scenario E of the spec: scene 1 at clock 4 holds the
event with id 1 that was posted at clock 2 for time 7. -/
def registryScenarioE : Registry :=
  { root := SceneGraphEventQueue.new NULL,
    rest := [{ pScene := 1,
               eventQueue := [{ mArgv := 0, startTime := 2, time := 7, sequenceCount := 1,
                                destObject := 5, execute := false }],
               currentSceneTime := 4, eventSequence := 2, executingEvents := false }],
    gAbortEvents := false }

/-- The registry of scenario D with a second scene: scene 1 owns the first
queue, and the queue of scene 2 behind it holds an event whose target is
object 1 and an event whose target is object 7. -/
def registryScenarioD : Registry :=
  { root := SceneGraphEventQueue.new NULL,
    rest := [{ pScene := 1, eventQueue := [], currentSceneTime := 0, eventSequence := 1,
               executingEvents := false },
             { pScene := 2,
               eventQueue := [{ mArgv := 0, startTime := 0, time := 5, sequenceCount := 1,
                                destObject := 1, execute := false },
                              { mArgv := 1, startTime := 0, time := 6, sequenceCount := 2,
                                destObject := 7, execute := false }],
               currentSceneTime := 0, eventSequence := 3, executingEvents := false }],
    gAbortEvents := false }

/-- The same two queues registered in the other order. -/
def registryScenarioDSwapped : Registry :=
  { root := SceneGraphEventQueue.new NULL,
    rest := [{ pScene := 2,
               eventQueue := [{ mArgv := 0, startTime := 0, time := 5, sequenceCount := 1,
                                destObject := 1, execute := false },
                              { mArgv := 1, startTime := 0, time := 6, sequenceCount := 2,
                                destObject := 7, execute := false }],
               currentSceneTime := 0, eventSequence := 3, executingEvents := false },
             { pScene := 1, eventQueue := [], currentSceneTime := 0, eventSequence := 1,
               executingEvents := false }],
    gAbortEvents := false }

/-- Two values of one queue object that differ at most in the event chain:
the owner, the clock, the counter and the dispatching flag agree. -/
def sameQueue (a b : SceneGraphEventQueue) : Prop :=
  a.pScene = b.pScene ∧ a.currentSceneTime = b.currentSceneTime ∧
    a.eventSequence = b.eventSequence ∧ a.executingEvents = b.executingEvents

/-- The registry of scenario D while the queue of object 1 is being
dispatched (`executingEvents` is set on it). -/
def registryScenarioDBusy : Registry :=
  { root := SceneGraphEventQueue.new NULL,
    rest := [{ pScene := 2, eventQueue := [], currentSceneTime := 0, eventSequence := 1,
               executingEvents := false },
             { pScene := 1,
               eventQueue := [{ mArgv := 0, startTime := 0, time := 5, sequenceCount := 1,
                                destObject := 7, execute := false }],
               currentSceneTime := 0, eventSequence := 2, executingEvents := true }],
    gAbortEvents := false }

/-- The queue C12 describes after advanceToTime(scene, T): the clock is `T`,
every event with fire time up to `T` has its `execute` flag set, and nothing
else differs. -/
def advancedTo (T : F32) (q : SceneGraphEventQueue) : SceneGraphEventQueue :=
  { q with currentSceneTime := T, eventQueue := q.eventQueue.map (markDue T) }

/-- The queue after a walk of advanceToTime(scene, T) that runs from the front
of the chain up to the first event with fire time greater than `T`: the
events in front of that event have `execute` set (those that had it set
already are as before), the chain from that event on is as before, and the
clock is `T`. -/
def walkedTo (T : F32) (q : SceneGraphEventQueue) : SceneGraphEventQueue :=
  { q with
    currentSceneTime := T,
    eventQueue :=
      (q.eventQueue.takeWhile (fun e => decide (e.time ≤ T))).map
          (fun e => { e with execute := true }) ++
        q.eventQueue.dropWhile (fun e => decide (e.time ≤ T)) }

/-- The statement of C20 for one call, with the chain before and after it:
every event located behind an event that was due before the call has the
`execute` flag it had before the call. -/
def flagsKeptBehindDue (before after : List SceneEvent) : Prop :=
  ∀ l1 d l2, before = l1 ++ d :: l2 → d.execute = true →
    ∀ (k : Nat) (e : SceneEvent), l2[k]? = some e →
      ∃ e2 : SceneEvent, after[l1.length + 1 + k]? = some e2 ∧ e2.execute = e.execute

/-- Calls on scene 1 without a dispatch pass in between: an event is posted
for time 1, the clock is advanced to 1, and an event is posted for time 2. -/
def dueThenPending : List Op :=
  [Op.construct 1, Op.post 1 5 0 1, Op.advance 1 1, Op.post 1 5 1 2]

/-- The queue of scene 1 after `dueThenPending`: at clock 1 the event for
time 1 is due and the event for time 2 behind it is not. -/
def queueDueThenPending : SceneGraphEventQueue :=
  { pScene := 1,
    eventQueue := [{ mArgv := 0, startTime := 0, time := 1, sequenceCount := 1,
                     destObject := 5, execute := true },
                   { mArgv := 1, startTime := 1, time := 2, sequenceCount := 2,
                     destObject := 5, execute := false }],
    currentSceneTime := 1, eventSequence := 3, executingEvents := false }

/-- The registry after `dueThenPending`. -/
def registryDueThenPending : Registry :=
  { root := SceneGraphEventQueue.new NULL, rest := [queueDueThenPending],
    gAbortEvents := false }

/-- The queue `queueDueThenPending` after advanceToTime(1, 3): both events
are due at clock 3. -/
def queueBothDue : SceneGraphEventQueue :=
  { pScene := 1,
    eventQueue := [{ mArgv := 0, startTime := 0, time := 1, sequenceCount := 1,
                     destObject := 5, execute := true },
                   { mArgv := 1, startTime := 1, time := 2, sequenceCount := 2,
                     destObject := 5, execute := true }],
    currentSceneTime := 3, eventSequence := 3, executingEvents := false }

/-- The registry `registryDueThenPending` after advanceToTime(1, 3). -/
def registryBothDue : Registry :=
  { root := SceneGraphEventQueue.new NULL, rest := [queueBothDue], gAbortEvents := false }

/-- The owners of the queues of the chain in list order, the sentinel (owner
`NULL`) first. -/
def Registry.owners (r : Registry) : List SimObject := r.all.map (fun q => q.pScene)

/-- A constructor call is made for a scene that is not the owner of any queue
of the chain (so it is not the null handle of the sentinel either); nothing
is asked of the other calls. -/
def Op.fresh (r : Registry) : Op → Bool
  | .construct scene => decide (scene ∉ r.owners)
  | _ => true

/-- Every constructor call of the sequence is made for a scene that, at that
moment, is not the owner of any queue of the chain (so it is not the null
handle of the sentinel either). -/
def constructsFresh (asserts : Bool) : Registry → List Op → Bool
  | _, [] => true
  | r, op :: ops =>
    op.fresh r &&
      match step asserts r op with
      | .ret out => constructsFresh asserts out.1 ops
      | .fatal _ => true

/-- The registry after two constructor calls for scene 1. -/
def registryTwice : Registry :=
  { root := SceneGraphEventQueue.new NULL,
    rest := [SceneGraphEventQueue.new 1, SceneGraphEventQueue.new 1],
    gAbortEvents := false }

/-- What C19 says a pass does with the queues of a chain whose first queue has
position `qi`: for each queue in order, the events of the maximal front run
with `execute` set, in list order, executed when the target is not deleted and
dropped otherwise. -/
def passLog (isDeleted : SimObject → Bool) : Nat → List SceneGraphEventQueue → List Emit
  | _, [] => []
  | qi, q :: qs =>
    (q.eventQueue.takeWhile (fun e => e.execute)).map
        (fun e => if isDeleted e.destObject then Emit.dropped qi e else Emit.processed qi e) ++
      passLog isDeleted (qi + 1) qs

/-- What C19 says a pass leaves of a queue: the chain without its maximal
front run of due events, and `executingEvents` false. -/
def afterPass (q : SceneGraphEventQueue) : SceneGraphEventQueue :=
  { q with eventQueue := q.eventQueue.dropWhile (fun e => e.execute), executingEvents := false }

/-- A registry with two scenes: in the queue of scene 1 two due events (the
target of the second one, object 6, is deleted) stand in front of an event
that is not due; the queue of scene 2 holds one due event. The sentinel holds
a due event too. -/
def registryTwoScenes : Registry :=
  { root := { pScene := NULL,
              eventQueue := [{ mArgv := 9, startTime := 0, time := 0, sequenceCount := 1,
                               destObject := 5, execute := true }],
              currentSceneTime := 0, eventSequence := 2, executingEvents := false },
    rest := [{ pScene := 1,
               eventQueue := [{ mArgv := 0, startTime := 0, time := 1, sequenceCount := 1,
                                destObject := 5, execute := true },
                              { mArgv := 1, startTime := 0, time := 2, sequenceCount := 2,
                                destObject := 6, execute := true },
                              { mArgv := 2, startTime := 0, time := 7, sequenceCount := 3,
                                destObject := 5, execute := false }],
               currentSceneTime := 3, eventSequence := 4, executingEvents := false },
             { pScene := 2,
               eventQueue := [{ mArgv := 3, startTime := 0, time := 1, sequenceCount := 1,
                                destObject := 5, execute := true }],
               currentSceneTime := 1, eventSequence := 2, executingEvents := false }],
    gAbortEvents := false }

/-- The call is advanceToTime. -/
def Op.isAdvance : Op → Bool
  | .advance _ _ => true
  | _ => false

/-- The index, in the chain from `queueWalk` on, of the queue that the loop of
cancelPendingEvents deletes, if it deletes one; the arguments are those of
`cancelPendingLoop`. The loop deletes the first queue owned by `obj` that it
reaches and ends after that. -/
def deletedIndex (obj : SimObject) : SimObject → List SceneGraphEventQueue → Option Nat
  | _, [] => none
  | curScene, w :: ws =>
    if curScene ≠ obj then
      if w.pScene = obj then some 0
      else (deletedIndex obj w.pScene ws).map (fun j => j + 1)
    else none

/-- Where the element at index `k` of a list is after the element at index
`d` (if any) was removed: nowhere when `k` is that index, one place to the
front when it stood behind it. -/
def trackIndex (d : Option Nat) (k : Nat) : Option Nat :=
  match d with
  | none => some k
  | some j => if k < j then some k else if k = j then none else some (k - 1)

/-- Where the queue object at position `p` of the chain (the sentinel is at
0) stands after a call: cancelPendingEvents moves the queues behind the one
it deletes one place to the front and the deleted queue is nowhere; every
other call leaves the queues where they are (the constructor appends at the
end). -/
def Op.track (r : Registry) : Op → Nat → Option Nat
  | .cancelPending _, 0 => some 0
  | .cancelPending obj, k + 1 =>
    (trackIndex (deletedIndex obj r.root.pScene r.rest) k).map (fun j => j + 1)
  | _, p => some p

/-- Where the queue object at position `p` stands after a sequence of calls,
if it still exists then. -/
def trackRun (asserts : Bool) : Registry → List Op → Nat → Option Nat
  | _, [], p => some p
  | r, op :: ops, p =>
    match op.track r p with
    | none => none
    | some p1 =>
      match step asserts r op with
      | .ret out => trackRun asserts out.1 ops p1
      | .fatal _ => none

/-- Calls on two scenes: both queues are constructed, scene 2 is advanced to
3, the queue of scene 1 is destroyed, an event is posted to scene 2, and
scene 2 is advanced to 8. -/
def clockTrace : List Op :=
  [Op.construct 1, Op.construct 2, Op.advance 2 3, Op.cancelPending 1, Op.post 2 5 0 4,
    Op.advance 2 8]

/-! ## The dispatch driver with payloads that call back -/

/-- A call that a payload (`SceneEvent::process`, which runs script code)
makes into the scheduler while executeEvents runs it: the queue constructor,
postEvent, cancelEvent, cancelPendingEvents (the destruction of a queue when
`obj` owns one) and advanceToTime. A payload does not start a dispatch pass
of its own. -/
inductive Call where
  | construct (scene : SimObject)
  | post (scene obj : SimObject) (argv : Nat) (time : F32)
  | cancel (scene : SimObject) (id : Nat)
  | cancelPending (obj : SimObject)
  | advance (scene : SimObject) (time : F32)
deriving DecidableEq, Repr

/-- The call as a call of the interface. -/
def Call.toOp : Call → Op
  | .construct scene => .construct scene
  | .post scene obj argv time => .post scene obj argv time
  | .cancel scene id => .cancel scene id
  | .cancelPending obj => .cancelPending obj
  | .advance scene time => .advance scene time

/-- A local pointer of executeEvents (`queueCurrent`, `queueWalk`): `NULL`, a
queue of the chain given by its position, or a queue that has been destroyed
since the pointer was read. -/
inductive QueuePtr where
  | null
  | live (pos : Nat)
  | gone
deriving DecidableEq, Repr

/-- The pointer after a call: it follows its queue object (`Op.track`). -/
def QueuePtr.track (r : Registry) (op : Op) : QueuePtr → QueuePtr
  | .null => .null
  | .live p =>
    match op.track r p with
    | some p1 => .live p1
    | none => .gone
  | .gone => .gone

/-- The calls of one payload run in order; the two pointers of the driver
follow their queues. -/
def runCalls (asserts : Bool) :
    Registry → QueuePtr → QueuePtr → List Call → Outcome (Registry × QueuePtr × QueuePtr)
  | r, cur, walk, [] => .ret (r, cur, walk)
  | r, cur, walk, call :: calls =>
    match step asserts r call.toOp with
    | .ret out => runCalls asserts out.1 (cur.track r call.toOp) (walk.track r call.toOp) calls
    | .fatal st => .fatal st

/-- Where executeEvents stands: at the test of the outer loop
(`while(queueWalk != NULL)`), at the test of the inner loop, behind the inner
loop (at `queueCurrent->executingEvents = false`), or it has returned. -/
inductive Pc where
  | outer
  | inner
  | leave
  | done
deriving DecidableEq, Repr

/-- What the driver does that can be observed: it unlinks an event from the
queue at a position (`executed` tells whether `process` was invoked on it or
the target was deleted); it writes a field of a queue that has been
destroyed; it reads a field of a queue that has been destroyed; a call made
by a payload stops the program at an `AssertFatal`. -/
inductive Act where
  | removed (queue : Nat) (event : SceneEvent) (executed : Bool)
  | freedWrite
  | freedRead
  | stopped
deriving DecidableEq, Repr

/-- The state of a run of executeEvents: the globals and the two locals. -/
structure Driver where
  registry : Registry
  queueCurrent : QueuePtr
  queueWalk : QueuePtr
  pc : Pc
deriving DecidableEq, Repr

/-- The state on entry of executeEvents:
`queueWalk = gGraphQueueRoot->nextQueue; queueCurrent = gGraphQueueRoot`. -/
def driverInit (r : Registry) : Driver :=
  { registry := r, queueCurrent := .live 0,
    queueWalk := if 1 < r.all.length then .live 1 else .null, pc := .outer }

/-- One step of executeEvents. `payload r e` are the calls that `process` of
the event `e` makes when it is invoked in the registry `r`.

* At the outer test: with `queueWalk == NULL` the function returns; otherwise
  `queueCurrent = queueWalk; queueWalk = queueCurrent->nextQueue;
  queueCurrent->executingEvents = true`.
* At the inner test `!gAbortEvents && queueCurrent->eventQueue &&
  queueCurrent->eventQueue->execute`: when it holds the front event is
  unlinked, `process` is invoked unless the target is deleted, the event is
  deleted, and `if(gAbortEvents) break`.
* Behind the inner loop: `queueCurrent->executingEvents = false`.

A write through a pointer to a destroyed queue changes no queue of the chain
and is recorded; at a read through such a pointer the model records it and
ends the run, since the value read is not defined. -/
def driverStep (payload : Registry → SceneEvent → List Call) (isDeleted : SimObject → Bool)
    (asserts : Bool) (d : Driver) : Option (Driver × List Act) :=
  match d.pc with
  | .done => none
  | .outer =>
    match d.queueWalk with
    | .null => some ({ d with pc := .done }, [])
    | .gone => some ({ d with pc := .done }, [Act.freedRead])
    | .live p =>
      match d.registry.all[p]? with
      | none => some ({ d with pc := .done }, [Act.freedRead])
      | some q =>
        some ({ registry := d.registry.setQueue p { q with executingEvents := true },
                queueCurrent := .live p,
                queueWalk := if p + 1 < d.registry.all.length then .live (p + 1) else .null,
                pc := .inner }, [])
  | .inner =>
    if d.registry.gAbortEvents then some ({ d with pc := .leave }, [])
    else
      match d.queueCurrent with
      | .live p =>
        match d.registry.all[p]? with
        | none => some ({ d with pc := .done }, [Act.freedRead])
        | some q =>
          match q.eventQueue with
          | [] => some ({ d with pc := .leave }, [])
          | event :: tl =>
            if event.execute then
              let r1 := d.registry.setQueue p { q with eventQueue := tl }
              if isDeleted event.destObject then
                some ({ d with registry := r1 }, [Act.removed p event false])
              else
                match runCalls asserts r1 (.live p) d.queueWalk (payload r1 event) with
                | .ret out =>
                  some ({ registry := out.1, queueCurrent := out.2.1, queueWalk := out.2.2,
                          pc := if out.1.gAbortEvents then .leave else .inner },
                        [Act.removed p event true])
                | .fatal st =>
                  some ({ d with registry := st, pc := .done },
                        [Act.removed p event true, Act.stopped])
            else some ({ d with pc := .leave }, [])
      | _ => some ({ d with pc := .done }, [Act.freedRead])
  | .leave =>
    match d.queueCurrent with
    | .live p =>
      match d.registry.all[p]? with
      | none => some ({ d with pc := .outer }, [Act.freedWrite])
      | some q =>
        some ({ d with registry := d.registry.setQueue p { q with executingEvents := false },
                       pc := .outer }, [])
    | _ => some ({ d with pc := .outer }, [Act.freedWrite])

/-- At most `n` steps of executeEvents from a state: the state reached and
what the driver did on the way. -/
def driverRun (payload : Registry → SceneEvent → List Call) (isDeleted : SimObject → Bool)
    (asserts : Bool) : Nat → Driver → Driver × List Act
  | 0, d => (d, [])
  | n + 1, d =>
    match driverStep payload isDeleted asserts d with
    | none => (d, [])
    | some out =>
      let tl := driverRun payload isDeleted asserts n out.1
      (tl.1, out.2 ++ tl.2)

/-- `SceneEventManager::executeEvents` with payloads that call back into the
scheduler, run for at most `n` steps of the driver. -/
def executeEventsWith (payload : Registry → SceneEvent → List Call)
    (isDeleted : SimObject → Bool) (asserts : Bool) (n : Nat) (r : Registry) :
    Driver × List Act :=
  driverRun payload isDeleted asserts n (driverInit r)

/-- The driver removes no event in these steps. -/
def noRemoval (acts : List Act) : Prop :=
  ∀ a ∈ acts, ∀ (p : Nat) (e : SceneEvent) (x : Bool), a ≠ Act.removed p e x

/-- Scenario of the lifetime guard: scene 1 and scene 2 have a queue each and
each queue holds one due event; the payload of the event of scene 1 (command
0) destroys the queue of scene 1. -/
def registrySelfDestroy : Registry :=
  { root := SceneGraphEventQueue.new NULL,
    rest := [{ pScene := 1,
               eventQueue := [{ mArgv := 0, startTime := 0, time := 1, sequenceCount := 1,
                                destObject := 5, execute := true },
                              { mArgv := 1, startTime := 0, time := 1, sequenceCount := 2,
                                destObject := 5, execute := true }],
               currentSceneTime := 1, eventSequence := 3, executingEvents := false },
             { pScene := 2,
               eventQueue := [{ mArgv := 2, startTime := 0, time := 1, sequenceCount := 1,
                                destObject := 5, execute := true }],
               currentSceneTime := 1, eventSequence := 2, executingEvents := false }],
    gAbortEvents := false }

/-- The payloads of the scenario: command 0 destroys the queue of scene 1 (the
scene deletes itself), the other commands make no call. -/
def payloadSelfDestroy (_ : Registry) (e : SceneEvent) : List Call :=
  if e.mArgv = 0 then [Call.cancelPending 1] else []
/-- The state of the driver in the scenario right after the payload of the
first event of scene 1 has destroyed the queue of scene 1: `gAbortEvents` is
set, `queueCurrent` points to the destroyed queue, `queueWalk` to the queue of
scene 2, and the driver is behind the inner loop. -/
def driverAborted : Driver :=
  { registry :=
      { root := SceneGraphEventQueue.new NULL,
        rest := [{ pScene := 2,
                   eventQueue := [{ mArgv := 2, startTime := 0, time := 1, sequenceCount := 1,
                                    destObject := 5, execute := true }],
                   currentSceneTime := 1, eventSequence := 2, executingEvents := false }],
        gAbortEvents := true },
    queueCurrent := .gone, queueWalk := .live 1, pc := .leave }

/-- An entry of the log of a pass of `executeEvents` as an act of the driver:
an executed or dropped event is an event the driver unlinked, with or without
invoking `process`. -/
def Emit.toAct : Emit → Act
  | .processed qi e => Act.removed qi e true
  | .dropped qi e => Act.removed qi e false

/-- The payloads that make no call into the scheduler. -/
def quietPayload (_ : Registry) (_ : SceneEvent) : List Call := []

/-- The driver gets from the state `d` to the state `d2` in some number of
steps, doing `acts` on the way. -/
def Reaches (payload : Registry → SceneEvent → List Call) (isDeleted : SimObject → Bool)
    (asserts : Bool) (d d2 : Driver) (acts : List Act) : Prop :=
  ∃ n, driverRun payload isDeleted asserts n d = (d2, acts)

/-- What C22 says a lookup yields, in its words: the first queue in list
order whose `pScene` equals the handle, with its position, or nothing when no
queue of the list has that `pScene`. `i` is the position of the head of the
list. -/
def firstQueueFor (s : SimObject) : Nat → List SceneGraphEventQueue →
    Option (Nat × SceneGraphEventQueue)
  | _, [] => none
  | i, q :: qs => if q.pScene = s then some (i, q) else firstQueueFor s (i + 1) qs

/-- The registry in which the queue of scene 1, at clock 0, holds one event
(id 1, command 7, posted at clock 0 for time 1000) and has
`eventSequence = s`. -/
def registryHolding (s : Nat) : Registry :=
  { root := SceneGraphEventQueue.new NULL,
    rest := [{ pScene := 1,
               eventQueue := [{ mArgv := 7, startTime := 0, time := 1000, sequenceCount := 1,
                                destObject := 5, execute := false }],
               currentSceneTime := 0, eventSequence := s, executingEvents := false }],
    gAbortEvents := false }

/-- Calls on scene 1 that give one id to two queued events: the queue is
constructed, an event is posted for time 1000 and gets id 1, `2^32 - 1`
rounds of post and cancel bring `eventSequence` back to 1, and a second event
is posted for time 2000 and gets id 1 again. -/
def wrapSameId : List Op :=
  Op.construct 1 :: Op.post 1 5 7 1000 ::
    (postCancelRounds 2 4294967295 ++ [Op.post 1 5 8 2000])

/-- The queue of scene 1 after `wrapSameId`: the events for the times 1000 and
2000 both have id 1. -/
def queueSameId : SceneGraphEventQueue :=
  { pScene := 1,
    eventQueue := [{ mArgv := 7, startTime := 0, time := 1000, sequenceCount := 1,
                     destObject := 5, execute := false },
                   { mArgv := 8, startTime := 0, time := 2000, sequenceCount := 1,
                     destObject := 5, execute := false }],
    currentSceneTime := 0, eventSequence := 2, executingEvents := false }

/-- The registry after `wrapSameId`. -/
def registrySameId : Registry :=
  { root := SceneGraphEventQueue.new NULL, rest := [queueSameId], gAbortEvents := false }

/-- Calls that reach the registry of scenario E: the queue of scene 1 is
constructed, the clock is advanced to 2, an event is posted for time 7, and
the clock is advanced to 4. -/
def scenarioE : List Op :=
  [Op.construct 1, Op.advance 1 2, Op.post 1 5 0 7, Op.advance 1 4]
/-- The registry of scenario E after postEvent for time 3 with `AssertFatal`
compiled out: the event with the past fire time 3 (id 2) is queued in front
at clock 4. -/
def registryPastPost : Registry :=
  { root := SceneGraphEventQueue.new NULL,
    rest := [{ pScene := 1,
               eventQueue := [{ mArgv := 9, startTime := 4, time := 3, sequenceCount := 2,
                                destObject := 5, execute := false },
                              { mArgv := 0, startTime := 2, time := 7, sequenceCount := 1,
                                destObject := 5, execute := false }],
               currentSceneTime := 4, eventSequence := 3, executingEvents := false }],
    gAbortEvents := false }

/-- The registry of scenario E after advanceToTime to 3 with `AssertFatal`
compiled out: the clock went back from 4 to 3. -/
def registryClockBack : Registry :=
  { root := SceneGraphEventQueue.new NULL,
    rest := [{ pScene := 1,
               eventQueue := [{ mArgv := 0, startTime := 2, time := 7, sequenceCount := 1,
                                destObject := 5, execute := false }],
               currentSceneTime := 3, eventSequence := 2, executingEvents := false }],
    gAbortEvents := false }

/-! ## Lookup -/

theorem lookupLoop_of_split (s : SimObject) :
    ∀ (l1 : List SceneGraphEventQueue) (ci : Nat) (cur : SceneGraphEventQueue)
      (ws : List SceneGraphEventQueue) (q : SceneGraphEventQueue)
      (l2 : List SceneGraphEventQueue),
      cur :: ws = l1 ++ q :: l2 → (∀ x ∈ l1, x.pScene ≠ s) → (q.pScene = s ∨ l2 = []) →
      lookupLoop s ci cur (ci + 1) ws = (ci + l1.length, q) := by
  intro l1
  induction l1 with
  | nil =>
    intro ci cur ws q l2 h _ hq
    simp only [List.nil_append, List.cons.injEq] at h
    obtain ⟨rfl, rfl⟩ := h
    cases ws with
    | nil => simp [lookupLoop]
    | cons w ws =>
      have : cur.pScene = s := by
        rcases hq with h | h
        · exact h
        · cases h
      simp [lookupLoop, this]
  | cons a l1 ih =>
    intro ci cur ws q l2 h hne hq
    simp only [List.cons_append, List.cons.injEq] at h
    obtain ⟨rfl, rfl⟩ := h
    have hcur : cur.pScene ≠ s := hne cur (List.mem_cons_self _ _)
    obtain ⟨w, ws, hw⟩ : ∃ w ws, w :: ws = l1 ++ q :: l2 := by
      cases l1 with
      | nil => exact ⟨q, l2, rfl⟩
      | cons b l1 => exact ⟨b, l1 ++ q :: l2, rfl⟩
    have := ih (ci + 1) w ws q l2 hw (fun x hx => hne x (List.mem_cons_of_mem _ hx)) hq
    rw [← hw]
    simp only [lookupLoop, ne_eq, hcur, not_false_eq_true, if_true]
    rw [this]; simp; omega

theorem split_exists (s : SimObject) :
    ∀ (ws : List SceneGraphEventQueue) (cur : SceneGraphEventQueue),
      ∃ l1 q l2, cur :: ws = l1 ++ q :: l2 ∧ (∀ x ∈ l1, x.pScene ≠ s) ∧
        (q.pScene = s ∨ l2 = []) := by
  intro ws
  induction ws with
  | nil => intro cur; exact ⟨[], cur, [], rfl, by simp, Or.inr rfl⟩
  | cons w ws ih =>
    intro cur
    by_cases h : cur.pScene = s
    · exact ⟨[], cur, w :: ws, rfl, by simp, Or.inl h⟩
    · obtain ⟨l1, q, l2, h1, h2, h3⟩ := ih w
      refine ⟨cur :: l1, q, l2, by simp [h1], ?_, h3⟩
      intro x hx
      rcases List.mem_cons.1 hx with rfl | hx
      · exact h
      · exact h2 x hx

theorem lookupFromRoot_eq_lookupFromNext (r : Registry) (s : SimObject) :
    lookupFromRoot r s = lookupFromNext r s := by
  unfold lookupFromRoot lookupFromNext
  by_cases h : r.root.pScene = s
  · cases hr : r.rest with
    | nil => simp [lookupLoop, h]
    | cons w ws => simp [lookupLoop, h]
  · simp [lookupLoop, h]

theorem lookupFromNext_of_firstOwned (r : Registry) (s : SimObject) (i : Nat)
    (q : SceneGraphEventQueue) (h : r.firstOwned s i q) : lookupFromNext r s = (i, q) := by
  obtain ⟨l1, l2, hall, hlen, hne, hq⟩ := h
  have := lookupLoop_of_split s l1 0 r.root r.rest q l2 hall hne (Or.inl hq)
  simpa [lookupFromNext, hlen] using this

theorem lookupFromRoot_of_firstOwned (r : Registry) (s : SimObject) (i : Nat)
    (q : SceneGraphEventQueue) (h : r.firstOwned s i q) : lookupFromRoot r s = (i, q) := by
  rw [lookupFromRoot_eq_lookupFromNext]; exact lookupFromNext_of_firstOwned r s i q h

/-- A lookup either selects the first queue owned by `s`, or no queue of the
chain is owned by `s` and the lookup ends on a queue with another owner. -/
theorem lookup_cases (r : Registry) (s : SimObject) :
    (∃ i q, r.firstOwned s i q ∧ lookupFromNext r s = (i, q)) ∨
    ((∀ x ∈ r.all, x.pScene ≠ s) ∧ (lookupFromNext r s).2.pScene ≠ s) := by
  obtain ⟨l1, q, l2, hall, hne, hq⟩ := split_exists s r.rest r.root
  by_cases h : q.pScene = s
  · left
    have hf : r.firstOwned s l1.length q := ⟨l1, l2, hall, rfl, hne, h⟩
    exact ⟨l1.length, q, hf, lookupFromNext_of_firstOwned r s _ q hf⟩
  · right
    have hl2 : l2 = [] := by
      rcases hq with hq | hq
      · exact absurd hq h
      · exact hq
    have := lookupLoop_of_split s l1 0 r.root r.rest q l2 hall hne hq
    refine ⟨?_, ?_⟩
    · intro x hx
      have hx2 : x ∈ l1 ++ q :: l2 := by
        have : r.all = r.root :: r.rest := rfl
        rw [← hall, ← this]; exact hx
      rcases List.mem_append.1 hx2 with hx3 | hx3
      · exact hne x hx3
      · subst hl2
        simp at hx3; subst hx3; exact h
    · simp only [lookupFromNext]; rw [this]; exact h

theorem firstOwned_of_mem (r : Registry) (s : SimObject)
    (h : ∃ x ∈ r.all, x.pScene = s) : ∃ i q, r.firstOwned s i q := by
  rcases lookup_cases r s with ⟨i, q, hf, _⟩ | ⟨hno, _⟩
  · exact ⟨i, q, hf⟩
  · obtain ⟨x, hx, hxs⟩ := h
    exact absurd hxs (hno x hx)

theorem all_setQueue (r : Registry) (i : Nat) (q q2 : SceneGraphEventQueue)
    (l1 l2 : List SceneGraphEventQueue) (hall : r.all = l1 ++ q :: l2) (hlen : l1.length = i) :
    (r.setQueue i q2).all = l1 ++ q2 :: l2 := by
  subst hlen
  cases l1 with
  | nil =>
    simp only [Registry.all, List.nil_append, List.cons.injEq] at hall
    simp [Registry.setQueue, Registry.all, hall.2]
  | cons a l1 =>
    simp only [Registry.all, List.cons_append, List.cons.injEq] at hall
    simp [Registry.setQueue, Registry.all, hall.1, hall.2]

theorem firstOwned_setQueue (r : Registry) (s : SimObject) (i : Nat)
    (q q2 : SceneGraphEventQueue) (h : r.firstOwned s i q) (hs : q2.pScene = s) :
    (r.setQueue i q2).firstOwned s i q2 := by
  obtain ⟨l1, l2, hall, hlen, hne, _⟩ := h
  exact ⟨l1, l2, all_setQueue r i q q2 l1 l2 hall hlen, hlen, hne, hs⟩

theorem setQueue_self (r : Registry) (s : SimObject) (i : Nat) (q : SceneGraphEventQueue)
    (h : r.firstOwned s i q) : r.setQueue i q = r := by
  obtain ⟨l1, l2, hall, hlen, _, _⟩ := h
  subst hlen
  cases r with
  | mk root rest ab =>
    cases l1 with
    | nil =>
      simp only [Registry.all, List.nil_append, List.cons.injEq] at hall
      simp [Registry.setQueue, ← hall.1]
    | cons a l1 =>
      simp only [Registry.all, List.cons_append, List.cons.injEq] at hall
      simp [Registry.setQueue, hall.2]

/-! ## Event chains -/

theorem insertWalkEq_split (e : SceneEvent) :
    ∀ l : List SceneEvent, ∃ l1 l2, l = l1 ++ l2 ∧ insertWalkEq e l = l1 ++ e :: l2 := by
  intro l
  induction l with
  | nil => exact ⟨[], [], rfl, rfl⟩
  | cons c tl ih =>
    by_cases h : c.time = e.time
    · obtain ⟨l1, l2, h1, h2⟩ := ih
      exact ⟨c :: l1, l2, by simp [h1], by simp [insertWalkEq, h, h2]⟩
    · exact ⟨[], c :: tl, rfl, by simp [insertWalkEq, h]⟩

theorem insertWalkLt_split (e : SceneEvent) :
    ∀ l : List SceneEvent, ∃ l1 l2, l = l1 ++ l2 ∧ insertWalkLt e l = l1 ++ e :: l2 := by
  intro l
  induction l with
  | nil => exact ⟨[], [], rfl, rfl⟩
  | cons c tl ih =>
    by_cases h : c.time < e.time
    · obtain ⟨l1, l2, h1, h2⟩ := ih
      exact ⟨c :: l1, l2, by simp [h1], by simp [insertWalkLt, h, h2]⟩
    · obtain ⟨l1, l2, h1, h2⟩ := insertWalkEq_split e (c :: tl)
      exact ⟨l1, l2, h1, by simp only [insertWalkLt, h, if_false]; exact h2⟩

theorem findEvent_none (id : Nat) :
    ∀ l : List SceneEvent, (∀ x ∈ l, x.sequenceCount ≠ id) → findEvent id l = none := by
  intro l
  induction l with
  | nil => intro _; rfl
  | cons c tl ih =>
    intro h
    have hc : c.sequenceCount ≠ id := h c (List.mem_cons_self _ _)
    simp only [findEvent, hc, if_false]
    exact ih (fun x hx => h x (List.mem_cons_of_mem _ hx))

theorem findEvent_some_of_mem (id : Nat) :
    ∀ l : List SceneEvent, (∃ x ∈ l, x.sequenceCount = id) → ∃ y, findEvent id l = some y := by
  intro l
  induction l with
  | nil => intro h; obtain ⟨x, hx, _⟩ := h; cases hx
  | cons c tl ih =>
    intro h
    by_cases hc : c.sequenceCount = id
    · exact ⟨c, by simp [findEvent, hc]⟩
    · obtain ⟨x, hx, hxid⟩ := h
      rcases List.mem_cons.1 hx with rfl | hx
      · exact absurd hxid hc
      · obtain ⟨y, hy⟩ := ih ⟨x, hx, hxid⟩
        exact ⟨y, by simp [findEvent, hc, hy]⟩

theorem cancelWalk_first (id : Nat) (e : SceneEvent) (l2 : List SceneEvent) :
    ∀ l1 : List SceneEvent, (∀ x ∈ l1, x.sequenceCount ≠ id) → e.sequenceCount = id →
      cancelWalk id (l1 ++ e :: l2) = l1 ++ l2 := by
  intro l1
  induction l1 with
  | nil => intro _ he; simp [cancelWalk, he]
  | cons c tl ih =>
    intro h he
    have hc : c.sequenceCount ≠ id := h c (List.mem_cons_self _ _)
    simp only [List.cons_append, cancelWalk, hc, if_false]
    exact congrArg (List.cons c) (ih (fun x hx => h x (List.mem_cons_of_mem _ hx)) he)

theorem cancelWalk_none (id : Nat) :
    ∀ l : List SceneEvent, (∀ x ∈ l, x.sequenceCount ≠ id) → cancelWalk id l = l := by
  intro l
  induction l with
  | nil => intro _; rfl
  | cons c tl ih =>
    intro h
    have hc : c.sequenceCount ≠ id := h c (List.mem_cons_self _ _)
    simp only [cancelWalk, hc, if_false]
    rw [ih (fun x hx => h x (List.mem_cons_of_mem _ hx))]

/-! ## postEvent -/

theorem postEvent_null (asserts : Bool) (r : Registry) (destScene : SimObject)
    (event : SceneEvent) (time : F32) :
    postEvent asserts r destScene NULL event time =
      if asserts then .fatal r else .ret (r, InvalidEventId) := by
  cases asserts with
  | true => simp [postEvent]
  | false =>
    by_cases h : (lookupFromRoot r destScene).2.pScene = destScene
    · simp [postEvent, h]
    · simp [postEvent, h]


/-- C3: for a scene whose queue is found (`q`, at position `i`), a non-null
target, a time that is -1 or not before the clock and an event fresh from its
constructor, postEvent returns the old `eventSequence`; the queue afterwards
has `eventSequence` incremented as a `U32`, the same clock, and the old chain
with one event spliced in (so the old events are all there, unchanged and in
the same order); the new event has `startTime` equal to the clock, fire time
equal to the clock for -1 and to the given time otherwise, `execute` clear;
every other queue is untouched, and isEventPending of the returned id holds. -/
theorem postEvent_registered (asserts : Bool) (r : Registry) (destScene destObject : SimObject)
    (event : SceneEvent) (time : F32) (i : Nat) (q : SceneGraphEventQueue)
    (hq : r.firstOwned destScene i q) (hobj : destObject ≠ NULL)
    (htime : time = -1 ∨ time ≥ q.currentSceneTime) (hnew : event.execute = false) :
    ∃ l1 l2 r2,
      q.eventQueue = l1 ++ l2 ∧
      postEvent asserts r destScene destObject event time = .ret (r2, q.eventSequence) ∧
      r2 = r.setQueue i
        { pScene := q.pScene,
          eventQueue := l1 ++
            { mArgv := event.mArgv, startTime := q.currentSceneTime,
              time := if time = -1 then q.currentSceneTime else time,
              sequenceCount := q.eventSequence, destObject := destObject,
              execute := false } :: l2,
          currentSceneTime := q.currentSceneTime,
          eventSequence := (q.eventSequence + 1) % U32_SIZE,
          executingEvents := q.executingEvents } ∧
      isEventPending r2 destScene q.eventSequence = true := by
  have hlook := lookupFromRoot_of_firstOwned r destScene i q hq
  have hps : q.pScene = destScene := by
    obtain ⟨_, _, _, _, _, h⟩ := hq; exact h
  obtain ⟨e, he⟩ : ∃ e : SceneEvent, e =
      { mArgv := event.mArgv, startTime := q.currentSceneTime,
        time := if time = -1 then q.currentSceneTime else time,
        sequenceCount := q.eventSequence, destObject := destObject,
        execute := false } := ⟨_, rfl⟩
  have hes : e.sequenceCount = q.eventSequence := by rw [he]
  rw [← he]
  obtain ⟨l1, l2, h1, h2⟩ := insertWalkLt_split e q.eventQueue
  refine ⟨l1, l2, _, h1, ?_, rfl, ?_⟩
  · have hassert : (asserts && !(time == -1 || decide (time ≥ q.currentSceneTime))) = false := by
      rcases htime with h | h
      · simp [h]
      · simp [h]
    have hobj2 : (asserts && destObject == NULL) = false := by simp [hobj]
    simp only [postEvent, hobj2, hlook, hps, hassert, hobj, ne_eq, not_true_eq_false,
      if_false, Bool.false_eq_true, hnew, ← he, h2]
  · have hq2 := firstOwned_setQueue r destScene i q
      { pScene := q.pScene, eventQueue := l1 ++ e :: l2,
        currentSceneTime := q.currentSceneTime,
        eventSequence := (q.eventSequence + 1) % U32_SIZE,
        executingEvents := q.executingEvents } hq hps
    have hlook2 := lookupFromRoot_of_firstOwned _ _ _ _ hq2
    have hmem : ∃ x ∈ l1 ++ e :: l2, x.sequenceCount = q.eventSequence :=
      ⟨e, by simp, hes⟩
    obtain ⟨y, hy⟩ := findEvent_some_of_mem q.eventSequence (l1 ++ e :: l2) hmem
    simp only [isEventPending, hlook2]
    simp [hps, hy]

/-- Witness for C3: a post at time 5 on the fresh queue of scene 1. -/
theorem postEvent_registered_witness :
    ∃ r2, postEvent false (constructQueue Registry.init 1) 1 5 (SceneEvent.new 0) 5
        = .ret (r2, 1) ∧ isEventPending r2 1 1 = true := by
  obtain ⟨_, _, r2, _, h, _, hp⟩ :=
    postEvent_registered false (constructQueue Registry.init 1) 1 5 (SceneEvent.new 0) 5 1
      (SceneGraphEventQueue.new 1)
      ⟨[SceneGraphEventQueue.new NULL], [], rfl, rfl, by decide, rfl⟩
      (by decide) (by decide) rfl
  exact ⟨r2, h, hp⟩

/-- C5 fails where asserts are enabled: on the registered queue of scene 1 a
post with a null target does not return at all (the `AssertFatal` on
`destObject` stops the program). -/
theorem postEvent_null_target_asserts :
    (∃ q ∈ (constructQueue Registry.init 1).rest, q.pScene = 1) ∧
    ∀ x, postEvent true (constructQueue Registry.init 1) 1 NULL (SceneEvent.new 0) 5
      ≠ .ret x := by
  refine ⟨⟨SceneGraphEventQueue.new 1, by simp [constructQueue, Registry.init], rfl⟩, ?_⟩
  intro x h
  simp [postEvent] at h

/-- C5 (amended): a post with a null target never changes the registry. Where
`AssertFatal` is compiled out it returns `InvalidEventId` with the registry as
it was (no event inserted, `eventSequence` not consumed, clocks and events as
before); where asserts are enabled it stops at the `AssertFatal` on the target,
again with the registry as it was. This holds for every scene, every time and
every event. -/
theorem postEvent_null_target (asserts : Bool) (r : Registry) (destScene : SimObject)
    (event : SceneEvent) (time : F32) :
    postEvent asserts r destScene NULL event time =
      if asserts then .fatal r else .ret (r, InvalidEventId) := by
  by_cases hfound : (lookupFromRoot r destScene).2.pScene = destScene
  · cases asserts with
    | true => simp [postEvent]
    | false => simp [postEvent, hfound]
  · cases asserts with
    | true => simp [postEvent]
    | false => simp [postEvent, hfound]

/-- A post for a scene that no queue of the chain has as `pScene`, with a
non-null target, returns `InvalidEventId` and leaves the registry as it was. -/
theorem postEvent_not_owner (asserts : Bool) (r : Registry) (destScene destObject : SimObject)
    (event : SceneEvent) (time : F32) (hno : ∀ x ∈ r.all, x.pScene ≠ destScene)
    (hobj : destObject ≠ NULL) :
    postEvent asserts r destScene destObject event time = .ret (r, InvalidEventId) := by
  have hl : (lookupFromRoot r destScene).2.pScene ≠ destScene := by
    rcases lookup_cases r destScene with ⟨i, q, hf, _⟩ | ⟨_, h⟩
    · obtain ⟨l1, l2, hall, _, _, hq⟩ := hf
      exact absurd hq (hno q (by rw [hall]; simp))
    · rw [lookupFromRoot_eq_lookupFromNext]; exact h
  have hobj2 : (asserts && destObject == NULL) = false := by simp [hobj]
  simp only [postEvent, hobj2, hl, ne_eq, not_false_eq_true, if_true, Bool.false_eq_true,
    if_false]

/-- C6, at the failing input: in the initial registry (only the sentinel
queue, no scene registered) a post for the null scene handle with target 5 is
accepted, with asserts compiled out or enabled: it returns id 1, not
`InvalidEventId`, the event is inserted into the sentinel queue and the
sentinel's `eventSequence` becomes 2. -/
theorem postEvent_null_scene :
    (∀ q ∈ Registry.init.rest, q.pScene ≠ NULL) ∧
    postEvent false Registry.init NULL 5 (SceneEvent.new 0) (-1) =
      .ret ({ root := { pScene := NULL,
                        eventQueue := [{ mArgv := 0, startTime := 0, time := 0,
                                         sequenceCount := 1, destObject := 5,
                                         execute := false }],
                        currentSceneTime := 0, eventSequence := 2,
                        executingEvents := false },
              rest := [], gAbortEvents := false }, 1) ∧
    postEvent true Registry.init NULL 5 (SceneEvent.new 0) (-1) =
      postEvent false Registry.init NULL 5 (SceneEvent.new 0) (-1) := by
  refine ⟨by simp [Registry.init], ?_, ?_⟩
  · decide
  · decide

/-! ## Queries -/

/-- For the queue `q` found for a scene, cancelEvent with an id whose first
holder in the chain is `e` replaces the chain `l1 ++ e :: l2` by `l1 ++ l2`
and changes nothing else (other events, their order, the clock,
`eventSequence`, every other queue and `gAbortEvents` stay), and when `e` was
the only event with that id isEventPending is false afterwards; when no event
has the id the registry is unchanged. -/
theorem cancelEvent_registered (r : Registry) (destScene : SimObject) (id : Nat) (i : Nat)
    (q : SceneGraphEventQueue) (hq : r.firstOwned destScene i q) :
    (∀ l1 e l2, q.eventQueue = l1 ++ e :: l2 → e.sequenceCount = id →
        (∀ x ∈ l1, x.sequenceCount ≠ id) →
        cancelEvent r destScene id = r.setQueue i
          { pScene := q.pScene, eventQueue := l1 ++ l2,
            currentSceneTime := q.currentSceneTime, eventSequence := q.eventSequence,
            executingEvents := q.executingEvents } ∧
        ((∀ x ∈ l2, x.sequenceCount ≠ id) →
          isEventPending (cancelEvent r destScene id) destScene id = false)) ∧
    ((∀ x ∈ q.eventQueue, x.sequenceCount ≠ id) → cancelEvent r destScene id = r) := by
  have hlook := lookupFromNext_of_firstOwned r destScene i q hq
  have hps : q.pScene = destScene := by
    obtain ⟨_, _, _, _, _, h⟩ := hq; exact h
  constructor
  · intro l1 e l2 hl he hl1
    have hc : cancelWalk id q.eventQueue = l1 ++ l2 := by
      rw [hl]; exact cancelWalk_first id e l2 l1 hl1 he
    have hres : cancelEvent r destScene id = r.setQueue i
          { pScene := q.pScene, eventQueue := l1 ++ l2,
            currentSceneTime := q.currentSceneTime, eventSequence := q.eventSequence,
            executingEvents := q.executingEvents } := by
      simp only [cancelEvent, hlook]
      simp [hps, hc]
    refine ⟨hres, ?_⟩
    intro hl2
    rw [hres]
    have hq2 := firstOwned_setQueue r destScene i q
      { pScene := q.pScene, eventQueue := l1 ++ l2,
        currentSceneTime := q.currentSceneTime, eventSequence := q.eventSequence,
        executingEvents := q.executingEvents } hq hps
    have hlook2 := lookupFromRoot_of_firstOwned _ _ _ _ hq2
    have hf : findEvent id (l1 ++ l2) = none := by
      apply findEvent_none
      intro x hx
      rcases List.mem_append.1 hx with h | h
      · exact hl1 x h
      · exact hl2 x h
    simp only [isEventPending, hlook2]
    simp [hps, hf]
  · intro hno
    have hc : cancelWalk id q.eventQueue = q.eventQueue := cancelWalk_none id _ hno
    simp only [cancelEvent, hlook]
    simp only [hc, hps, ne_eq, not_true_eq_false, if_false]
    subst hps
    exact setQueue_self r _ i q hq

/-! ## cancelPendingEvents -/

theorem cancelObjectWalk_eq_filter (obj : SimObject) :
    ∀ l : List SceneEvent,
      cancelObjectWalk obj l = l.filter (fun e => decide (e.destObject ≠ obj)) := by
  intro l
  induction l with
  | nil => rfl
  | cons c tl ih =>
    by_cases h : c.destObject = obj
    · simp [cancelObjectWalk, h, ih]
    · simp [cancelObjectWalk, h, ih]

theorem cancelPendingLoop_no_owner (obj : SimObject) :
    ∀ (ws : List SceneGraphEventQueue) (curScene : SimObject) (abort : Bool),
      curScene ≠ obj → (∀ q ∈ ws, q.pScene ≠ obj) →
      cancelPendingLoop obj curScene ws abort =
        (ws.map (fun q => { q with eventQueue := cancelObjectWalk obj q.eventQueue }), abort) := by
  intro ws
  induction ws with
  | nil => intro _ _ _ _; rfl
  | cons w ws ih =>
    intro curScene abort hcur hno
    have hw : w.pScene ≠ obj := hno w (List.mem_cons_self _ _)
    have := ih w.pScene abort hw (fun q hq => hno q (List.mem_cons_of_mem _ hq))
    simp [cancelPendingLoop, hcur, hw, this]

/-- When no queue of the chain is owned by `obj`, cancelPendingEvents removes
exactly the events whose target is `obj` from every queue behind the root and
keeps the other events in order. -/
theorem cancelPendingEvents_no_owner (r : Registry) (obj : SimObject)
    (hroot : r.root.pScene ≠ obj) (hno : ∀ q ∈ r.rest, q.pScene ≠ obj) :
    cancelPendingEvents r obj =
      { r with rest := r.rest.map (fun q =>
          { q with eventQueue := q.eventQueue.filter (fun e => decide (e.destObject ≠ obj)) }) } := by
  simp only [cancelPendingEvents, cancelPendingLoop_no_owner obj r.rest r.root.pScene
    r.gAbortEvents hroot hno, cancelObjectWalk_eq_filter]

/-- C10, at the failing input: object 1 owns the first queue and the queue of
scene 2 behind it holds an event whose target is object 1. After
cancelPendingEvents(1) the queue of scene 2 is still registered and still
holds that event: the loop ends right after it deleted the queue of object 1.
With the two queues registered in the other order the event is removed. -/
theorem cancelPendingEvents_misses_later_queue :
    cancelPendingEvents registryScenarioD 1 =
      { root := SceneGraphEventQueue.new NULL,
        rest := [{ pScene := 2,
                   eventQueue := [{ mArgv := 0, startTime := 0, time := 5, sequenceCount := 1,
                                    destObject := 1, execute := false },
                                  { mArgv := 1, startTime := 0, time := 6, sequenceCount := 2,
                                    destObject := 7, execute := false }],
                   currentSceneTime := 0, eventSequence := 3, executingEvents := false }],
        gAbortEvents := false } ∧
    (∃ q ∈ (cancelPendingEvents registryScenarioD 1).rest,
      ∃ e ∈ q.eventQueue, e.destObject = 1) ∧
    cancelPendingEvents registryScenarioDSwapped 1 =
      { root := SceneGraphEventQueue.new NULL,
        rest := [{ pScene := 2,
                   eventQueue := [{ mArgv := 1, startTime := 0, time := 6, sequenceCount := 2,
                                    destObject := 7, execute := false }],
                   currentSceneTime := 0, eventSequence := 3, executingEvents := false }],
        gAbortEvents := false } := by
  decide

/-! ## Chains under the operations -/

theorem firesBefore_time {a b : SceneEvent} (h : firesBefore a b) : a.time ≤ b.time := by
  rcases h with h | h
  · exact le_of_lt h
  · exact le_of_eq h.1

theorem insertWalkEq_split_sorted (e : SceneEvent) :
    ∀ l : List SceneEvent, l.Pairwise (fun a b => a.time ≤ b.time) →
      (∀ x ∈ l, e.time ≤ x.time) →
      ∃ l1 l2, l = l1 ++ l2 ∧ insertWalkEq e l = l1 ++ e :: l2 ∧
        (∀ x ∈ l1, x.time ≤ e.time) ∧ (∀ x ∈ l2, e.time < x.time) := by
  intro l
  induction l with
  | nil => intro _ _; exact ⟨[], [], rfl, rfl, by simp, by simp⟩
  | cons c tl ih =>
    intro hp hge
    have hp2 := List.pairwise_cons.1 hp
    by_cases h : c.time = e.time
    · obtain ⟨l1, l2, h1, h2, h3, h4⟩ := ih hp2.2 (fun x hx => hge x (List.mem_cons_of_mem _ hx))
      refine ⟨c :: l1, l2, by simp [h1], by simp [insertWalkEq, h, h2], ?_, h4⟩
      intro x hx
      rcases List.mem_cons.1 hx with rfl | hx
      · exact le_of_eq h
      · exact h3 x hx
    · have hc : e.time < c.time :=
        lt_of_le_of_ne (hge c (List.mem_cons_self _ _)) (fun h2 => h h2.symm)
      refine ⟨[], c :: tl, rfl, by simp [insertWalkEq, h], by simp, ?_⟩
      intro x hx
      rcases List.mem_cons.1 hx with rfl | hx
      · exact hc
      · exact lt_of_lt_of_le hc (hp2.1 x hx)

theorem insertWalkLt_split_sorted (e : SceneEvent) :
    ∀ l : List SceneEvent, l.Pairwise (fun a b => a.time ≤ b.time) →
      ∃ l1 l2, l = l1 ++ l2 ∧ insertWalkLt e l = l1 ++ e :: l2 ∧
        (∀ x ∈ l1, x.time ≤ e.time) ∧ (∀ x ∈ l2, e.time < x.time) := by
  intro l
  induction l with
  | nil => intro _; exact ⟨[], [], rfl, rfl, by simp, by simp⟩
  | cons c tl ih =>
    intro hp
    have hp2 := List.pairwise_cons.1 hp
    by_cases h : c.time < e.time
    · obtain ⟨l1, l2, h1, h2, h3, h4⟩ := ih hp2.2
      refine ⟨c :: l1, l2, by simp [h1], by simp [insertWalkLt, h, h2], ?_, h4⟩
      intro x hx
      rcases List.mem_cons.1 hx with rfl | hx
      · exact le_of_lt h
      · exact h3 x hx
    · have hge : ∀ x ∈ c :: tl, e.time ≤ x.time := by
        intro x hx
        rcases List.mem_cons.1 hx with rfl | hx
        · exact not_lt.1 h
        · exact le_trans (not_lt.1 h) (hp2.1 x hx)
      obtain ⟨l1, l2, h1, h2, h3, h4⟩ := insertWalkEq_split_sorted e (c :: tl) hp hge
      exact ⟨l1, l2, h1, by simp only [insertWalkLt, h, if_false]; exact h2, h3, h4⟩

theorem cancelWalk_sublist (id : Nat) : ∀ l : List SceneEvent, (cancelWalk id l).Sublist l := by
  intro l
  induction l with
  | nil => exact List.Sublist.slnil
  | cons c tl ih =>
    by_cases h : c.sequenceCount = id
    · simp only [cancelWalk, h, if_true]; exact List.sublist_cons_self c tl
    · simp only [cancelWalk, h, if_false]; exact List.Sublist.cons₂ c ih

theorem cancelObjectWalk_sublist (obj : SimObject) :
    ∀ l : List SceneEvent, (cancelObjectWalk obj l).Sublist l := by
  intro l
  rw [cancelObjectWalk_eq_filter]
  exact List.filter_sublist l

theorem dispatchLoop_remaining (isDeleted : SimObject → Bool) (abort : Bool) (qi : Nat) :
    ∀ l : List SceneEvent, ∃ gone,
      l = gone ++ (dispatchLoop isDeleted abort qi l).1 ∧
      (∀ e ∈ gone, e.execute = true) ∧
      (processedAt qi (dispatchLoop isDeleted abort qi l).2).Sublist gone ∧
      (abort = false → ∀ e, (dispatchLoop isDeleted abort qi l).1.head? = some e →
        e.execute = false) := by
  intro l
  induction l with
  | nil => exact ⟨[], rfl, by simp, by simp [dispatchLoop, processedAt], by simp [dispatchLoop]⟩
  | cons c tl ih =>
    by_cases h : (!abort && c.execute) = true
    · obtain ⟨gone, h1, h2, h3, h4⟩ := ih
      have hc : c.execute = true := by
        simp only [Bool.and_eq_true] at h; exact h.2
      refine ⟨c :: gone, ?_, ?_, ?_, ?_⟩
      · simp only [dispatchLoop, h, if_true, List.cons_append]; rw [← h1]
      · intro e he
        rcases List.mem_cons.1 he with rfl | he
        · exact hc
        · exact h2 e he
      · simp only [dispatchLoop, h, if_true]
        by_cases hd : isDeleted c.destObject = true
        · simp only [hd, if_true, processedAt]
          exact List.Sublist.cons c h3
        · simp only [hd, if_false, processedAt, if_true]
          exact List.Sublist.cons₂ c h3
      · intro hab e he
        simp only [dispatchLoop, h, if_true] at he
        exact h4 hab e he
    · refine ⟨[], ?_, by simp, ?_, ?_⟩
      · simp [dispatchLoop, h]
      · simp [dispatchLoop, h, processedAt]
      · intro hab e he
        simp only [dispatchLoop, h, if_false, List.head?_cons, Option.some.injEq,
          Bool.false_eq_true] at he
        subst he
        cases hce : c.execute
        · rfl
        · simp [hab, hce] at h

theorem markDue_time (t : F32) (e : SceneEvent) : (markDue t e).time = e.time := by
  unfold markDue; split <;> rfl

theorem markDue_sequenceCount (t : F32) (e : SceneEvent) :
    (markDue t e).sequenceCount = e.sequenceCount := by
  unfold markDue; split <;> rfl

theorem markDue_mArgv (t : F32) (e : SceneEvent) : (markDue t e).mArgv = e.mArgv := by
  unfold markDue; split <;> rfl

theorem markDue_execute (t : F32) (e : SceneEvent) :
    (markDue t e).execute = (decide (e.time ≤ t) || e.execute) := by
  unfold markDue; split <;> simp [*]

theorem markDue_of_gt (t : F32) (e : SceneEvent) (h : t < e.time) : markDue t e = e := by
  simp [markDue, not_le.2 h]

theorem map_markDue_of_gt (t : F32) :
    ∀ l : List SceneEvent, (∀ x ∈ l, t < x.time) → l.map (markDue t) = l := by
  intro l
  induction l with
  | nil => intro _; rfl
  | cons c tl ih =>
    intro h
    rw [List.map_cons, markDue_of_gt t c (h c (List.mem_cons_self _ _)),
      ih (fun x hx => h x (List.mem_cons_of_mem _ hx))]

/-- On a chain ordered by fire time a run of the loop of advanceToTime that is
not stopped by the inner assertion marks exactly the events with fire time up
to the target. -/
theorem advanceLoop_sorted (asserts : Bool) (t : F32) :
    ∀ (l : List SceneEvent) (clock : F32), l.Pairwise (fun a b => a.time ≤ b.time) →
      (advanceLoop asserts t clock l).1 = true →
      (advanceLoop asserts t clock l).2.2 = l.map (markDue t) := by
  intro l
  induction l with
  | nil => intro _ _ _; rfl
  | cons c tl ih =>
    intro clock hp hok
    have hp2 := List.pairwise_cons.1 hp
    by_cases h : c.time ≤ t
    · by_cases hx : c.execute = true
      · simp only [advanceLoop, h, hx, if_true] at hok ⊢
        rw [ih clock hp2.2 hok]
        have : markDue t c = c := by
          simp only [markDue, h, if_true]; cases c; simp_all
        simp [this]
      · by_cases ha : (asserts && !decide (c.time ≥ clock)) = true
        · simp [advanceLoop, h, hx, ha] at hok
        · simp only [advanceLoop, h, hx, ha, if_true, if_false, Bool.false_eq_true] at hok ⊢
          rw [ih c.time hp2.2 hok]
          simp [markDue, h]
    · simp only [advanceLoop, h, if_false]
      have h2 : t < c.time := not_le.1 h
      rw [map_markDue_of_gt t (c :: tl)]
      intro x hx
      rcases List.mem_cons.1 hx with rfl | hx
      · exact h2
      · exact lt_of_lt_of_le h2 (hp2.1 x hx)

theorem insertWalkLt_ordered (e : SceneEvent) (l : List SceneEvent)
    (hp : l.Pairwise firesBefore) (hn : (l.map (fun x => x.sequenceCount)).Nodup)
    (hb : ∀ x ∈ l, x.sequenceCount < e.sequenceCount) :
    (insertWalkLt e l).Pairwise firesBefore ∧
    ((insertWalkLt e l).map (fun x => x.sequenceCount)).Nodup ∧
    (∀ x ∈ insertWalkLt e l, x = e ∨ x ∈ l) := by
  obtain ⟨l1, l2, h1, h2, h3, h4⟩ :=
    insertWalkLt_split_sorted e l (hp.imp (fun h => firesBefore_time h))
  rw [h2]
  subst h1
  have hp2 := List.pairwise_append.1 hp
  refine ⟨?_, ?_, ?_⟩
  · rw [List.pairwise_append]
    refine ⟨hp2.1, ?_, ?_⟩
    · rw [List.pairwise_cons]
      exact ⟨fun x hx => Or.inl (h4 x hx), hp2.2.1⟩
    · intro a ha b hb2
      rcases List.mem_cons.1 hb2 with rfl | hb2
      · rcases lt_or_eq_of_le (h3 a ha) with h | h
        · exact Or.inl h
        · exact Or.inr ⟨h, hb a (List.mem_append_left _ ha)⟩
      · exact hp2.2.2 a ha b hb2
  · rw [List.map_append, List.map_cons, List.nodup_middle, List.nodup_cons]
    rw [List.map_append] at hn
    refine ⟨?_, hn⟩
    intro hmem
    rw [← List.map_append] at hmem
    obtain ⟨x, hx, hxe⟩ := List.mem_map.1 hmem
    have := hb x hx
    omega
  · intro x hx
    rcases List.mem_append.1 hx with h | h
    · exact Or.inr (List.mem_append_left _ h)
    · rcases List.mem_cons.1 h with h | h
      · exact Or.inl h
      · exact Or.inr (List.mem_append_right _ h)

theorem pairwise_firesBefore_map_markDue (t : F32) (l : List SceneEvent)
    (hp : l.Pairwise firesBefore) : (l.map (markDue t)).Pairwise firesBefore := by
  rw [List.pairwise_map]
  refine hp.imp ?_
  intro a b hab
  unfold firesBefore at hab ⊢
  simp only [markDue_time, markDue_sequenceCount]
  exact hab

theorem map_sequenceCount_markDue (t : F32) (l : List SceneEvent) :
    (l.map (markDue t)).map (fun x => x.sequenceCount) = l.map (fun x => x.sequenceCount) := by
  rw [List.map_map]
  apply List.map_congr_left
  intro x _
  simp [markDue_sequenceCount]

/-- No call breaks the order of a chain or repeats an id, as long as the
counter does not wrap. -/
theorem qeffect_ordered {asserts : Bool} {p : Nat} {op : Op} {pre : Bool}
    {q q2 : SceneGraphEventQueue} {log : List SceneEvent}
    (h : QEffect asserts p op pre q q2 log) (ho : QueueOrdered q) (hb : QueueBelow q)
    (h1 : 1 ≤ q.eventSequence) (ops : List Op)
    (hw : q.eventSequence + postsFor q.pScene (op :: ops) < U32_SIZE) :
    QueueOrdered q2 ∧ QueueBelow q2 ∧ 1 ≤ q2.eventSequence ∧ q2.pScene = q.pScene ∧
      q.eventSequence ≤ q2.eventSequence ∧
      q2.eventSequence + postsFor q2.pScene ops < U32_SIZE := by
  cases h with
  | same =>
    refine ⟨ho, hb, h1, rfl, le_refl _, ?_⟩
    cases op <;> simp only [postsFor] at hw <;> omega
  | post _ _ s obj argv t hs hobj ht =>
    subst hs
    simp only [postsFor, if_true] at hw
    have hmod : (q.eventSequence + 1) % U32_SIZE = q.eventSequence + 1 :=
      Nat.mod_eq_of_lt (by omega)
    obtain ⟨ha, hb2, hc⟩ := insertWalkLt_ordered
      { mArgv := argv, startTime := q.currentSceneTime,
        time := if t = -1 then q.currentSceneTime else t,
        sequenceCount := q.eventSequence, destObject := obj, execute := false }
      q.eventQueue ho.1 ho.2 hb
    refine ⟨⟨ha, hb2⟩, ?_, ?_, rfl, ?_, ?_⟩
    · intro x hx
      show x.sequenceCount < (q.eventSequence + 1) % U32_SIZE
      rw [hmod]
      rcases hc x hx with rfl | hx
      · exact Nat.lt_succ_self _
      · exact Nat.lt_succ_of_lt (hb x hx)
    · show 1 ≤ (q.eventSequence + 1) % U32_SIZE
      rw [hmod]; omega
    · show q.eventSequence ≤ (q.eventSequence + 1) % U32_SIZE
      rw [hmod]; omega
    · show (q.eventSequence + 1) % U32_SIZE + postsFor q.pScene ops < U32_SIZE
      rw [hmod]; omega
  | cancel _ _ s id =>
    simp only [postsFor] at hw
    have hs := cancelWalk_sublist id q.eventQueue
    exact ⟨⟨ho.1.sublist hs, ho.2.sublist (hs.map _)⟩, fun x hx => hb x (hs.subset hx), h1, rfl,
      le_refl _, hw⟩
  | cancelObject _ _ obj =>
    simp only [postsFor] at hw
    have hs := cancelObjectWalk_sublist obj q.eventQueue
    exact ⟨⟨ho.1.sublist hs, ho.2.sublist (hs.map _)⟩, fun x hx => hb x (hs.subset hx), h1, rfl,
      le_refl _, hw⟩
  | advance _ _ s t ht hok =>
    simp only [postsFor] at hw
    have hm := advanceLoop_sorted asserts t q.eventQueue q.currentSceneTime
      (ho.1.imp (fun h => firesBefore_time h)) hok
    refine ⟨⟨?_, ?_⟩, ?_, h1, rfl, le_refl _, hw⟩
    · show ((advanceLoop asserts t q.currentSceneTime q.eventQueue).2.2).Pairwise firesBefore
      rw [hm]; exact pairwise_firesBefore_map_markDue t _ ho.1
    · show (((advanceLoop asserts t q.currentSceneTime q.eventQueue).2.2).map
        (fun x => x.sequenceCount)).Nodup
      rw [hm, map_sequenceCount_markDue]; exact ho.2
    · intro x hx
      have hx2 : x ∈ (advanceLoop asserts t q.currentSceneTime q.eventQueue).2.2 := hx
      rw [hm] at hx2
      obtain ⟨y, hy, rfl⟩ := List.mem_map.1 hx2
      rw [markDue_sequenceCount]
      exact hb y hy
  | dispatch _ _ isDeleted abort =>
    simp only [postsFor] at hw
    obtain ⟨gone, hg, _, _, _⟩ := dispatchLoop_remaining isDeleted abort p q.eventQueue
    have hs : ((dispatchLoop isDeleted abort p q.eventQueue).1).Sublist q.eventQueue := by
      conv => rhs; rw [hg]
      exact List.sublist_append_right _ _
    exact ⟨⟨ho.1.sublist hs, ho.2.sublist (hs.map _)⟩, fun x hx => hb x (hs.subset hx), h1, rfl,
      le_refl _, hw⟩

/-- No call breaks the order of a chain by fire time. -/
theorem qeffect_timeSorted {asserts : Bool} {p : Nat} {op : Op} {pre : Bool}
    {q q2 : SceneGraphEventQueue} {log : List SceneEvent}
    (h : QEffect asserts p op pre q q2 log) (ho : QueueTimeSorted q) :
    QueueTimeSorted q2 := by
  cases h with
  | same => exact ho
  | post _ _ s obj argv t hs hobj ht =>
    obtain ⟨l1, l2, h1, h2, h3, h4⟩ := insertWalkLt_split_sorted
      { mArgv := argv, startTime := q.currentSceneTime,
        time := if t = -1 then q.currentSceneTime else t,
        sequenceCount := q.eventSequence, destObject := obj, execute := false }
      q.eventQueue ho
    show (insertWalkLt _ q.eventQueue).Pairwise _
    rw [h2]
    have ho2 : (l1 ++ l2).Pairwise (fun a b => a.time ≤ b.time) := by
      rw [← h1]; exact ho
    have hp2 := List.pairwise_append.1 ho2
    rw [List.pairwise_append]
    refine ⟨hp2.1, ?_, ?_⟩
    · rw [List.pairwise_cons]
      exact ⟨fun x hx => le_of_lt (h4 x hx), hp2.2.1⟩
    · intro a ha b hb
      rcases List.mem_cons.1 hb with rfl | hb
      · exact h3 a ha
      · exact hp2.2.2 a ha b hb
  | cancel _ _ s id => exact List.Pairwise.sublist (cancelWalk_sublist id q.eventQueue) ho
  | cancelObject _ _ obj =>
    exact List.Pairwise.sublist (cancelObjectWalk_sublist obj q.eventQueue) ho
  | advance _ _ s t ht hok =>
    have hm := advanceLoop_sorted asserts t q.eventQueue q.currentSceneTime ho hok
    show ((advanceLoop asserts t q.currentSceneTime q.eventQueue).2.2).Pairwise _
    rw [hm, List.pairwise_map]
    refine List.Pairwise.imp ?_ ho
    intro a b hab
    rw [markDue_time, markDue_time]
    exact hab
  | dispatch _ _ isDeleted abort =>
    obtain ⟨gone, hg, _, _, _⟩ := dispatchLoop_remaining isDeleted abort p q.eventQueue
    have hs : ((dispatchLoop isDeleted abort p q.eventQueue).1).Sublist q.eventQueue := by
      conv => rhs; rw [hg]
      exact List.sublist_append_right _ _
    exact List.Pairwise.sublist hs ho

/-! ## The effect of one call on each queue -/

theorem getElem?_replace (a b : SceneGraphEventQueue) (l2 : List SceneGraphEventQueue) :
    ∀ (l1 : List SceneGraphEventQueue) (p : Nat) (x : SceneGraphEventQueue),
      (l1 ++ a :: l2)[p]? = some x →
      (p = l1.length ∧ x = a ∧ (l1 ++ b :: l2)[p]? = some b) ∨
      (p ≠ l1.length ∧ (l1 ++ b :: l2)[p]? = some x) := by
  intro l1
  induction l1 with
  | nil =>
    intro p x h
    cases p with
    | zero => left; simp at h; simp [h]
    | succ k => right; simp at h; simp [h]
  | cons c tl ih =>
    intro p x h
    cases p with
    | zero => right; simp at h; simp [h]
    | succ k =>
      simp only [List.cons_append, List.getElem?_cons_succ] at h
      rcases ih k x h with ⟨h1, h2, h3⟩ | ⟨h1, h2⟩
      · left; exact ⟨by simp [h1], h2, by simpa using h3⟩
      · right; exact ⟨by simp [h1], by simpa using h2⟩

theorem setQueue_at (r : Registry) (s : SimObject) (i : Nat) (q q2 : SceneGraphEventQueue)
    (hf : r.firstOwned s i q) (p : Nat) (x : SceneGraphEventQueue) (hx : r.all[p]? = some x) :
    (p = i ∧ x = q ∧ (r.setQueue i q2).all[p]? = some q2) ∨
    (p ≠ i ∧ (r.setQueue i q2).all[p]? = some x) := by
  obtain ⟨l1, l2, hall, hlen, _, _⟩ := hf
  rw [all_setQueue r i q q2 l1 l2 hall hlen]
  rw [hall] at hx
  subst hlen
  exact getElem?_replace q q2 l2 l1 p x hx

theorem processedAt_append (p : Nat) :
    ∀ a b : List Emit, processedAt p (a ++ b) = processedAt p a ++ processedAt p b := by
  intro a
  induction a with
  | nil => intro b; rfl
  | cons c tl ih =>
    intro b
    cases c with
    | processed qi e =>
      by_cases h : qi = p
      · simp [processedAt, h, ih]
      · simp [processedAt, h, ih]
    | dropped qi e => simp [processedAt, ih]

theorem processedAt_dispatchLoop_ne (isDeleted : SimObject → Bool) (abort : Bool) (p qi : Nat)
    (h : qi ≠ p) :
    ∀ l : List SceneEvent, processedAt p (dispatchLoop isDeleted abort qi l).2 = [] := by
  intro l
  induction l with
  | nil => rfl
  | cons c tl ih =>
    by_cases hc : (!abort && c.execute) = true
    · by_cases hd : isDeleted c.destObject = true
      · simp [dispatchLoop, hc, hd, processedAt, ih]
      · simp [dispatchLoop, hc, hd, processedAt, ih, h]
    · simp [dispatchLoop, hc, processedAt]

theorem dispatchLoop_remaining_eq (isDeleted : SimObject → Bool) (abort : Bool) (p qi : Nat) :
    ∀ l : List SceneEvent,
      (dispatchLoop isDeleted abort qi l).1 = (dispatchLoop isDeleted abort p l).1 := by
  intro l
  induction l with
  | nil => rfl
  | cons c tl ih =>
    by_cases hc : (!abort && c.execute) = true
    · simp [dispatchLoop, hc, ih]
    · simp [dispatchLoop, hc]

theorem processedAt_executeLoop_lt (isDeleted : SimObject → Bool) (abort : Bool) (p : Nat) :
    ∀ (ws : List SceneGraphEventQueue) (start : Nat), p < start →
      processedAt p (executeLoop isDeleted abort start ws).2 = [] := by
  intro ws
  induction ws with
  | nil => intro _ _; rfl
  | cons w ws ih =>
    intro start h
    simp only [executeLoop, processedAt_append]
    rw [processedAt_dispatchLoop_ne isDeleted abort p start (by omega), ih (start + 1) (by omega)]
    rfl

theorem executeLoop_at (isDeleted : SimObject → Bool) (abort : Bool) :
    ∀ (ws : List SceneGraphEventQueue) (start k : Nat) (q : SceneGraphEventQueue),
      ws[k]? = some q →
      (executeLoop isDeleted abort start ws).1[k]? = some
        { q with eventQueue := (dispatchLoop isDeleted abort (start + k) q.eventQueue).1,
                 executingEvents := false } ∧
      processedAt (start + k) (executeLoop isDeleted abort start ws).2 =
        processedAt (start + k) (dispatchLoop isDeleted abort (start + k) q.eventQueue).2 := by
  intro ws
  induction ws with
  | nil => intro _ k q h; simp at h
  | cons w ws ih =>
    intro start k q h
    cases k with
    | zero =>
      simp only [List.getElem?_cons_zero, Option.some.injEq] at h
      subst h
      refine ⟨by simp [executeLoop], ?_⟩
      simp only [executeLoop, processedAt_append, Nat.add_zero]
      rw [processedAt_executeLoop_lt isDeleted abort start ws (start + 1) (by omega)]
      simp
    | succ k =>
      simp only [List.getElem?_cons_succ] at h
      obtain ⟨h1, h2⟩ := ih (start + 1) k q h
      have he : start + 1 + k = start + (k + 1) := by omega
      rw [he] at h1 h2
      refine ⟨by simpa [executeLoop] using h1, ?_⟩
      simp only [executeLoop, processedAt_append]
      rw [processedAt_dispatchLoop_ne isDeleted abort (start + (k + 1)) start (by omega), h2]
      rfl

theorem postEvent_found (asserts : Bool) (r : Registry) (obj : SimObject) (event : SceneEvent)
    (t : F32) (i : Nat) (q : SceneGraphEventQueue) (hf : r.firstOwned q.pScene i q)
    (hobj : obj ≠ NULL) :
    postEvent asserts r q.pScene obj event t =
      if (asserts && !(t == -1 || decide (t ≥ q.currentSceneTime))) = true then .fatal r
      else .ret (r.setQueue i
        { q with
          eventSequence := (q.eventSequence + 1) % U32_SIZE,
          eventQueue := insertWalkLt
            { mArgv := event.mArgv, startTime := q.currentSceneTime,
              time := if t = -1 then q.currentSceneTime else t,
              sequenceCount := q.eventSequence, destObject := obj,
              execute := event.execute }
            q.eventQueue }, q.eventSequence) := by
  have hlr := lookupFromRoot_of_firstOwned r q.pScene i q hf
  have hobj2 : (asserts && obj == NULL) = false := by simp [hobj]
  simp only [postEvent, hobj2, hlr, hobj, ne_eq, not_true_eq_false, if_false,
    Bool.false_eq_true]

theorem advanceToTime_found (asserts : Bool) (r : Registry) (t : F32) (i : Nat)
    (q : SceneGraphEventQueue) (hf : r.firstOwned q.pScene i q) :
    advanceToTime asserts r q.pScene t =
      if (asserts && !decide (t ≥ q.currentSceneTime)) = true then .fatal r
      else if (advanceLoop asserts t q.currentSceneTime q.eventQueue).1 = true then
        .ret (r.setQueue i
          { q with
            currentSceneTime := t,
            eventQueue := (advanceLoop asserts t q.currentSceneTime q.eventQueue).2.2 })
      else
        .fatal (r.setQueue i
          { q with
            currentSceneTime := (advanceLoop asserts t q.currentSceneTime q.eventQueue).2.1,
            eventQueue := (advanceLoop asserts t q.currentSceneTime q.eventQueue).2.2 }) := by
  have hl := lookupFromNext_of_firstOwned r q.pScene i q hf
  simp only [advanceToTime, hl, ne_eq, not_true_eq_false, if_false]

/-- Every call other than cancelPendingEvents that returns leaves each queue
at its position and changes it by the body of the call or not at all. -/
theorem step_at (asserts : Bool) (r : Registry) (op : Op) (r2 : Registry) (em : List Emit)
    (hop : op.isCancelPending = false) (h : step asserts r op = .ret (r2, em))
    (p : Nat) (q : SceneGraphEventQueue) (hq : r.all[p]? = some q) :
    ∃ q2, r2.all[p]? = some q2 ∧ QEffect asserts p op (op.pre r) q q2 (processedAt p em) := by
  cases op with
  | construct s =>
    simp only [step, Outcome.ret.injEq, Prod.mk.injEq] at h
    obtain ⟨rfl, rfl⟩ := h
    refine ⟨q, ?_, QEffect.same _ _ _⟩
    have hlt : p < r.all.length := by
      by_contra hc
      rw [List.getElem?_eq_none (by omega)] at hq
      cases hq
    have : (constructQueue r s).all = r.all ++ [SceneGraphEventQueue.new s] := by
      simp [constructQueue, Registry.all]
    rw [this, List.getElem?_append_left hlt]
    exact hq
  | post s obj argv t =>
    rcases lookup_cases r s with ⟨i, qi, hf, hl⟩ | ⟨hno, hl⟩
    · have hlr := lookupFromRoot_of_firstOwned r s i qi hf
      have hps : qi.pScene = s := by
        obtain ⟨_, _, _, _, _, hh⟩ := hf; exact hh
      subst hps
      by_cases hobj : obj = NULL
      · subst hobj
        rw [step, postEvent_null] at h
        cases asserts with
        | true => simp at h
        | false =>
          simp only [Bool.false_eq_true, if_false, Outcome.ret.injEq, Prod.mk.injEq] at h
          obtain ⟨rfl, rfl⟩ := h
          exact ⟨q, hq, QEffect.same _ _ _⟩
      · rw [step, postEvent_found asserts r obj _ t i qi hf hobj] at h
        by_cases ha : (asserts && !(t == -1 || decide (t ≥ qi.currentSceneTime))) = true
        · rw [if_pos ha] at h
          cases h
        · rw [if_neg ha] at h
          simp only [SceneEvent.new, Outcome.ret.injEq, Prod.mk.injEq] at h
          obtain ⟨rfl, rfl⟩ := h
          rcases setQueue_at r qi.pScene i qi
            { qi with
              eventSequence := (qi.eventSequence + 1) % U32_SIZE,
              eventQueue := insertWalkLt
                { mArgv := argv, startTime := qi.currentSceneTime,
                  time := if t = -1 then qi.currentSceneTime else t,
                  sequenceCount := qi.eventSequence, destObject := obj, execute := false }
                qi.eventQueue } hf p q hq with ⟨_, rfl, h3⟩ | ⟨_, h3⟩
          · refine ⟨_, h3, QEffect.post _ _ _ obj argv t rfl hobj ?_⟩
            intro hpre
            simp only [Op.pre, hlr, bne_self_eq_false, Bool.false_or, Bool.or_eq_true,
              beq_iff_eq, decide_eq_true_eq] at hpre
            exact hpre
          · exact ⟨q, h3, QEffect.same _ _ _⟩
    · have hl2 : (lookupFromRoot r s).2.pScene ≠ s := by
        rw [lookupFromRoot_eq_lookupFromNext]; exact hl
      by_cases hobj : (asserts && obj == NULL) = true
      · simp [step, postEvent, hobj] at h
      · simp only [step, postEvent, hobj, hl2, ne_eq, not_false_eq_true, if_true,
          Bool.false_eq_true, if_false, Outcome.ret.injEq, Prod.mk.injEq] at h
        obtain ⟨rfl, rfl⟩ := h
        exact ⟨q, hq, QEffect.same _ _ _⟩
  | cancel s id =>
    simp only [step, Outcome.ret.injEq, Prod.mk.injEq] at h
    obtain ⟨rfl, rfl⟩ := h
    rcases lookup_cases r s with ⟨i, qi, hf, hl⟩ | ⟨hno, hl⟩
    · have hps : qi.pScene = s := by
        obtain ⟨_, _, _, _, _, hh⟩ := hf; exact hh
      have hc : cancelEvent r s id =
          r.setQueue i { qi with eventQueue := cancelWalk id qi.eventQueue } := by
        simp only [cancelEvent, hl]
        simp [hps]
      rw [hc]
      rcases setQueue_at r s i qi { qi with eventQueue := cancelWalk id qi.eventQueue }
        hf p q hq with ⟨_, rfl, h3⟩ | ⟨_, h3⟩
      · exact ⟨_, h3, QEffect.cancel _ _ s id⟩
      · exact ⟨q, h3, QEffect.same _ _ _⟩
    · have hc : cancelEvent r s id = r := by
        simp only [cancelEvent, hl, ne_eq, not_false_eq_true, if_true]
      rw [hc]
      exact ⟨q, hq, QEffect.same _ _ _⟩
  | cancelPending obj => simp [Op.isCancelPending] at hop
  | advance s t =>
    rcases lookup_cases r s with ⟨i, qi, hf, hl⟩ | ⟨hno, hl⟩
    · have hps : qi.pScene = s := by
        obtain ⟨_, _, _, _, _, hh⟩ := hf; exact hh
      subst hps
      rw [step, advanceToTime_found asserts r t i qi hf] at h
      by_cases ha : (asserts && !decide (t ≥ qi.currentSceneTime)) = true
      · rw [if_pos ha] at h
        cases h
      · rw [if_neg ha] at h
        by_cases hok : (advanceLoop asserts t qi.currentSceneTime qi.eventQueue).1 = true
        · rw [if_pos hok] at h
          simp only [Outcome.ret.injEq, Prod.mk.injEq] at h
          obtain ⟨rfl, rfl⟩ := h
          rcases setQueue_at r qi.pScene i qi
            { qi with
              currentSceneTime := t,
              eventQueue := (advanceLoop asserts t qi.currentSceneTime qi.eventQueue).2.2 }
            hf p q hq with ⟨_, rfl, h3⟩ | ⟨_, h3⟩
          · refine ⟨_, h3, QEffect.advance _ _ _ t ?_ hok⟩
            intro hpre
            simp only [Op.pre, hl, bne_self_eq_false, Bool.false_or,
              decide_eq_true_eq] at hpre
            exact hpre
          · exact ⟨q, h3, QEffect.same _ _ _⟩
        · rw [if_neg hok] at h
          cases h
    · simp only [step, advanceToTime, hl, ne_eq, not_false_eq_true, if_true,
        Outcome.ret.injEq, Prod.mk.injEq] at h
      obtain ⟨rfl, rfl⟩ := h
      exact ⟨q, hq, QEffect.same _ _ _⟩
  | execute d =>
    simp only [step, executeEvents, Outcome.ret.injEq, Prod.mk.injEq] at h
    obtain ⟨rfl, rfl⟩ := h
    cases p with
    | zero =>
      rw [processedAt_executeLoop_lt d r.gAbortEvents 0 r.rest 1 (by omega)]
      exact ⟨q, by simpa [Registry.all] using hq, QEffect.same _ _ _⟩
    | succ k =>
      have hq2 : r.rest[k]? = some q := by simpa [Registry.all] using hq
      obtain ⟨h1, h2⟩ := executeLoop_at d r.gAbortEvents r.rest 1 k q hq2
      have he : 1 + k = k + 1 := by omega
      rw [he] at h1 h2
      rw [h2]
      refine ⟨_, ?_, QEffect.dispatch _ q d r.gAbortEvents⟩
      simpa [Registry.all] using h1

theorem length_setQueue (r : Registry) (i : Nat) (q : SceneGraphEventQueue) :
    (r.setQueue i q).all.length = r.all.length := by
  cases i with
  | zero => simp [Registry.setQueue, Registry.all]
  | succ j => simp [Registry.setQueue, Registry.all]

theorem length_executeLoop (isDeleted : SimObject → Bool) (abort : Bool) :
    ∀ (ws : List SceneGraphEventQueue) (start : Nat),
      (executeLoop isDeleted abort start ws).1.length = ws.length := by
  intro ws
  induction ws with
  | nil => intro _; rfl
  | cons w ws ih => intro start; simp [executeLoop, ih]

theorem postEvent_length (asserts : Bool) (r : Registry) (s obj : SimObject)
    (event : SceneEvent) (t : F32) (out : Registry × Nat)
    (h : postEvent asserts r s obj event t = .ret out) : out.1.all.length = r.all.length := by
  by_cases hobj : obj = NULL
  · subst hobj
    rw [postEvent_null] at h
    cases asserts with
    | true => simp at h
    | false =>
      simp only [Bool.false_eq_true, if_false, Outcome.ret.injEq] at h
      rw [← h]
  · rcases lookup_cases r s with ⟨i, qi, hf, _⟩ | ⟨hno, _⟩
    · have hps : qi.pScene = s := by
        obtain ⟨_, _, _, _, _, hh⟩ := hf; exact hh
      subst hps
      rw [postEvent_found asserts r obj event t i qi hf hobj] at h
      by_cases ha : (asserts && !(t == -1 || decide (t ≥ qi.currentSceneTime))) = true
      · rw [if_pos ha] at h; cases h
      · rw [if_neg ha] at h
        simp only [Outcome.ret.injEq] at h
        rw [← h]
        exact length_setQueue _ _ _
    · rw [postEvent_not_owner asserts r s obj event t hno hobj] at h
      simp only [Outcome.ret.injEq] at h
      rw [← h]

theorem advanceToTime_length (asserts : Bool) (r : Registry) (s : SimObject) (t : F32)
    (r2 : Registry) (h : advanceToTime asserts r s t = .ret r2) :
    r2.all.length = r.all.length := by
  rcases lookup_cases r s with ⟨i, qi, hf, _⟩ | ⟨_, hl⟩
  · have hps : qi.pScene = s := by
      obtain ⟨_, _, _, _, _, hh⟩ := hf; exact hh
    subst hps
    rw [advanceToTime_found asserts r t i qi hf] at h
    by_cases ha : (asserts && !decide (t ≥ qi.currentSceneTime)) = true
    · rw [if_pos ha] at h; cases h
    · rw [if_neg ha] at h
      by_cases hok : (advanceLoop asserts t qi.currentSceneTime qi.eventQueue).1 = true
      · rw [if_pos hok] at h
        simp only [Outcome.ret.injEq] at h
        rw [← h]
        exact length_setQueue _ _ _
      · rw [if_neg hok] at h; cases h
  · simp only [advanceToTime, hl, ne_eq, not_false_eq_true, if_true, Outcome.ret.injEq] at h
    rw [← h]

theorem step_length (asserts : Bool) (r : Registry) (op : Op) (r2 : Registry) (em : List Emit)
    (hop : op.isCancelPending = false) (h : step asserts r op = .ret (r2, em)) :
    r2.all.length = r.all.length ∨
      ∃ s, op = .construct s ∧ r2.all = r.all ++ [SceneGraphEventQueue.new s] := by
  cases op with
  | construct s =>
    simp only [step, Outcome.ret.injEq, Prod.mk.injEq] at h
    obtain ⟨rfl, rfl⟩ := h
    right
    exact ⟨s, rfl, by simp [constructQueue, Registry.all]⟩
  | post s obj argv t =>
    left
    simp only [step] at h
    split at h
    · next out heq =>
      simp only [Outcome.ret.injEq, Prod.mk.injEq] at h
      rw [← h.1]
      exact postEvent_length asserts r s obj _ t out heq
    · cases h
  | cancel s id =>
    left
    simp only [step, cancelEvent, Outcome.ret.injEq, Prod.mk.injEq] at h
    rw [← h.1]
    split
    · rfl
    · exact length_setQueue _ _ _
  | cancelPending obj => simp [Op.isCancelPending] at hop
  | advance s t =>
    left
    simp only [step] at h
    split at h
    · next r3 heq =>
      simp only [Outcome.ret.injEq, Prod.mk.injEq] at h
      rw [← h.1]
      exact advanceToTime_length asserts r s t r3 heq
    · cases h
  | execute d =>
    left
    simp only [step, executeEvents, Outcome.ret.injEq, Prod.mk.injEq] at h
    rw [← h.1]
    simp [Registry.all, length_executeLoop]

theorem cancelPendingLoop_mem (obj : SimObject) :
    ∀ (ws : List SceneGraphEventQueue) (cur : SimObject) (abort : Bool)
      (q2 : SceneGraphEventQueue), q2 ∈ (cancelPendingLoop obj cur ws abort).1 →
      ∃ q ∈ ws, q2 = q ∨ q2 = { q with eventQueue := cancelObjectWalk obj q.eventQueue } := by
  intro ws
  induction ws with
  | nil => intro _ _ q2 h; simp [cancelPendingLoop] at h
  | cons w ws ih =>
    intro cur abort q2 h
    by_cases hc : cur = obj
    · simp only [cancelPendingLoop, hc, ne_eq, not_true_eq_false, if_false] at h
      exact ⟨q2, h, Or.inl rfl⟩
    · by_cases hw : w.pScene = obj
      · simp only [cancelPendingLoop, hc, hw, ne_eq, not_false_eq_true, if_true] at h
        have h2 : q2 ∈ (cancelPendingLoop obj w.pScene ws (abort || w.executingEvents)).1 := by
          rw [hw]; exact h
        obtain ⟨q, hq, hh⟩ := ih _ _ q2 h2
        exact ⟨q, List.mem_cons_of_mem _ hq, hh⟩
      · simp only [cancelPendingLoop, hc, hw, ne_eq, not_false_eq_true, if_true, if_false,
          List.mem_cons] at h
        rcases h with h | h
        · exact ⟨w, List.mem_cons_self _ _, Or.inr h⟩
        · obtain ⟨q, hq, hh⟩ := ih _ _ q2 h
          exact ⟨q, List.mem_cons_of_mem _ hq, hh⟩

/-- Every queue of the registry after a call that returns is a queue of the
registry before it, changed by the body of the call or not at all, or it is
the queue the constructor has just made. -/
theorem step_mem (asserts : Bool) (r : Registry) (op : Op) (r2 : Registry) (em : List Emit)
    (h : step asserts r op = .ret (r2, em)) (q2 : SceneGraphEventQueue) (hq2 : q2 ∈ r2.all) :
    (∃ q ∈ r.all, ∃ p log, QEffect asserts p op (op.pre r) q q2 log) ∨
      ∃ s, op = .construct s ∧ q2 = SceneGraphEventQueue.new s := by
  by_cases hop : op.isCancelPending = true
  · cases op with
    | cancelPending obj =>
      simp only [step, cancelPendingEvents, Outcome.ret.injEq, Prod.mk.injEq] at h
      left
      rw [← h.1] at hq2
      simp only [Registry.all, List.mem_cons] at hq2
      rcases hq2 with rfl | hq2
      · exact ⟨r.root, List.mem_cons_self _ _, 0, [], QEffect.same _ _ _⟩
      · obtain ⟨q, hq, hh⟩ := cancelPendingLoop_mem obj r.rest _ _ q2 hq2
        refine ⟨q, List.mem_cons_of_mem _ hq, 0, [], ?_⟩
        rcases hh with rfl | rfl
        · exact QEffect.same _ _ _
        · exact QEffect.cancelObject _ _ obj
    | construct s => simp [Op.isCancelPending] at hop
    | post s obj argv t => simp [Op.isCancelPending] at hop
    | cancel s id => simp [Op.isCancelPending] at hop
    | advance s t => simp [Op.isCancelPending] at hop
    | execute d => simp [Op.isCancelPending] at hop
  · have hop2 : op.isCancelPending = false := by
      cases hh : op.isCancelPending
      · rfl
      · exact absurd hh hop
    obtain ⟨p, hp⟩ := List.mem_iff_getElem?.1 hq2
    by_cases hlt : p < r.all.length
    · obtain ⟨q, hq⟩ : ∃ q, r.all[p]? = some q := ⟨r.all[p], List.getElem?_eq_getElem hlt⟩
      obtain ⟨q3, h3, h4⟩ := step_at asserts r op r2 em hop2 h p q hq
      rw [hp] at h3
      cases h3
      left
      exact ⟨q, List.mem_iff_getElem?.2 ⟨p, hq⟩, p, _, h4⟩
    · rcases step_length asserts r op r2 em hop2 h with hl | ⟨s, hs, hall⟩
      · have : r2.all[p]? = none := List.getElem?_eq_none (by omega)
        rw [this] at hp
        cases hp
      · right
        refine ⟨s, hs, ?_⟩
        rw [hall, List.getElem?_append_right (by omega)] at hp
        have hp2 : [SceneGraphEventQueue.new s][p - r.all.length]? = some q2 := hp
        cases hk : p - r.all.length with
        | zero => rw [hk] at hp2; simp at hp2; exact hp2.symm
        | succ k => rw [hk] at hp2; simp at hp2

/-! ## Sequences of calls -/

theorem run_cons (asserts : Bool) (r : Registry) (op : Op) (ops : List Op) :
    run asserts r (op :: ops) =
      match step asserts r op with
      | .ret out =>
        match run asserts out.1 ops with
        | .ret out2 => .ret (out2.1, out.2 ++ out2.2)
        | .fatal st => .fatal st
      | .fatal st => .fatal st := rfl

theorem respects_cons (asserts : Bool) (r : Registry) (op : Op) (ops : List Op) :
    respects asserts r (op :: ops) =
      (op.pre r &&
        match step asserts r op with
        | .ret out => respects asserts out.1 ops
        | .fatal _ => true) := rfl

theorem run_cons_ret (asserts : Bool) (r : Registry) (op : Op) (ops : List Op)
    (r2 : Registry) (em : List Emit) (h : run asserts r (op :: ops) = .ret (r2, em)) :
    ∃ r1 em1 em2, step asserts r op = .ret (r1, em1) ∧ run asserts r1 ops = .ret (r2, em2) ∧
      em = em1 ++ em2 := by
  simp only [run] at h
  cases hs : step asserts r op with
  | fatal st => rw [hs] at h; cases h
  | ret out =>
    rw [hs] at h
    simp only at h
    cases hr : run asserts out.1 ops with
    | fatal st => rw [hr] at h; cases h
    | ret out2 =>
      rw [hr] at h
      simp only [Outcome.ret.injEq, Prod.mk.injEq] at h
      exact ⟨out.1, out.2, out2.2, rfl, by rw [← h.1]; exact hr, h.2.symm⟩

theorem run_append (asserts : Bool) :
    ∀ (a : List Op) (r : Registry) (b : List Op) (r1 : Registry) (em1 : List Emit),
      run asserts r a = .ret (r1, em1) →
      run asserts r (a ++ b) =
        match run asserts r1 b with
        | .ret out => .ret (out.1, em1 ++ out.2)
        | .fatal st => .fatal st := by
  intro a
  induction a with
  | nil =>
    intro r b r1 em1 h
    simp only [run, Outcome.ret.injEq, Prod.mk.injEq] at h
    obtain ⟨rfl, rfl⟩ := h
    cases hr : run asserts r b <;> simp [hr]
  | cons op ops ih =>
    intro r b r1 em1 h
    obtain ⟨r0, e0, e2, hs, hr, rfl⟩ := run_cons_ret asserts r op ops r1 em1 h
    rw [List.cons_append, run_cons, hs]
    simp only
    rw [ih r0 b r1 e2 hr]
    cases hb : run asserts r1 b <;> simp

theorem respects_append (asserts : Bool) :
    ∀ (a : List Op) (r : Registry) (b : List Op) (r1 : Registry) (em1 : List Emit),
      run asserts r a = .ret (r1, em1) → respects asserts r a = true →
      respects asserts r1 b = true → respects asserts r (a ++ b) = true := by
  intro a
  induction a with
  | nil =>
    intro r b r1 em1 h _ hb
    simp only [run, Outcome.ret.injEq, Prod.mk.injEq] at h
    obtain ⟨rfl, rfl⟩ := h
    exact hb
  | cons op ops ih =>
    intro r b r1 em1 h ha hb
    obtain ⟨r0, e0, e2, hs, hr, rfl⟩ := run_cons_ret asserts r op ops r1 em1 h
    rw [respects_cons, hs] at ha
    simp only [Bool.and_eq_true] at ha
    rw [List.cons_append, respects_cons, hs]
    simp only [Bool.and_eq_true]
    exact ⟨ha.1, ih r0 b r1 e2 hr ha.2 hb⟩

theorem advanceLoop_false_ok (t : F32) :
    ∀ (l : List SceneEvent) (clock : F32), (advanceLoop false t clock l).1 = true := by
  intro l
  induction l with
  | nil => intro _; rfl
  | cons c tl ih =>
    intro clock
    by_cases h : c.time ≤ t
    · by_cases hx : c.execute = true
      · simp [advanceLoop, h, hx, ih]
      · simp [advanceLoop, h, hx, ih]
    · simp [advanceLoop, h]

/-- With asserts compiled out every call returns. -/
theorem step_false_returns (r : Registry) (op : Op) : ∃ out, step false r op = .ret out := by
  cases op with
  | construct s => exact ⟨_, rfl⟩
  | post s obj argv t =>
    by_cases hobj : obj = NULL
    · subst hobj
      exact ⟨(r, []), by rw [step, postEvent_null]; rfl⟩
    · rcases lookup_cases r s with ⟨i, qi, hf, _⟩ | ⟨hno, _⟩
      · have hps : qi.pScene = s := by
          obtain ⟨_, _, _, _, _, hh⟩ := hf; exact hh
        subst hps
        rw [step, postEvent_found false r obj _ t i qi hf hobj]
        exact ⟨_, rfl⟩
      · exact ⟨(r, []), by rw [step, postEvent_not_owner false r s obj _ t hno hobj]⟩
  | cancel s id => exact ⟨_, rfl⟩
  | cancelPending obj => exact ⟨_, rfl⟩
  | advance s t =>
    rcases lookup_cases r s with ⟨i, qi, hf, _⟩ | ⟨_, hl⟩
    · have hps : qi.pScene = s := by
        obtain ⟨_, _, _, _, _, hh⟩ := hf; exact hh
      subst hps
      rw [step, advanceToTime_found false r t i qi hf]
      simp only [Bool.false_and, Bool.false_eq_true, if_false, advanceLoop_false_ok, if_true]
      exact ⟨_, rfl⟩
    · exact ⟨(r, []), by simp only [step, advanceToTime, hl, ne_eq, not_false_eq_true, if_true]⟩
  | execute d => exact ⟨_, rfl⟩

/-- With asserts compiled out every sequence of calls returns. -/
theorem run_false_returns :
    ∀ (ops : List Op) (r : Registry), ∃ out, run false r ops = .ret out := by
  intro ops
  induction ops with
  | nil => intro r; exact ⟨_, rfl⟩
  | cons op ops ih =>
    intro r
    obtain ⟨out, h1⟩ := step_false_returns r op
    obtain ⟨out2, h2⟩ := ih out.1
    exact ⟨(out2.1, out.2 ++ out2.2), by rw [run_cons, h1]; simp only; rw [h2]⟩

theorem postsFor_cons_le (s : SimObject) (op : Op) (ops : List Op) :
    postsFor s ops ≤ postsFor s (op :: ops) := by
  cases op <;> simp [postsFor]

theorem postCancelRounds_run (asserts : Bool) :
    ∀ (n s : Nat), s < U32_SIZE →
      run asserts (registryAt s) (postCancelRounds s n) =
        .ret (registryAt ((s + n) % U32_SIZE), []) ∧
      respects asserts (registryAt s) (postCancelRounds s n) = true := by
  intro n
  induction n with
  | zero =>
    intro s hs
    simp [postCancelRounds, run, respects, Nat.mod_eq_of_lt hs]
  | succ n ih =>
    intro s hs
    have hlt : (s + 1) % U32_SIZE < U32_SIZE := Nat.mod_lt _ (by decide)
    obtain ⟨h1, h2⟩ := ih ((s + 1) % U32_SIZE) hlt
    have hmod : ((s + 1) % U32_SIZE + n) % U32_SIZE = (s + (n + 1)) % U32_SIZE := by
      simp only [U32_SIZE]; omega
    rw [hmod] at h1
    have hf : (registryAt s).firstOwned 1 1
        { pScene := 1, eventQueue := [], currentSceneTime := 0, eventSequence := s,
          executingEvents := false } :=
      ⟨[SceneGraphEventQueue.new NULL], [], rfl, rfl, by decide, rfl⟩
    have hpost : step asserts (registryAt s) (Op.post 1 5 0 (-1)) =
        .ret ({ root := SceneGraphEventQueue.new NULL,
                rest := [{ pScene := 1,
                           eventQueue := [{ mArgv := 0, startTime := 0, time := 0,
                                            sequenceCount := s, destObject := 5,
                                            execute := false }],
                           currentSceneTime := 0, eventSequence := (s + 1) % U32_SIZE,
                           executingEvents := false }],
                gAbortEvents := false }, []) := by
      have := postEvent_found asserts (registryAt s) 5 (SceneEvent.new 0) (-1) 1 _ hf (by decide)
      simp only [step]
      rw [this]
      simp [insertWalkLt, insertWalkEq, SceneEvent.new, Registry.setQueue, registryAt]
    have hpre : (Op.post 1 5 0 (-1)).pre (registryAt s) = true := by
      simp [Op.pre, lookupFromRoot_of_firstOwned _ _ _ _ hf]
    have hcancel : cancelEvent
        { root := SceneGraphEventQueue.new NULL,
          rest := [{ pScene := 1,
                     eventQueue := [{ mArgv := 0, startTime := 0, time := 0,
                                      sequenceCount := s, destObject := 5,
                                      execute := false }],
                     currentSceneTime := 0, eventSequence := (s + 1) % U32_SIZE,
                     executingEvents := false }],
          gAbortEvents := false } 1 s = registryAt ((s + 1) % U32_SIZE) := by
      simp [cancelEvent, lookupFromNext, lookupLoop, SceneGraphEventQueue.new, NULL,
        cancelWalk, Registry.setQueue, registryAt]
    have hcs : step asserts
        { root := SceneGraphEventQueue.new NULL,
          rest := [{ pScene := 1,
                     eventQueue := [{ mArgv := 0, startTime := 0, time := 0,
                                      sequenceCount := s, destObject := 5,
                                      execute := false }],
                     currentSceneTime := 0, eventSequence := (s + 1) % U32_SIZE,
                     executingEvents := false }],
          gAbortEvents := false } (Op.cancel 1 s) =
        .ret (registryAt ((s + 1) % U32_SIZE), []) := by
      simp only [step, hcancel]
    constructor
    · rw [postCancelRounds, run_cons, hpost]
      simp only
      rw [run_cons, hcs]
      simp only
      rw [h1]
      rfl
    · rw [postCancelRounds, respects_cons, hpost, hpre]
      simp only
      rw [respects_cons, hcs]
      simp only
      rw [h2]
      rfl

/-- A returning sequence of calls keeps `RegistryOrdered` for a scene that
does not get too many posts. -/
theorem run_ordered (asserts : Bool) (s : SimObject) :
    ∀ (ops : List Op) (r r2 : Registry) (em : List Emit),
      postsFor s ops + 1 < U32_SIZE → RegistryOrdered r s ops →
      run asserts r ops = .ret (r2, em) → RegistryOrdered r2 s [] := by
  intro ops
  induction ops with
  | nil =>
    intro r r2 em _ hr h
    simp only [run, Outcome.ret.injEq, Prod.mk.injEq] at h
    rw [← h.1]; exact hr
  | cons op ops ih =>
    intro r r2 em hw hr h
    obtain ⟨r1, em1, em2, hs, hrun, _⟩ := run_cons_ret asserts r op ops r2 em h
    have hw2 : postsFor s ops + 1 < U32_SIZE :=
      lt_of_le_of_lt (Nat.add_le_add_right (postsFor_cons_le s op ops) 1) hw
    refine ih r1 r2 em2 hw2 ?_ hrun
    intro q2 hq2 hps2
    rcases step_mem asserts r op r1 em1 hs q2 hq2 with ⟨q, hq, p, log, he⟩ | ⟨s2, _, rfl⟩
    · have hsame : q2.pScene = q.pScene := by
        cases he <;> rfl
      have hps : q.pScene = s := by rw [← hsame]; exact hps2
      obtain ⟨h1, h2, h3, h4⟩ := hr q hq hps
      rw [← hps] at h4
      obtain ⟨g1, g2, g3, _, _, g6⟩ := qeffect_ordered he h1 h2 h3 ops h4
      rw [hps2] at g6
      exact ⟨g1, g2, g3, g6⟩
    · refine ⟨⟨List.Pairwise.nil, List.nodup_nil⟩, ?_, le_refl _, ?_⟩
      · intro e he; cases he
      · simp only [SceneGraphEventQueue.new]
        omega

theorem registryOrdered_init (s : SimObject) (ops : List Op)
    (hw : postsFor s ops + 1 < U32_SIZE) : RegistryOrdered Registry.init s ops := by
  intro q hq _
  simp only [Registry.init, Registry.all, List.mem_singleton] at hq
  subst hq
  refine ⟨⟨List.Pairwise.nil, List.nodup_nil⟩, ?_, le_refl _, ?_⟩
  · intro e he; cases he
  · simp only [SceneGraphEventQueue.new]
    omega

/-- A returning sequence of calls keeps every chain in non-decreasing fire
time, whatever the counters do. -/
theorem run_timeSorted (asserts : Bool) :
    ∀ (ops : List Op) (r r2 : Registry) (em : List Emit),
      (∀ q ∈ r.all, QueueTimeSorted q) → run asserts r ops = .ret (r2, em) →
      ∀ q ∈ r2.all, QueueTimeSorted q := by
  intro ops
  induction ops with
  | nil =>
    intro r r2 em hr h
    simp only [run, Outcome.ret.injEq, Prod.mk.injEq] at h
    rw [← h.1]; exact hr
  | cons op ops ih =>
    intro r r2 em hr h
    obtain ⟨r1, em1, em2, hs, hrun, _⟩ := run_cons_ret asserts r op ops r2 em h
    refine ih r1 r2 em2 ?_ hrun
    intro q2 hq2
    rcases step_mem asserts r op r1 em1 hs q2 hq2 with ⟨q, hq, p, log, he⟩ | ⟨s, _, rfl⟩
    · exact qeffect_timeSorted he (hr q hq)
    · exact List.Pairwise.nil

theorem run_construct_rounds (asserts : Bool) (n : Nat) (tl : List Op) :
    run asserts Registry.init (Op.construct 1 :: (postCancelRounds 1 n ++ tl)) =
      match run asserts (registryAt ((1 + n) % U32_SIZE)) tl with
      | .ret out => .ret (out.1, out.2)
      | .fatal st => .fatal st := by
  have hc : step asserts Registry.init (Op.construct 1) = .ret (registryAt 1, []) := rfl
  obtain ⟨h1, _⟩ := postCancelRounds_run asserts n 1 (by decide)
  rw [run_cons, hc]
  simp only
  rw [run_append asserts (postCancelRounds 1 n) (registryAt 1) tl _ _ h1]
  cases run asserts (registryAt ((1 + n) % U32_SIZE)) tl <;> simp

theorem respects_construct_rounds (asserts : Bool) (n : Nat) (tl : List Op)
    (h : respects asserts (registryAt ((1 + n) % U32_SIZE)) tl = true) :
    respects asserts Registry.init (Op.construct 1 :: (postCancelRounds 1 n ++ tl)) = true := by
  have hc : step asserts Registry.init (Op.construct 1) = .ret (registryAt 1, []) := rfl
  obtain ⟨h1, h2⟩ := postCancelRounds_run asserts n 1 (by decide)
  rw [respects_cons, hc]
  simp only [Op.pre, Bool.true_and]
  exact respects_append asserts (postCancelRounds 1 n) (registryAt 1) tl _ _ h1 h2 h

/-! ## The queue invariant and the ids -/

/-- C2 fails after a wrap of the counter: the calls of `wrapTwoPosts` all meet
their time preconditions, return, and leave in the queue of scene 1 two events
of equal fire time whose ids are `2^32 - 1` and `0` in this order, so the
chain is not ascending in `sequenceCount` among equal fire times. -/
theorem queue_invariant_wrap :
    respects false Registry.init wrapTwoPosts = true ∧
    run false Registry.init wrapTwoPosts = .ret (registryWrapped, []) ∧
    ∃ q ∈ registryWrapped.all, ¬ q.eventQueue.Pairwise firesBefore := by
  refine ⟨?_, ?_, ?_⟩
  · exact respects_construct_rounds false 4294967294 _ (by decide)
  · rw [wrapTwoPosts, run_construct_rounds]
    have : (1 + 4294967294) % U32_SIZE = 4294967295 := by decide
    rw [this]
    decide
  · exact ⟨_, List.mem_cons_of_mem _ (List.mem_cons_self _ _), by decide⟩

/-- C2 (amended): starting from the initial registry, after any sequence of
constructor, postEvent, cancelEvent, cancelPendingEvents, advanceToTime and
executeEvents calls that returns, the chain of every queue is ascending by
fire time; and when the scene of the queue got fewer than `2^32 - 1` posts (so
that `eventSequence` did not wrap) the chain is also ascending by
`sequenceCount` among equal fire times and no two of its events have the same
`sequenceCount`. -/
theorem queue_invariant (asserts : Bool) (ops : List Op) (r : Registry) (em : List Emit)
    (h : run asserts Registry.init ops = .ret (r, em)) :
    ∀ q ∈ r.all, q.eventQueue.Pairwise (fun a b => a.time ≤ b.time) ∧
      (postsFor q.pScene ops + 1 < U32_SIZE →
        q.eventQueue.Pairwise firesBefore ∧
        (q.eventQueue.map (fun e => e.sequenceCount)).Nodup) := by
  intro q hq
  refine ⟨?_, ?_⟩
  · refine run_timeSorted asserts ops Registry.init r em ?_ h q hq
    intro q0 hq0
    simp only [Registry.init, Registry.all, List.mem_singleton] at hq0
    subst hq0
    exact List.Pairwise.nil
  · intro hw
    exact (run_ordered asserts q.pScene ops Registry.init r em hw
      (registryOrdered_init q.pScene ops hw) h q hq rfl).1

/-- Witness for C2: after the construction and the three posts of scenario
A/B the chain of scene 1 is ordered and its ids are distinct. -/
theorem queue_invariant_witness :
    queueThreePosts.eventQueue.Pairwise (fun a b => a.time ≤ b.time) ∧
      queueThreePosts.eventQueue.Pairwise firesBefore ∧
      (queueThreePosts.eventQueue.map (fun e => e.sequenceCount)).Nodup := by
  have h := queue_invariant false (scenarioAB.take 4) registryThreePosts [] (by decide)
    queueThreePosts (List.mem_cons_of_mem _ (List.mem_cons_self _ _))
  exact ⟨h.1, h.2 (by decide)⟩

/-- C4 fails after a wrap of the counter: the calls of `wrapToZero` all meet
their time preconditions and leave the queue of scene 1 empty with
`eventSequence = 0`; the next post, with a non-null target, succeeds, inserts
its event and returns the id 0, which is `InvalidEventId`. -/
theorem postEvent_id_wrap :
    respects false Registry.init wrapToZero = true ∧
    run false Registry.init wrapToZero = .ret (registryAt 0, []) ∧
    postEvent false (registryAt 0) 1 5 (SceneEvent.new 0) 5 =
      .ret ({ root := SceneGraphEventQueue.new NULL,
              rest := [{ pScene := 1,
                         eventQueue := [{ mArgv := 0, startTime := 0, time := 5,
                                          sequenceCount := 0, destObject := 5,
                                          execute := false }],
                         currentSceneTime := 0, eventSequence := 1,
                         executingEvents := false }],
              gAbortEvents := false }, InvalidEventId) := by
  have hn : wrapToZero = Op.construct 1 :: (postCancelRounds 1 4294967295 ++ []) := by
    simp [wrapToZero]
  have hm : (1 + 4294967295) % U32_SIZE = 0 := by decide
  refine ⟨?_, ?_, by decide⟩
  · rw [hn]
    exact respects_construct_rounds false 4294967295 _ (by rw [hm]; rfl)
  · rw [hn, run_construct_rounds, hm]
    rfl

/-- C4 (amended): in a registry reached from the initial one by a sequence of
calls with fewer than `2^32 - 1` posts for scene `s`, a post with a non-null
target for `s`, when `s` has a queue, returns that queue's `eventSequence`,
which is not 0 (`InvalidEventId`). The counter starts at 1 and is incremented
modulo `2^32`, so without the bound it reaches 0. -/
theorem postEvent_id_nonzero (asserts : Bool) (ops : List Op) (r : Registry) (em : List Emit)
    (s obj : SimObject) (event : SceneEvent) (t : F32) (r2 : Registry) (id : Nat)
    (hw : postsFor s ops + 1 < U32_SIZE)
    (hrun : run asserts Registry.init ops = .ret (r, em))
    (hreg : ∃ q ∈ r.all, q.pScene = s) (hobj : obj ≠ NULL)
    (hpost : postEvent asserts r s obj event t = .ret (r2, id)) :
    id ≠ InvalidEventId ∧ ∃ i q, r.firstOwned s i q ∧ id = q.eventSequence := by
  obtain ⟨i, q, hf⟩ := firstOwned_of_mem r s hreg
  have hps : q.pScene = s := by
    obtain ⟨_, _, _, _, _, hh⟩ := hf; exact hh
  have hmem : q ∈ r.all := by
    obtain ⟨l1, l2, hall, _, _, _⟩ := hf
    rw [hall]; simp
  have hge := (run_ordered asserts s ops Registry.init r em hw
    (registryOrdered_init s ops hw) hrun q hmem hps).2.2.1
  subst hps
  rw [postEvent_found asserts r obj event t i q hf hobj] at hpost
  by_cases ha : (asserts && !(t == -1 || decide (t ≥ q.currentSceneTime))) = true
  · rw [if_pos ha] at hpost; cases hpost
  · rw [if_neg ha] at hpost
    simp only [Outcome.ret.injEq, Prod.mk.injEq] at hpost
    refine ⟨?_, i, q, hf, hpost.2.symm⟩
    rw [← hpost.2]
    simp only [InvalidEventId]
    omega

/-- Witness for C4: after the three posts of scenario A/B the next post on
scene 1 returns the id 4. -/
theorem postEvent_id_nonzero_witness :
    (4 : Nat) ≠ InvalidEventId ∧
      ∃ i q, registryThreePosts.firstOwned 1 i q ∧ 4 = q.eventSequence :=
  postEvent_id_nonzero false (scenarioAB.take 4) registryThreePosts [] 1 5 (SceneEvent.new 3) 7
    { root := SceneGraphEventQueue.new NULL,
      rest := [{ pScene := 1,
                 eventQueue := [{ mArgv := 1, startTime := 0, time := 3, sequenceCount := 2,
                                  destObject := 5, execute := false },
                                { mArgv := 0, startTime := 0, time := 5, sequenceCount := 1,
                                  destObject := 5, execute := false },
                                { mArgv := 2, startTime := 0, time := 5, sequenceCount := 3,
                                  destObject := 5, execute := false },
                                { mArgv := 3, startTime := 0, time := 7, sequenceCount := 4,
                                  destObject := 5, execute := false }],
                 currentSceneTime := 0, eventSequence := 5, executingEvents := false }],
      gAbortEvents := false } 4
    (by decide) (by decide)
    ⟨_, List.mem_cons_of_mem _ (List.mem_cons_self _ _), rfl⟩ (by decide) (by decide)

/-! ## Due flags, clocks and the order of dispatch -/

/-- A call that meets its time precondition keeps the relation between due
flags, fire times and the clock. -/
theorem qeffect_timed {asserts : Bool} {p : Nat} {op : Op}
    {q q2 : SceneGraphEventQueue} {log : List SceneEvent}
    (h : QEffect asserts p op true q q2 log) (ho : QueueTimeSorted q) (ht : QueueTimed q) :
    QueueTimed q2 := by
  obtain ⟨ta, tb, tc⟩ := ht
  cases h with
  | same => exact ⟨ta, tb, tc⟩
  | post _ _ s obj argv t hs hobj hpre =>
    obtain ⟨e0, he0⟩ : ∃ e0 : SceneEvent, e0 =
        { mArgv := argv, startTime := q.currentSceneTime,
          time := if t = -1 then q.currentSceneTime else t,
          sequenceCount := q.eventSequence, destObject := obj, execute := false } := ⟨_, rfl⟩
    rw [← he0]
    have hx0 : e0.execute = false := by rw [he0]
    have ht0 : q.currentSceneTime ≤ e0.time := by
      rw [he0]
      show q.currentSceneTime ≤ if t = -1 then q.currentSceneTime else t
      rcases hpre rfl with h | h
      · simp [h]
      · split
        · exact le_refl _
        · exact h
    obtain ⟨l1, l2, h1, h2, h3, h4⟩ := insertWalkLt_split_sorted e0 q.eventQueue ho
    have hmem : ∀ x ∈ l1 ++ e0 :: l2, x = e0 ∨ x ∈ q.eventQueue := by
      intro x hx
      rw [h1]
      rcases List.mem_append.1 hx with h | h
      · exact Or.inr (List.mem_append_left _ h)
      · rcases List.mem_cons.1 h with h | h
        · exact Or.inl h
        · exact Or.inr (List.mem_append_right _ h)
    refine ⟨?_, ?_, ?_⟩
    · intro x hx hdue
      have hx2 : x ∈ l1 ++ e0 :: l2 := by rw [← h2]; exact hx
      rcases hmem x hx2 with rfl | hx3
      · rw [hx0] at hdue; cases hdue
      · exact ta x hx3 hdue
    · intro x hx hnd
      have hx2 : x ∈ l1 ++ e0 :: l2 := by rw [← h2]; exact hx
      rcases hmem x hx2 with rfl | hx3
      · exact ht0
      · exact tb x hx3 hnd
    · show (insertWalkLt e0 q.eventQueue).Pairwise _
      rw [h2]
      rw [h1] at tc ta
      have tc2 := List.pairwise_append.1 tc
      rw [List.pairwise_append]
      refine ⟨tc2.1, ?_, ?_⟩
      · rw [List.pairwise_cons]
        refine ⟨?_, tc2.2.1⟩
        intro y hy hdue
        exact absurd (ta y (List.mem_append_right _ hy) hdue)
          (not_le.2 (lt_of_le_of_lt ht0 (h4 y hy)))
      · intro a ha b hb
        rcases List.mem_cons.1 hb with rfl | hb
        · intro hdue; rw [hx0] at hdue; cases hdue
        · exact tc2.2.2 a ha b hb
  | cancel _ _ s id =>
    have hs := cancelWalk_sublist id q.eventQueue
    exact ⟨fun x hx => ta x (hs.subset hx), fun x hx => tb x (hs.subset hx), tc.sublist hs⟩
  | cancelObject _ _ obj =>
    have hs := cancelObjectWalk_sublist obj q.eventQueue
    exact ⟨fun x hx => ta x (hs.subset hx), fun x hx => tb x (hs.subset hx), tc.sublist hs⟩
  | advance _ _ s t hpre hok =>
    have hm := advanceLoop_sorted asserts t q.eventQueue q.currentSceneTime ho hok
    have hge : t ≥ q.currentSceneTime := hpre rfl
    refine ⟨?_, ?_, ?_⟩
    · intro x hx hdue
      have hx2 : x ∈ (advanceLoop asserts t q.currentSceneTime q.eventQueue).2.2 := hx
      rw [hm] at hx2
      obtain ⟨y, hy, rfl⟩ := List.mem_map.1 hx2
      rw [markDue_execute] at hdue
      rw [markDue_time]
      show y.time ≤ t
      by_cases hle : y.time ≤ t
      · exact hle
      · simp only [hle, decide_False, Bool.false_or] at hdue
        exact le_trans (ta y hy hdue) hge
    · intro x hx hnd
      have hx2 : x ∈ (advanceLoop asserts t q.currentSceneTime q.eventQueue).2.2 := hx
      rw [hm] at hx2
      obtain ⟨y, hy, rfl⟩ := List.mem_map.1 hx2
      rw [markDue_execute] at hnd
      rw [markDue_time]
      show t ≤ y.time
      by_cases hle : y.time ≤ t
      · simp [hle] at hnd
      · exact le_of_lt (not_le.1 hle)
    · show ((advanceLoop asserts t q.currentSceneTime q.eventQueue).2.2).Pairwise _
      rw [hm, List.pairwise_map]
      refine (List.Pairwise.and ho tc).imp ?_
      intro a b hab
      rw [markDue_execute, markDue_execute]
      intro hdue
      by_cases hle : b.time ≤ t
      · have : a.time ≤ t := le_trans hab.1 hle
        simp [this]
      · simp only [hle, decide_False, Bool.false_or] at hdue
        simp [hab.2 hdue]
  | dispatch _ _ isDeleted abort =>
    obtain ⟨gone, hg, _, _, _⟩ := dispatchLoop_remaining isDeleted abort p q.eventQueue
    have hs : ((dispatchLoop isDeleted abort p q.eventQueue).1).Sublist q.eventQueue := by
      conv => rhs; rw [hg]
      exact List.sublist_append_right _ _
    exact ⟨fun x hx => ta x (hs.subset hx), fun x hx => tb x (hs.subset hx), tc.sublist hs⟩

theorem firesBefore_of_key {a x b : SceneEvent} (h : firesBefore a x) (ht : x.time = b.time)
    (hs : x.sequenceCount = b.sequenceCount) : firesBefore a b := by
  unfold firesBefore at h ⊢
  rw [← ht, ← hs]; exact h

/-- The events a call passes to `process` from a queue come out in key order,
they were in the chain, and each of them precedes, in key order, every event
that can be executed from the queue afterwards. -/
theorem qeffect_log {asserts : Bool} {p : Nat} {op : Op} {pre : Bool}
    {q q2 : SceneGraphEventQueue} {log : List SceneEvent}
    (h : QEffect asserts p op pre q q2 log) (ho : QueueOrdered q) (hb : QueueBelow q)
    (ht : QueueTimed q) :
    log.Pairwise firesBefore ∧ (∀ a ∈ log, a ∈ q.eventQueue) ∧
      ∀ a ∈ log, ∀ b, Origin q2 b → firesBefore a b := by
  cases h with
  | same => exact ⟨List.Pairwise.nil, by simp, by simp⟩
  | post _ _ s obj argv t hs hobj hpre => exact ⟨List.Pairwise.nil, by simp, by simp⟩
  | cancel _ _ s id => exact ⟨List.Pairwise.nil, by simp, by simp⟩
  | cancelObject _ _ obj => exact ⟨List.Pairwise.nil, by simp, by simp⟩
  | advance _ _ s t hpre hok => exact ⟨List.Pairwise.nil, by simp, by simp⟩
  | dispatch _ _ isDeleted abort =>
    obtain ⟨gone, hg, hdue, hsub, _⟩ := dispatchLoop_remaining isDeleted abort p q.eventQueue
    have hp := ho.1
    rw [hg] at hp
    have hp2 := List.pairwise_append.1 hp
    have hin : ∀ a ∈ processedAt p (dispatchLoop isDeleted abort p q.eventQueue).2,
        a ∈ q.eventQueue := by
      intro a ha
      rw [hg]
      exact List.mem_append_left _ (hsub.subset ha)
    refine ⟨hp2.1.sublist hsub, hin, ?_⟩
    intro a ha b hob
    have hag : a ∈ gone := hsub.subset ha
    rcases hob with ⟨x, hx, hxt, hxs⟩ | ⟨hbt, hbs⟩
    · exact firesBefore_of_key (hp2.2.2 a hag x hx) hxt hxs
    · have h1 : a.time ≤ q.currentSceneTime := ht.1 a (hin a ha) (hdue a hag)
      have h2 : a.sequenceCount < q.eventSequence := hb a (hin a ha)
      have h3 : q.currentSceneTime ≤ b.time := hbt
      have h4 : q.eventSequence ≤ b.sequenceCount := hbs
      unfold firesBefore
      rcases lt_or_eq_of_le (le_trans h1 h3) with h | h
      · exact Or.inl h
      · exact Or.inr ⟨h, lt_of_lt_of_le h2 h4⟩

/-- What can be executed from a queue after a call could already be expected
before the call. -/
theorem qeffect_origin {asserts : Bool} {p : Nat} {op : Op}
    {q q2 : SceneGraphEventQueue} {log : List SceneEvent}
    (h : QEffect asserts p op true q q2 log) (ho : QueueOrdered q)
    (hes : q.eventSequence ≤ q2.eventSequence) (e : SceneEvent) (he : Origin q2 e) :
    Origin q e := by
  cases h with
  | same => exact he
  | post _ _ s obj argv t hs hobj hpre =>
    obtain ⟨e0, he0⟩ : ∃ e0 : SceneEvent, e0 =
        { mArgv := argv, startTime := q.currentSceneTime,
          time := if t = -1 then q.currentSceneTime else t,
          sequenceCount := q.eventSequence, destObject := obj, execute := false } := ⟨_, rfl⟩
    rw [← he0] at he hes
    have hs0 : e0.sequenceCount = q.eventSequence := by rw [he0]
    have ht0 : q.currentSceneTime ≤ e0.time := by
      rw [he0]
      show q.currentSceneTime ≤ if t = -1 then q.currentSceneTime else t
      rcases hpre rfl with h | h
      · simp [h]
      · split
        · exact le_refl _
        · exact h
    rcases he with ⟨x, hx, hxt, hxs⟩ | ⟨h1, h2⟩
    · obtain ⟨l1, l2, h1, h2⟩ := insertWalkLt_split e0 q.eventQueue
      have hx2 : x ∈ l1 ++ e0 :: l2 := by rw [← h2]; exact hx
      rcases List.mem_append.1 hx2 with h | h
      · exact Or.inl ⟨x, by rw [h1]; exact List.mem_append_left _ h, hxt, hxs⟩
      · rcases List.mem_cons.1 h with h | h
        · right
          subst h
          refine ⟨?_, ?_⟩
          · rw [← hxt]; exact ht0
          · rw [← hxs, hs0]
        · exact Or.inl ⟨x, by rw [h1]; exact List.mem_append_right _ h, hxt, hxs⟩
    · exact Or.inr ⟨h1, le_trans hes h2⟩
  | cancel _ _ s id =>
    rcases he with ⟨x, hx, hxt, hxs⟩ | ⟨h1, h2⟩
    · exact Or.inl ⟨x, (cancelWalk_sublist id q.eventQueue).subset hx, hxt, hxs⟩
    · exact Or.inr ⟨h1, h2⟩
  | cancelObject _ _ obj =>
    rcases he with ⟨x, hx, hxt, hxs⟩ | ⟨h1, h2⟩
    · exact Or.inl ⟨x, (cancelObjectWalk_sublist obj q.eventQueue).subset hx, hxt, hxs⟩
    · exact Or.inr ⟨h1, h2⟩
  | advance _ _ s t hpre hok =>
    have hm := advanceLoop_sorted asserts t q.eventQueue q.currentSceneTime
      (ho.1.imp (fun h => firesBefore_time h)) hok
    rcases he with ⟨x, hx, hxt, hxs⟩ | ⟨h1, h2⟩
    · have hx2 : x ∈ (advanceLoop asserts t q.currentSceneTime q.eventQueue).2.2 := hx
      rw [hm] at hx2
      obtain ⟨y, hy, rfl⟩ := List.mem_map.1 hx2
      rw [markDue_time] at hxt
      rw [markDue_sequenceCount] at hxs
      exact Or.inl ⟨y, hy, hxt, hxs⟩
    · exact Or.inr ⟨le_trans (hpre rfl) h1, h2⟩
  | dispatch _ _ isDeleted abort =>
    obtain ⟨gone, hg, _, _, _⟩ := dispatchLoop_remaining isDeleted abort p q.eventQueue
    rcases he with ⟨x, hx, hxt, hxs⟩ | ⟨h1, h2⟩
    · refine Or.inl ⟨x, ?_, hxt, hxs⟩
      rw [hg]; exact List.mem_append_right _ hx
    · exact Or.inr ⟨h1, h2⟩

/-- The events a call passes to `process` from a queue come out in
non-decreasing fire time, they were in the chain, and none of them has a
later fire time than an event that can be executed from the queue
afterwards. -/
theorem qeffect_log_time {asserts : Bool} {p : Nat} {op : Op} {pre : Bool}
    {q q2 : SceneGraphEventQueue} {log : List SceneEvent}
    (h : QEffect asserts p op pre q q2 log) (ho : QueueTimeSorted q) (ht : QueueTimed q) :
    log.Pairwise (fun a b => a.time ≤ b.time) ∧ (∀ a ∈ log, a ∈ q.eventQueue) ∧
      ∀ a ∈ log, ∀ b, OriginTime q2 b → a.time ≤ b.time := by
  cases h with
  | same => exact ⟨List.Pairwise.nil, by simp, by simp⟩
  | post _ _ s obj argv t hs hobj hpre => exact ⟨List.Pairwise.nil, by simp, by simp⟩
  | cancel _ _ s id => exact ⟨List.Pairwise.nil, by simp, by simp⟩
  | cancelObject _ _ obj => exact ⟨List.Pairwise.nil, by simp, by simp⟩
  | advance _ _ s t hpre hok => exact ⟨List.Pairwise.nil, by simp, by simp⟩
  | dispatch _ _ isDeleted abort =>
    obtain ⟨gone, hg, hdue, hsub, _⟩ := dispatchLoop_remaining isDeleted abort p q.eventQueue
    have hp : (gone ++ (dispatchLoop isDeleted abort p q.eventQueue).1).Pairwise
        (fun a b => a.time ≤ b.time) := by
      rw [← hg]; exact ho
    have hp2 := List.pairwise_append.1 hp
    have hin : ∀ a ∈ processedAt p (dispatchLoop isDeleted abort p q.eventQueue).2,
        a ∈ q.eventQueue := by
      intro a ha
      rw [hg]
      exact List.mem_append_left _ (hsub.subset ha)
    refine ⟨hp2.1.sublist hsub, hin, ?_⟩
    intro a ha b hob
    have hag : a ∈ gone := hsub.subset ha
    rcases hob with ⟨x, hx, hxt⟩ | hbt
    · rw [← hxt]; exact hp2.2.2 a hag x hx
    · have h1 : a.time ≤ q.currentSceneTime := ht.1 a (hin a ha) (hdue a hag)
      have h3 : q.currentSceneTime ≤ b.time := hbt
      exact le_trans h1 h3

/-- The fire times that can be executed from a queue after a call could
already be expected before the call. -/
theorem qeffect_originTime {asserts : Bool} {p : Nat} {op : Op}
    {q q2 : SceneGraphEventQueue} {log : List SceneEvent}
    (h : QEffect asserts p op true q q2 log) (ho : QueueTimeSorted q)
    (e : SceneEvent) (he : OriginTime q2 e) : OriginTime q e := by
  cases h with
  | same => exact he
  | post _ _ s obj argv t hs hobj hpre =>
    obtain ⟨e0, he0⟩ : ∃ e0 : SceneEvent, e0 =
        { mArgv := argv, startTime := q.currentSceneTime,
          time := if t = -1 then q.currentSceneTime else t,
          sequenceCount := q.eventSequence, destObject := obj, execute := false } := ⟨_, rfl⟩
    rw [← he0] at he
    have ht0 : q.currentSceneTime ≤ e0.time := by
      rw [he0]
      show q.currentSceneTime ≤ if t = -1 then q.currentSceneTime else t
      rcases hpre rfl with h | h
      · simp [h]
      · split
        · exact le_refl _
        · exact h
    rcases he with ⟨x, hx, hxt⟩ | h1
    · obtain ⟨l1, l2, h1, h2⟩ := insertWalkLt_split e0 q.eventQueue
      have hx2 : x ∈ l1 ++ e0 :: l2 := by rw [← h2]; exact hx
      rcases List.mem_append.1 hx2 with h | h
      · exact Or.inl ⟨x, by rw [h1]; exact List.mem_append_left _ h, hxt⟩
      · rcases List.mem_cons.1 h with h | h
        · right
          subst h
          rw [← hxt]; exact ht0
        · exact Or.inl ⟨x, by rw [h1]; exact List.mem_append_right _ h, hxt⟩
    · exact Or.inr h1
  | cancel _ _ s id =>
    rcases he with ⟨x, hx, hxt⟩ | h1
    · exact Or.inl ⟨x, (cancelWalk_sublist id q.eventQueue).subset hx, hxt⟩
    · exact Or.inr h1
  | cancelObject _ _ obj =>
    rcases he with ⟨x, hx, hxt⟩ | h1
    · exact Or.inl ⟨x, (cancelObjectWalk_sublist obj q.eventQueue).subset hx, hxt⟩
    · exact Or.inr h1
  | advance _ _ s t hpre hok =>
    have hm := advanceLoop_sorted asserts t q.eventQueue q.currentSceneTime ho hok
    rcases he with ⟨x, hx, hxt⟩ | h1
    · have hx2 : x ∈ (advanceLoop asserts t q.currentSceneTime q.eventQueue).2.2 := hx
      rw [hm] at hx2
      obtain ⟨y, hy, rfl⟩ := List.mem_map.1 hx2
      rw [markDue_time] at hxt
      exact Or.inl ⟨y, hy, hxt⟩
    · exact Or.inr (le_trans (hpre rfl) h1)
  | dispatch _ _ isDeleted abort =>
    obtain ⟨gone, hg, _, _, _⟩ := dispatchLoop_remaining isDeleted abort p q.eventQueue
    rcases he with ⟨x, hx, hxt⟩ | h1
    · refine Or.inl ⟨x, ?_, hxt⟩
      rw [hg]; exact List.mem_append_right _ hx
    · exact Or.inr h1

/-- The events executed from one queue over a sequence of calls come out in
non-decreasing fire time, whatever the counter does. -/
theorem run_processed_time (asserts : Bool) (p : Nat) :
    ∀ (ops : List Op) (r r2 : Registry) (em : List Emit) (q : SceneGraphEventQueue),
      r.all[p]? = some q → (∀ op ∈ ops, op.isCancelPending = false) →
      respects asserts r ops = true → QueueTimeSorted q → QueueTimed q →
      run asserts r ops = .ret (r2, em) →
      (processedAt p em).Pairwise (fun a b => a.time ≤ b.time) ∧
        ∀ e ∈ processedAt p em, OriginTime q e := by
  intro ops
  induction ops with
  | nil =>
    intro r r2 em q _ _ _ _ _ h
    simp only [run, Outcome.ret.injEq, Prod.mk.injEq] at h
    rw [← h.2]
    exact ⟨List.Pairwise.nil, by simp [processedAt]⟩
  | cons op ops ih =>
    intro r r2 em q hq hops hpre ho ht h
    obtain ⟨r1, em1, em2, hs, hrun, rfl⟩ := run_cons_ret asserts r op ops r2 em h
    rw [respects_cons, hs] at hpre
    simp only [Bool.and_eq_true] at hpre
    obtain ⟨q1, hq1, heff⟩ :=
      step_at asserts r op r1 em1 (hops op (List.mem_cons_self _ _)) hs p q hq
    rw [hpre.1] at heff
    have go := qeffect_timeSorted heff ho
    have gt := qeffect_timed heff ho ht
    obtain ⟨la, lb, lc⟩ := qeffect_log_time heff ho ht
    obtain ⟨ia, ib⟩ := ih r1 r2 em2 q1 hq1
      (fun o ho2 => hops o (List.mem_cons_of_mem _ ho2)) hpre.2 go gt hrun
    rw [processedAt_append]
    refine ⟨?_, ?_⟩
    · rw [List.pairwise_append]
      exact ⟨la, ia, fun a ha b hb2 => lc a ha b (ib b hb2)⟩
    · intro e he
      rcases List.mem_append.1 he with he | he
      · exact Or.inl ⟨e, lb e he, rfl⟩
      · exact qeffect_originTime heff ho e (ib e he)

/-- The events executed from one queue over a sequence of calls come out in
key order, and each of them could be expected from the queue at the start. -/
theorem run_processed_order (asserts : Bool) (p : Nat) :
    ∀ (ops : List Op) (r r2 : Registry) (em : List Emit) (q : SceneGraphEventQueue),
      r.all[p]? = some q → (∀ op ∈ ops, op.isCancelPending = false) →
      respects asserts r ops = true →
      QueueOrdered q → QueueBelow q → 1 ≤ q.eventSequence → QueueTimed q →
      q.eventSequence + postsFor q.pScene ops < U32_SIZE →
      run asserts r ops = .ret (r2, em) →
      (processedAt p em).Pairwise firesBefore ∧ ∀ e ∈ processedAt p em, Origin q e := by
  intro ops
  induction ops with
  | nil =>
    intro r r2 em q _ _ _ _ _ _ _ _ h
    simp only [run, Outcome.ret.injEq, Prod.mk.injEq] at h
    rw [← h.2]
    exact ⟨List.Pairwise.nil, by simp [processedAt]⟩
  | cons op ops ih =>
    intro r r2 em q hq hops hpre ho hb h1 ht hw h
    obtain ⟨r1, em1, em2, hs, hrun, rfl⟩ := run_cons_ret asserts r op ops r2 em h
    rw [respects_cons, hs] at hpre
    simp only [Bool.and_eq_true] at hpre
    obtain ⟨q1, hq1, heff⟩ :=
      step_at asserts r op r1 em1 (hops op (List.mem_cons_self _ _)) hs p q hq
    rw [hpre.1] at heff
    obtain ⟨go, gb, g1, gs, ges, gw⟩ := qeffect_ordered heff ho hb h1 ops hw
    have gt := qeffect_timed heff (ho.1.imp (fun h => firesBefore_time h)) ht
    obtain ⟨la, lb, lc⟩ := qeffect_log heff ho hb ht
    obtain ⟨ia, ib⟩ := ih r1 r2 em2 q1 hq1
      (fun o ho2 => hops o (List.mem_cons_of_mem _ ho2)) hpre.2 go gb g1 gt gw hrun
    rw [processedAt_append]
    refine ⟨?_, ?_⟩
    · rw [List.pairwise_append]
      exact ⟨la, ia, fun a ha b hb2 => lc a ha b (ib b hb2)⟩
    · intro e he
      rcases List.mem_append.1 he with he | he
      · exact Or.inl ⟨e, lb e he, rfl, rfl⟩
      · exact qeffect_origin heff ho ges e (ib e he)

/-! ### Order of posting -/

theorem postedBefore_time {a b : SceneEvent} (h : postedBefore a b) : a.time ≤ b.time := by
  rcases h with h | h
  · exact le_of_lt h
  · exact le_of_eq h.1

theorem postedArgs_cons_subset (op : Op) (ops : List Op) :
    ∀ a ∈ postedArgs ops, a ∈ postedArgs (op :: ops) := by
  intro a ha
  cases op <;> simp [postedArgs, ha]

/-- No call breaks the order of posting in a chain. -/
theorem qeffect_posted {asserts : Bool} {p : Nat} {op : Op} {pre : Bool}
    {q q2 : SceneGraphEventQueue} {log : List SceneEvent}
    (h : QEffect asserts p op pre q q2 log) (ops : List Op)
    (ho : q.eventQueue.Pairwise postedBefore) (hb : QueuePosted q (op :: ops))
    (hinc : (postedArgs (op :: ops)).Pairwise (fun a b => a < b)) :
    q2.eventQueue.Pairwise postedBefore ∧ QueuePosted q2 ops := by
  have hb2 : QueuePosted q ops :=
    fun e he a ha => hb e he a (postedArgs_cons_subset op ops a ha)
  cases h with
  | same => exact ⟨ho, hb2⟩
  | post _ _ s obj argv t hs hobj ht =>
    obtain ⟨e0, he0⟩ : ∃ e0 : SceneEvent, e0 =
        { mArgv := argv, startTime := q.currentSceneTime,
          time := if t = -1 then q.currentSceneTime else t,
          sequenceCount := q.eventSequence, destObject := obj, execute := false } := ⟨_, rfl⟩
    rw [← he0]
    have ha0 : e0.mArgv = argv := by rw [he0]
    have hargs : postedArgs (Op.post s obj argv t :: ops) = argv :: postedArgs ops := rfl
    rw [hargs] at hinc
    have hbelow : ∀ e ∈ q.eventQueue, e.mArgv < argv := fun e he =>
      hb e he argv (by rw [hargs]; exact List.mem_cons_self _ _)
    have hinc2 := List.pairwise_cons.1 hinc
    obtain ⟨l1, l2, h1, h2, h3, h4⟩ :=
      insertWalkLt_split_sorted e0 q.eventQueue (ho.imp (fun h => postedBefore_time h))
    have ho2 : (l1 ++ l2).Pairwise postedBefore := by rw [← h1]; exact ho
    have hp2 := List.pairwise_append.1 ho2
    refine ⟨?_, ?_⟩
    · show (insertWalkLt e0 q.eventQueue).Pairwise postedBefore
      rw [h2, List.pairwise_append]
      refine ⟨hp2.1, ?_, ?_⟩
      · rw [List.pairwise_cons]
        exact ⟨fun x hx => Or.inl (h4 x hx), hp2.2.1⟩
      · intro a ha b hb3
        rcases List.mem_cons.1 hb3 with rfl | hb3
        · rcases lt_or_eq_of_le (h3 a ha) with h | h
          · exact Or.inl h
          · refine Or.inr ⟨h, ?_⟩
            rw [ha0]
            exact hbelow a (by rw [h1]; exact List.mem_append_left _ ha)
        · exact hp2.2.2 a ha b hb3
    · intro x hx a ha
      have hx2 : x ∈ l1 ++ e0 :: l2 := by rw [← h2]; exact hx
      have hx3 : x = e0 ∨ x ∈ q.eventQueue := by
        rw [h1]
        rcases List.mem_append.1 hx2 with h | h
        · exact Or.inr (List.mem_append_left _ h)
        · rcases List.mem_cons.1 h with h | h
          · exact Or.inl h
          · exact Or.inr (List.mem_append_right _ h)
      rcases hx3 with rfl | hx3
      · rw [ha0]; exact hinc2.1 a ha
      · exact hb2 x hx3 a ha
  | cancel _ _ s id =>
    have hs := cancelWalk_sublist id q.eventQueue
    exact ⟨ho.sublist hs, fun e he => hb2 e (hs.subset he)⟩
  | cancelObject _ _ obj =>
    have hs := cancelObjectWalk_sublist obj q.eventQueue
    exact ⟨ho.sublist hs, fun e he => hb2 e (hs.subset he)⟩
  | advance _ _ s t ht hok =>
    have hm := advanceLoop_sorted asserts t q.eventQueue q.currentSceneTime
      (ho.imp (fun h => postedBefore_time h)) hok
    refine ⟨?_, ?_⟩
    · show ((advanceLoop asserts t q.currentSceneTime q.eventQueue).2.2).Pairwise postedBefore
      rw [hm, List.pairwise_map]
      refine ho.imp ?_
      intro a b hab
      unfold postedBefore at hab ⊢
      simp only [markDue_time, markDue_mArgv]
      exact hab
    · intro x hx a ha
      have hx2 : x ∈ (advanceLoop asserts t q.currentSceneTime q.eventQueue).2.2 := hx
      rw [hm] at hx2
      obtain ⟨y, hy, rfl⟩ := List.mem_map.1 hx2
      rw [markDue_mArgv]
      exact hb2 y hy a ha
  | dispatch _ _ isDeleted abort =>
    obtain ⟨gone, hg, _, _, _⟩ := dispatchLoop_remaining isDeleted abort p q.eventQueue
    have hs : ((dispatchLoop isDeleted abort p q.eventQueue).1).Sublist q.eventQueue := by
      conv => rhs; rw [hg]
      exact List.sublist_append_right _ _
    exact ⟨ho.sublist hs, fun e he => hb2 e (hs.subset he)⟩

/-- The events a call passes to `process` from a queue come out in posting
order among equal fire times, and each of them precedes, in that order, every
event that can be executed from the queue afterwards. -/
theorem qeffect_log_posted {asserts : Bool} {p : Nat} {op : Op} {pre : Bool}
    {q q2 : SceneGraphEventQueue} {log : List SceneEvent}
    (h : QEffect asserts p op pre q q2 log) (ops : List Op)
    (ho : q.eventQueue.Pairwise postedBefore) (hb : QueuePosted q (op :: ops))
    (ht : QueueTimed q) :
    log.Pairwise postedBefore ∧ (∀ a ∈ log, a ∈ q.eventQueue) ∧
      ∀ a ∈ log, ∀ b, OriginPosted q2 ops b → postedBefore a b := by
  cases h with
  | same => exact ⟨List.Pairwise.nil, by simp, by simp⟩
  | post _ _ s obj argv t hs hobj hpre => exact ⟨List.Pairwise.nil, by simp, by simp⟩
  | cancel _ _ s id => exact ⟨List.Pairwise.nil, by simp, by simp⟩
  | cancelObject _ _ obj => exact ⟨List.Pairwise.nil, by simp, by simp⟩
  | advance _ _ s t hpre hok => exact ⟨List.Pairwise.nil, by simp, by simp⟩
  | dispatch _ _ isDeleted abort =>
    obtain ⟨gone, hg, hdue, hsub, _⟩ := dispatchLoop_remaining isDeleted abort p q.eventQueue
    have hp : (gone ++ (dispatchLoop isDeleted abort p q.eventQueue).1).Pairwise
        postedBefore := by
      rw [← hg]; exact ho
    have hp2 := List.pairwise_append.1 hp
    have hin : ∀ a ∈ processedAt p (dispatchLoop isDeleted abort p q.eventQueue).2,
        a ∈ q.eventQueue := by
      intro a ha
      rw [hg]
      exact List.mem_append_left _ (hsub.subset ha)
    refine ⟨hp2.1.sublist hsub, hin, ?_⟩
    intro a ha b hob
    have hag : a ∈ gone := hsub.subset ha
    rcases hob with ⟨x, hx, hxt, hxs⟩ | ⟨hbt, hbs⟩
    · have := hp2.2.2 a hag x hx
      unfold postedBefore at this ⊢
      rw [← hxt, ← hxs]; exact this
    · have h1 : a.time ≤ q.currentSceneTime := ht.1 a (hin a ha) (hdue a hag)
      have h2 : a.mArgv < b.mArgv := hb a (hin a ha) b.mArgv hbs
      have h3 : q.currentSceneTime ≤ b.time := hbt
      unfold postedBefore
      rcases lt_or_eq_of_le (le_trans h1 h3) with h | h
      · exact Or.inl h
      · exact Or.inr ⟨h, h2⟩

theorem qeffect_originPosted {asserts : Bool} {p : Nat} {op : Op}
    {q q2 : SceneGraphEventQueue} {log : List SceneEvent}
    (h : QEffect asserts p op true q q2 log) (ops : List Op) (ho : QueueTimeSorted q)
    (e : SceneEvent) (he : OriginPosted q2 ops e) : OriginPosted q (op :: ops) e := by
  have hsub := postedArgs_cons_subset op ops
  cases h with
  | same =>
    rcases he with h | ⟨h1, h2⟩
    · exact Or.inl h
    · exact Or.inr ⟨h1, hsub _ h2⟩
  | post _ _ s obj argv t hs hobj hpre =>
    obtain ⟨e0, he0⟩ : ∃ e0 : SceneEvent, e0 =
        { mArgv := argv, startTime := q.currentSceneTime,
          time := if t = -1 then q.currentSceneTime else t,
          sequenceCount := q.eventSequence, destObject := obj, execute := false } := ⟨_, rfl⟩
    rw [← he0] at he
    have ha0 : e0.mArgv = argv := by rw [he0]
    have ht0 : q.currentSceneTime ≤ e0.time := by
      rw [he0]
      show q.currentSceneTime ≤ if t = -1 then q.currentSceneTime else t
      rcases hpre rfl with h | h
      · simp [h]
      · split
        · exact le_refl _
        · exact h
    rcases he with ⟨x, hx, hxt, hxs⟩ | ⟨h1, h2⟩
    · obtain ⟨l1, l2, h1, h2⟩ := insertWalkLt_split e0 q.eventQueue
      have hx2 : x ∈ l1 ++ e0 :: l2 := by rw [← h2]; exact hx
      rcases List.mem_append.1 hx2 with h | h
      · exact Or.inl ⟨x, by rw [h1]; exact List.mem_append_left _ h, hxt, hxs⟩
      · rcases List.mem_cons.1 h with h | h
        · right
          subst h
          refine ⟨?_, ?_⟩
          · rw [← hxt]; exact ht0
          · rw [← hxs, ha0]
            exact List.mem_cons_self _ _
        · exact Or.inl ⟨x, by rw [h1]; exact List.mem_append_right _ h, hxt, hxs⟩
    · exact Or.inr ⟨h1, hsub _ h2⟩
  | cancel _ _ s id =>
    rcases he with ⟨x, hx, hxt, hxs⟩ | ⟨h1, h2⟩
    · exact Or.inl ⟨x, (cancelWalk_sublist id q.eventQueue).subset hx, hxt, hxs⟩
    · exact Or.inr ⟨h1, hsub _ h2⟩
  | cancelObject _ _ obj =>
    rcases he with ⟨x, hx, hxt, hxs⟩ | ⟨h1, h2⟩
    · exact Or.inl ⟨x, (cancelObjectWalk_sublist obj q.eventQueue).subset hx, hxt, hxs⟩
    · exact Or.inr ⟨h1, hsub _ h2⟩
  | advance _ _ s t hpre hok =>
    have hm := advanceLoop_sorted asserts t q.eventQueue q.currentSceneTime ho hok
    rcases he with ⟨x, hx, hxt, hxs⟩ | ⟨h1, h2⟩
    · have hx2 : x ∈ (advanceLoop asserts t q.currentSceneTime q.eventQueue).2.2 := hx
      rw [hm] at hx2
      obtain ⟨y, hy, rfl⟩ := List.mem_map.1 hx2
      rw [markDue_time] at hxt
      rw [markDue_mArgv] at hxs
      exact Or.inl ⟨y, hy, hxt, hxs⟩
    · exact Or.inr ⟨le_trans (hpre rfl) h1, hsub _ h2⟩
  | dispatch _ _ isDeleted abort =>
    obtain ⟨gone, hg, _, _, _⟩ := dispatchLoop_remaining isDeleted abort p q.eventQueue
    rcases he with ⟨x, hx, hxt, hxs⟩ | ⟨h1, h2⟩
    · refine Or.inl ⟨x, ?_, hxt, hxs⟩
      rw [hg]; exact List.mem_append_right _ hx
    · exact Or.inr ⟨h1, hsub _ h2⟩

/-- When the posts of a sequence of calls carry increasing commands, the
events executed from one queue come out in non-decreasing fire time and,
among equal fire times, in the order they were posted, whatever the counter
does. -/
theorem run_processed_posted (asserts : Bool) (p : Nat) :
    ∀ (ops : List Op) (r r2 : Registry) (em : List Emit) (q : SceneGraphEventQueue),
      r.all[p]? = some q → (∀ op ∈ ops, op.isCancelPending = false) →
      respects asserts r ops = true →
      q.eventQueue.Pairwise postedBefore → QueuePosted q ops → QueueTimed q →
      (postedArgs ops).Pairwise (fun a b => a < b) →
      run asserts r ops = .ret (r2, em) →
      (processedAt p em).Pairwise postedBefore ∧
        ∀ e ∈ processedAt p em, OriginPosted q ops e := by
  intro ops
  induction ops with
  | nil =>
    intro r r2 em q _ _ _ _ _ _ _ h
    simp only [run, Outcome.ret.injEq, Prod.mk.injEq] at h
    rw [← h.2]
    exact ⟨List.Pairwise.nil, by simp [processedAt]⟩
  | cons op ops ih =>
    intro r r2 em q hq hops hpre ho hb ht hinc h
    obtain ⟨r1, em1, em2, hs, hrun, rfl⟩ := run_cons_ret asserts r op ops r2 em h
    rw [respects_cons, hs] at hpre
    simp only [Bool.and_eq_true] at hpre
    obtain ⟨q1, hq1, heff⟩ :=
      step_at asserts r op r1 em1 (hops op (List.mem_cons_self _ _)) hs p q hq
    rw [hpre.1] at heff
    have hts : QueueTimeSorted q := ho.imp (fun h => postedBefore_time h)
    obtain ⟨go, gb⟩ := qeffect_posted heff ops ho hb hinc
    have gt := qeffect_timed heff hts ht
    obtain ⟨la, lb, lc⟩ := qeffect_log_posted heff ops ho hb ht
    have hinc2 : (postedArgs ops).Pairwise (fun a b => a < b) := by
      cases op with
      | post s obj argv t => exact (List.pairwise_cons.1 hinc).2
      | construct s => exact hinc
      | cancel s id => exact hinc
      | cancelPending obj => exact hinc
      | advance s t => exact hinc
      | execute d => exact hinc
    obtain ⟨ia, ib⟩ := ih r1 r2 em2 q1 hq1
      (fun o ho2 => hops o (List.mem_cons_of_mem _ ho2)) hpre.2 go gb gt hinc2 hrun
    rw [processedAt_append]
    refine ⟨?_, ?_⟩
    · rw [List.pairwise_append]
      exact ⟨la, ia, fun a ha b hb2 => lc a ha b (ib b hb2)⟩
    · intro e he
      rcases List.mem_append.1 he with he | he
      · exact Or.inl ⟨e, lb e he, rfl, rfl⟩
      · exact qeffect_originPosted heff ops hts e (ib e he)

/-- C1 fails after a wrap of the counter: on the fresh queue of scene 1 the
calls of `wrapDispatch` all meet their time preconditions and return, and the
dispatch pass executes two events of equal fire time 5 whose ids are
`2^32 - 1` and then `0`: not in increasing `sequenceCount`. -/
theorem dispatch_order_wrap :
    (registryAt 1).all[1]? = some (SceneGraphEventQueue.new 1) ∧
    respects false (registryAt 1) wrapDispatch = true ∧
    run false (registryAt 1) wrapDispatch =
      .ret ({ root := SceneGraphEventQueue.new NULL,
              rest := [{ pScene := 1, eventQueue := [], currentSceneTime := 5,
                         eventSequence := 1, executingEvents := false }],
              gAbortEvents := false },
            [Emit.processed 1 { mArgv := 0, startTime := 0, time := 5,
                                sequenceCount := 4294967295, destObject := 5,
                                execute := true },
             Emit.processed 1 { mArgv := 1, startTime := 0, time := 5, sequenceCount := 0,
                                destObject := 5, execute := true }]) ∧
    ¬ (processedAt 1
        [Emit.processed 1 { mArgv := 0, startTime := 0, time := 5,
                            sequenceCount := 4294967295, destObject := 5, execute := true },
         Emit.processed 1 { mArgv := 1, startTime := 0, time := 5, sequenceCount := 0,
                            destObject := 5, execute := true }]).Pairwise firesBefore := by
  obtain ⟨h1, h2⟩ := postCancelRounds_run false 4294967294 1 (by decide)
  have hm : (1 + 4294967294) % U32_SIZE = 4294967295 := by decide
  rw [hm] at h1
  refine ⟨rfl, ?_, ?_, by decide⟩
  · exact respects_append false _ (registryAt 1) _ _ _ h1 h2 (by decide)
  · rw [wrapDispatch, run_append false _ (registryAt 1) _ _ _ h1]
    decide

/-- C1 (amended): for a queue that is registered, fresh, at position `p`, and
any sequence of constructor, postEvent, cancelEvent, advanceToTime and
executeEvents calls that meets the time preconditions and returns, the events
executed from that queue over the whole sequence are in non-decreasing fire
time, and events of equal fire time are executed in the order they were posted
(stated for posts that are numbered by their commands); when the sequence
contains fewer than `2^32 - 1` posts for the queue's scene, so that
`eventSequence` does not wrap, this is the order of increasing
`sequenceCount`. -/
theorem dispatch_order (asserts : Bool) (r0 : Registry) (p : Nat) (s : SimObject)
    (ops : List Op) (r : Registry) (em : List Emit)
    (hq0 : r0.all[p]? = some (SceneGraphEventQueue.new s))
    (hops : ∀ op ∈ ops, op.isCancelPending = false)
    (hpre : respects asserts r0 ops = true)
    (hrun : run asserts r0 ops = .ret (r, em)) :
    (processedAt p em).Pairwise (fun a b => a.time ≤ b.time) ∧
      ((postedArgs ops).Pairwise (fun a b => a < b) →
        (processedAt p em).Pairwise postedBefore) ∧
      (postsFor s ops + 1 < U32_SIZE → (processedAt p em).Pairwise firesBefore) := by
  have htimed : QueueTimed (SceneGraphEventQueue.new s) := by
    refine ⟨?_, ?_, List.Pairwise.nil⟩
    · intro e he; cases he
    · intro e he; cases he
  refine ⟨?_, ?_, ?_⟩
  · exact (run_processed_time asserts p ops r0 r em (SceneGraphEventQueue.new s) hq0 hops hpre
      List.Pairwise.nil htimed hrun).1
  · intro hinc
    refine (run_processed_posted asserts p ops r0 r em (SceneGraphEventQueue.new s) hq0 hops
      hpre List.Pairwise.nil ?_ htimed hinc hrun).1
    intro e he; cases he
  · intro hw
    refine (run_processed_order asserts p ops r0 r em (SceneGraphEventQueue.new s) hq0 hops hpre
      ⟨List.Pairwise.nil, List.nodup_nil⟩ ?_ (le_refl _) htimed ?_ hrun).1
    · intro e he; cases he
    · simp only [SceneGraphEventQueue.new]; omega

/-- Witness for C1 (scenarios A and B): events posted for times 5, 3 and 5
(commands 0, 1, 2), advance to 10, dispatch: the event for time 3 runs first,
then the two events for time 5 in the order they were posted, which is the
order of their ids 1 and 3. -/
theorem dispatch_order_witness :
    run false (registryAt 1) (scenarioAB.drop 1) =
      .ret ({ root := SceneGraphEventQueue.new NULL,
              rest := [{ pScene := 1, eventQueue := [], currentSceneTime := 10,
                         eventSequence := 4, executingEvents := false }],
              gAbortEvents := false }, scenarioABLog) ∧
    (processedAt 1 scenarioABLog).Pairwise postedBefore ∧
    (processedAt 1 scenarioABLog).Pairwise firesBefore := by
  have hrun : run false (registryAt 1) (scenarioAB.drop 1) =
      .ret ({ root := SceneGraphEventQueue.new NULL,
              rest := [{ pScene := 1, eventQueue := [], currentSceneTime := 10,
                         eventSequence := 4, executingEvents := false }],
              gAbortEvents := false }, scenarioABLog) := by decide
  have h := dispatch_order false (registryAt 1) 1 1 (scenarioAB.drop 1) _ scenarioABLog rfl
    (by decide) (by decide) hrun
  exact ⟨hrun, h.2.1 (by decide), h.2.2 (by decide)⟩

/-! ## At most once -/

theorem queuedArgs_append (a b : List SceneGraphEventQueue) :
    queuedArgs (a ++ b) = queuedArgs a ++ queuedArgs b := by
  induction a with
  | nil => rfl
  | cons q qs ih => simp [queuedArgs, ih]

theorem emitArgs_append (a b : List Emit) : emitArgs (a ++ b) = emitArgs a ++ emitArgs b := by
  induction a with
  | nil => rfl
  | cons c tl ih => cases c <;> simp [emitArgs, ih]

theorem postedArgs_append (a b : List Op) :
    postedArgs (a ++ b) = postedArgs a ++ postedArgs b := by
  induction a with
  | nil => rfl
  | cons c tl ih => cases c <;> simp [postedArgs, ih]

theorem count_queuedArgs_setQueue (r : Registry) (s : SimObject) (i : Nat)
    (q q2 : SceneGraphEventQueue) (hf : r.firstOwned s i q) (a : Nat) :
    List.count a (queuedArgs (r.setQueue i q2).all) +
        List.count a (q.eventQueue.map (fun e => e.mArgv)) =
      List.count a (queuedArgs r.all) + List.count a (q2.eventQueue.map (fun e => e.mArgv)) := by
  obtain ⟨l1, l2, hall, hlen, _, _⟩ := hf
  rw [all_setQueue r i q q2 l1 l2 hall hlen, hall]
  simp only [queuedArgs_append, queuedArgs, List.count_append]
  omega

theorem count_insertWalkLt (e : SceneEvent) (l : List SceneEvent) (a : Nat) :
    List.count a ((insertWalkLt e l).map (fun x => x.mArgv)) =
      List.count a (l.map (fun x => x.mArgv)) + List.count a [e.mArgv] := by
  obtain ⟨l1, l2, h1, h2⟩ := insertWalkLt_split e l
  rw [h2, h1]
  simp only [List.map_append, List.map_cons, List.count_append, List.count_cons, List.count_nil]
  omega

theorem advanceLoop_args (asserts : Bool) (t : F32) :
    ∀ (l : List SceneEvent) (clock : F32),
      ((advanceLoop asserts t clock l).2.2).map (fun x => x.mArgv) =
        l.map (fun x => x.mArgv) := by
  intro l
  induction l with
  | nil => intro _; rfl
  | cons c tl ih =>
    intro clock
    by_cases h : c.time ≤ t
    · by_cases hx : c.execute = true
      · simp [advanceLoop, h, hx, ih]
      · by_cases ha : (asserts && !decide (c.time ≥ clock)) = true
        · simp only [advanceLoop, h, hx, ha, if_true, if_false, Bool.false_eq_true]
        · simp only [advanceLoop, h, hx, ha, if_true, if_false, Bool.false_eq_true,
            List.map_cons, ih]
    · simp [advanceLoop, h]

theorem dispatchLoop_args (isDeleted : SimObject → Bool) (abort : Bool) (qi : Nat) :
    ∀ l : List SceneEvent,
      emitArgs (dispatchLoop isDeleted abort qi l).2 ++
          ((dispatchLoop isDeleted abort qi l).1).map (fun x => x.mArgv) =
        l.map (fun x => x.mArgv) := by
  intro l
  induction l with
  | nil => rfl
  | cons c tl ih =>
    by_cases hc : (!abort && c.execute) = true
    · by_cases hd : isDeleted c.destObject = true
      · simp only [dispatchLoop, hc, hd, if_true, emitArgs, List.cons_append, List.map_cons, ih]
      · simp only [dispatchLoop, hc, hd, if_true, if_false, emitArgs, List.cons_append,
          List.map_cons, ih, Bool.false_eq_true]
    · simp [dispatchLoop, hc, emitArgs]

theorem count_executeLoop (isDeleted : SimObject → Bool) (abort : Bool) (a : Nat) :
    ∀ (ws : List SceneGraphEventQueue) (start : Nat),
      List.count a (queuedArgs (executeLoop isDeleted abort start ws).1) +
          List.count a (emitArgs (executeLoop isDeleted abort start ws).2) =
        List.count a (queuedArgs ws) := by
  intro ws
  induction ws with
  | nil => intro _; rfl
  | cons w ws ih =>
    intro start
    have h1 := ih (start + 1)
    have h2 := congrArg (List.count a) (dispatchLoop_args isDeleted abort start w.eventQueue)
    simp only [List.count_append] at h2
    simp only [executeLoop, queuedArgs, emitArgs_append, List.count_append]
    omega

theorem count_cancelPendingLoop (obj : SimObject) (a : Nat) :
    ∀ (ws : List SceneGraphEventQueue) (cur : SimObject) (abort : Bool),
      List.count a (queuedArgs (cancelPendingLoop obj cur ws abort).1) ≤
        List.count a (queuedArgs ws) := by
  intro ws
  induction ws with
  | nil => intro _ _; simp [cancelPendingLoop]
  | cons w ws ih =>
    intro cur abort
    by_cases hc : cur = obj
    · simp [cancelPendingLoop, hc]
    · by_cases hw : w.pScene = obj
      · simp only [cancelPendingLoop, hc, hw, ne_eq, not_false_eq_true, if_true, queuedArgs,
          List.count_append]
        have := ih obj (abort || w.executingEvents)
        omega
      · simp only [cancelPendingLoop, hc, hw, ne_eq, not_false_eq_true, if_true, if_false,
          queuedArgs, List.count_append]
        have h1 := ih w.pScene abort
        have h2 := ((cancelObjectWalk_sublist obj w.eventQueue).map
          (fun x => x.mArgv)).count_le a
        omega

/-- One call never creates an event: counted by command, what is queued after
the call and what the call executed or dropped was queued before the call or
was handed to it. -/
theorem step_count (asserts : Bool) (r : Registry) (op : Op) (r2 : Registry) (em : List Emit)
    (h : step asserts r op = .ret (r2, em)) (a : Nat) :
    List.count a (queuedArgs r2.all) + List.count a (emitArgs em) ≤
      List.count a (queuedArgs r.all) + List.count a (postedArgs [op]) := by
  cases op with
  | construct s =>
    simp only [step, Outcome.ret.injEq, Prod.mk.injEq] at h
    obtain ⟨rfl, rfl⟩ := h
    have : (constructQueue r s).all = r.all ++ [SceneGraphEventQueue.new s] := by
      simp [constructQueue, Registry.all]
    rw [this, queuedArgs_append]
    simp [queuedArgs, emitArgs, postedArgs, SceneGraphEventQueue.new]
  | post s obj argv t =>
    by_cases hobj : obj = NULL
    · subst hobj
      rw [step, postEvent_null] at h
      cases asserts with
      | true => simp at h
      | false =>
        simp only [Bool.false_eq_true, if_false, Outcome.ret.injEq, Prod.mk.injEq] at h
        obtain ⟨rfl, rfl⟩ := h
        simp [emitArgs]
    · rcases lookup_cases r s with ⟨i, qi, hf, _⟩ | ⟨hno, _⟩
      · have hps : qi.pScene = s := by
          obtain ⟨_, _, _, _, _, hh⟩ := hf; exact hh
        subst hps
        rw [step, postEvent_found asserts r obj _ t i qi hf hobj] at h
        by_cases ha : (asserts && !(t == -1 || decide (t ≥ qi.currentSceneTime))) = true
        · rw [if_pos ha] at h; cases h
        · rw [if_neg ha] at h
          simp only [SceneEvent.new, Outcome.ret.injEq, Prod.mk.injEq] at h
          obtain ⟨rfl, rfl⟩ := h
          have h1 := count_queuedArgs_setQueue r qi.pScene i qi
            { qi with
              eventSequence := (qi.eventSequence + 1) % U32_SIZE,
              eventQueue := insertWalkLt
                { mArgv := argv, startTime := qi.currentSceneTime,
                  time := if t = -1 then qi.currentSceneTime else t,
                  sequenceCount := qi.eventSequence, destObject := obj, execute := false }
                qi.eventQueue } hf a
          have h2 := count_insertWalkLt
            { mArgv := argv, startTime := qi.currentSceneTime,
              time := if t = -1 then qi.currentSceneTime else t,
              sequenceCount := qi.eventSequence, destObject := obj, execute := false }
            qi.eventQueue a
          simp only at h1 h2
          simp only [emitArgs, postedArgs, List.count_nil]
          omega
      · rw [step, postEvent_not_owner asserts r s obj _ t hno hobj] at h
        simp only [Outcome.ret.injEq, Prod.mk.injEq] at h
        obtain ⟨rfl, rfl⟩ := h
        simp [emitArgs]
  | cancel s id =>
    simp only [step, Outcome.ret.injEq, Prod.mk.injEq] at h
    obtain ⟨rfl, rfl⟩ := h
    rcases lookup_cases r s with ⟨i, qi, hf, hl⟩ | ⟨hno, hl⟩
    · have hps : qi.pScene = s := by
        obtain ⟨_, _, _, _, _, hh⟩ := hf; exact hh
      have hc : cancelEvent r s id =
          r.setQueue i { qi with eventQueue := cancelWalk id qi.eventQueue } := by
        simp only [cancelEvent, hl]
        simp [hps]
      rw [hc]
      have h1 := count_queuedArgs_setQueue r s i qi
        { qi with eventQueue := cancelWalk id qi.eventQueue } hf a
      have h2 := ((cancelWalk_sublist id qi.eventQueue).map (fun x => x.mArgv)).count_le a
      simp only at h1
      simp only [emitArgs, postedArgs, List.count_nil]
      omega
    · have hc : cancelEvent r s id = r := by
        simp only [cancelEvent, hl, ne_eq, not_false_eq_true, if_true]
      rw [hc]
      simp [emitArgs]
  | cancelPending obj =>
    simp only [step, cancelPendingEvents, Outcome.ret.injEq, Prod.mk.injEq] at h
    obtain ⟨rfl, rfl⟩ := h
    have := count_cancelPendingLoop obj a r.rest r.root.pScene r.gAbortEvents
    simp only [Registry.all, queuedArgs, List.count_append, emitArgs, postedArgs,
      List.count_nil]
    omega
  | advance s t =>
    rcases lookup_cases r s with ⟨i, qi, hf, _⟩ | ⟨_, hl⟩
    · have hps : qi.pScene = s := by
        obtain ⟨_, _, _, _, _, hh⟩ := hf; exact hh
      subst hps
      rw [step, advanceToTime_found asserts r t i qi hf] at h
      by_cases ha : (asserts && !decide (t ≥ qi.currentSceneTime)) = true
      · rw [if_pos ha] at h; cases h
      · rw [if_neg ha] at h
        by_cases hok : (advanceLoop asserts t qi.currentSceneTime qi.eventQueue).1 = true
        · rw [if_pos hok] at h
          simp only [Outcome.ret.injEq, Prod.mk.injEq] at h
          obtain ⟨rfl, rfl⟩ := h
          have h1 := count_queuedArgs_setQueue r qi.pScene i qi
            { qi with
              currentSceneTime := t,
              eventQueue := (advanceLoop asserts t qi.currentSceneTime qi.eventQueue).2.2 }
            hf a
          simp only [advanceLoop_args] at h1
          simp only [emitArgs, postedArgs, List.count_nil]
          omega
        · rw [if_neg hok] at h; cases h
    · simp only [step, advanceToTime, hl, ne_eq, not_false_eq_true, if_true,
        Outcome.ret.injEq, Prod.mk.injEq] at h
      obtain ⟨rfl, rfl⟩ := h
      simp [emitArgs]
  | execute d =>
    simp only [step, executeEvents, Outcome.ret.injEq, Prod.mk.injEq] at h
    obtain ⟨rfl, rfl⟩ := h
    have := count_executeLoop d r.gAbortEvents a r.rest 1
    simp only [Registry.all, queuedArgs, List.count_append, postedArgs, List.count_nil]
    omega

/-- A sequence of calls never creates an event. -/
theorem run_count (asserts : Bool) (a : Nat) :
    ∀ (ops : List Op) (r r2 : Registry) (em : List Emit),
      run asserts r ops = .ret (r2, em) →
      List.count a (queuedArgs r2.all) + List.count a (emitArgs em) ≤
        List.count a (queuedArgs r.all) + List.count a (postedArgs ops) := by
  intro ops
  induction ops with
  | nil =>
    intro r r2 em h
    simp only [run, Outcome.ret.injEq, Prod.mk.injEq] at h
    obtain ⟨rfl, rfl⟩ := h
    simp [emitArgs]
  | cons op ops ih =>
    intro r r2 em h
    obtain ⟨r1, em1, em2, hs, hrun, rfl⟩ := run_cons_ret asserts r op ops r2 em h
    have h1 := step_count asserts r op r1 em1 hs a
    have h2 := ih r1 r2 em2 hrun
    have h3 : postedArgs (op :: ops) = postedArgs [op] ++ postedArgs ops := by
      rw [← postedArgs_append]; rfl
    rw [h3, emitArgs_append]
    simp only [List.count_append]
    omega

/-- C9: take any sequence of calls from the initial registry, split as the
calls `before`, one call `op` and the calls `after`, all returning, in which
the posted event objects are pairwise distinct (told apart by their command).
Then (1) over the whole sequence no event is executed or dropped twice;
(2) no event that a dispatch pass executed or dropped is in any queue at the
end; (3) an event that was queued before `op` and is not queued after it,
such as the event cancelEvent unlinks or the events cancelPendingEvents
removes, is not executed or dropped by any call of `after`. -/
theorem at_most_once (asserts : Bool) (before : List Op) (op : Op) (after : List Op)
    (ra rb rc : Registry) (ea eb ec : List Emit)
    (hfresh : (postedArgs (before ++ op :: after)).Nodup)
    (h0 : run asserts Registry.init before = .ret (ra, ea))
    (h1 : step asserts ra op = .ret (rb, eb))
    (h2 : run asserts rb after = .ret (rc, ec)) :
    (emitArgs (ea ++ eb ++ ec)).Nodup ∧
    (∀ a ∈ emitArgs (ea ++ eb ++ ec), a ∉ queuedArgs rc.all) ∧
    (∀ a ∈ queuedArgs ra.all, a ∉ queuedArgs rb.all → a ∉ emitArgs ec) := by
  have hcount : ∀ a : Nat,
      List.count a (queuedArgs rc.all) + List.count a (emitArgs ec) ≤
        List.count a (queuedArgs rb.all) + List.count a (postedArgs after) ∧
      List.count a (queuedArgs rb.all) + List.count a (emitArgs eb) ≤
        List.count a (queuedArgs ra.all) + List.count a (postedArgs [op]) ∧
      List.count a (queuedArgs ra.all) + List.count a (emitArgs ea) ≤
        List.count a (postedArgs before) ∧
      List.count a (postedArgs before) + List.count a (postedArgs [op]) +
        List.count a (postedArgs after) ≤ 1 := by
    intro a
    have c0 := run_count asserts a before Registry.init ra ea h0
    have c1 := step_count asserts ra op rb eb h1 a
    have c2 := run_count asserts a after rb rc ec h2
    have c3 := List.nodup_iff_count_le_one.1 hfresh a
    have h3 : postedArgs (before ++ op :: after) =
        postedArgs before ++ (postedArgs [op] ++ postedArgs after) := by
      rw [postedArgs_append, ← postedArgs_append [op] after]; rfl
    rw [h3] at c3
    simp only [List.count_append] at c3
    have c4 : List.count a (queuedArgs Registry.init.all) = 0 := by
      simp [Registry.init, Registry.all, queuedArgs, SceneGraphEventQueue.new]
    refine ⟨c2, c1, ?_, ?_⟩ <;> omega
  refine ⟨?_, ?_, ?_⟩
  · rw [List.nodup_iff_count_le_one]
    intro a
    obtain ⟨c2, c1, c0, c3⟩ := hcount a
    simp only [emitArgs_append, List.count_append]
    omega
  · intro a ha
    obtain ⟨c2, c1, c0, c3⟩ := hcount a
    have hpos := List.count_pos_iff.2 ha
    simp only [emitArgs_append, List.count_append] at hpos
    apply List.count_eq_zero.1
    omega
  · intro a ha hnot
    obtain ⟨c2, c1, c0, c3⟩ := hcount a
    have hpos := List.count_pos_iff.2 ha
    have hz := List.count_eq_zero.2 hnot
    apply List.count_eq_zero.1
    omega

/-- Witness for C9 (scenario C): the event posted for time 5 (command 0) is
cancelled, then the clock is advanced to 10 and a dispatch pass runs: the
event is not executed, nothing is, and the id is not pending after the cancel
nor at the end. -/
theorem at_most_once_witness :
    0 ∉ emitArgs ([] : List Emit) ∧
    run false (registryAt 2) scenarioCEnd = .ret (registryScenarioCEnd, []) ∧
    isEventPending (registryAt 2) 1 1 = false ∧
    isEventPending registryScenarioCEnd 1 1 = false :=
  ⟨(at_most_once false scenarioCStart (Op.cancel 1 1) scenarioCEnd registryScenarioC
      (registryAt 2) registryScenarioCEnd [] [] [] (by decide) (by decide) (by decide)
      (by decide)).2.2 0 (by decide) (by decide),
    by decide, by decide, by decide⟩

/-! ## cancelPendingEvents and the registry -/

theorem cancelPendingLoop_at_owner (obj : SimObject) (ws : List SceneGraphEventQueue)
    (abort : Bool) : cancelPendingLoop obj obj ws abort = (ws, abort) := by
  cases ws <;> simp [cancelPendingLoop]

theorem cancelPendingLoop_owner (obj : SimObject) (q : SceneGraphEventQueue)
    (l2 : List SceneGraphEventQueue) (hq : q.pScene = obj) :
    ∀ (l1 : List SceneGraphEventQueue) (curScene : SimObject) (abort : Bool),
      curScene ≠ obj → (∀ x ∈ l1, x.pScene ≠ obj) →
      cancelPendingLoop obj curScene (l1 ++ q :: l2) abort =
        (l1.map (fun w => { w with eventQueue := cancelObjectWalk obj w.eventQueue }) ++ l2,
          abort || q.executingEvents) := by
  intro l1
  induction l1 with
  | nil =>
    intro curScene abort hcur _
    simp only [List.nil_append, cancelPendingLoop, ne_eq, hcur, not_false_eq_true, if_true, hq,
      List.map_nil]
    exact cancelPendingLoop_at_owner obj l2 _
  | cons w l1 ih =>
    intro curScene abort hcur hno
    have hw : w.pScene ≠ obj := hno w (List.mem_cons_self _ _)
    have := ih w.pScene abort hw (fun x hx => hno x (List.mem_cons_of_mem _ hx))
    rw [List.cons_append]
    generalize l1 ++ q :: l2 = ws at this ⊢
    simp only [cancelPendingLoop, ne_eq, hcur, not_false_eq_true, if_true, hw,
      if_false, this, List.map_cons, List.cons_append]

theorem forall₂_sameQueue_map (obj : SimObject) :
    ∀ l : List SceneGraphEventQueue,
      List.Forall₂ sameQueue l
        (l.map (fun w => { w with eventQueue := cancelObjectWalk obj w.eventQueue })) := by
  intro l
  induction l with
  | nil => exact List.Forall₂.nil
  | cons w l ih => exact List.Forall₂.cons ⟨rfl, rfl, rfl, rfl⟩ ih

theorem forall₂_sameQueue_refl :
    ∀ l : List SceneGraphEventQueue, List.Forall₂ sameQueue l l := by
  intro l
  induction l with
  | nil => exact List.Forall₂.nil
  | cons w l ih => exact List.Forall₂.cons ⟨rfl, rfl, rfl, rfl⟩ ih

theorem lookup_miss (r : Registry) (s : SimObject) (h : ∀ x ∈ r.all, x.pScene ≠ s) :
    (lookupFromRoot r s).2.pScene ≠ s ∧ (lookupFromNext r s).2.pScene ≠ s := by
  rw [lookupFromRoot_eq_lookupFromNext]
  rcases lookup_cases r s with ⟨i, q, ⟨l1, l2, hall, _, _, hq⟩, _⟩ | ⟨_, hl⟩
  · exact absurd hq (h q (by rw [hall]; simp))
  · exact ⟨hl, hl⟩

/-- C11: cancelPendingEvents(obj) and the registry. When a queue behind the
sentinel is owned by `obj` (the first such queue is `q`, with the queues `l1`
in front of it and `l2` behind it), the call deletes `q` with its events and
unlinks exactly it: the chain afterwards consists of the queues of `l1`, each
without its events for `obj`, followed by the queues of `l2`, in the original
order and with the sentinel unchanged; `gAbortEvents` afterwards is the old
value or `executingEvents` of `q`; and when `obj` owned no other queue a later
lookup for `obj` misses. When no queue behind the sentinel is owned by `obj`
the sentinel, the queues with their owners, clocks, counters and flags, their
order and `gAbortEvents` are unchanged. -/
theorem cancelPendingEvents_registry (r : Registry) (obj : SimObject) :
    (∀ l1 q l2, r.root.pScene ≠ obj → r.rest = l1 ++ q :: l2 → (∀ x ∈ l1, x.pScene ≠ obj) →
      q.pScene = obj →
      cancelPendingEvents r obj =
        { root := r.root,
          rest := l1.map (fun w => { w with eventQueue := cancelObjectWalk obj w.eventQueue })
            ++ l2,
          gAbortEvents := r.gAbortEvents || q.executingEvents } ∧
      List.Forall₂ sameQueue (l1 ++ l2) (cancelPendingEvents r obj).rest ∧
      ((cancelPendingEvents r obj).gAbortEvents = true ↔
        (r.gAbortEvents = true ∨ q.executingEvents = true)) ∧
      ((∀ x ∈ l2, x.pScene ≠ obj) →
        (lookupFromRoot (cancelPendingEvents r obj) obj).2.pScene ≠ obj ∧
        (lookupFromNext (cancelPendingEvents r obj) obj).2.pScene ≠ obj)) ∧
    ((∀ x ∈ r.rest, x.pScene ≠ obj) →
      (cancelPendingEvents r obj).root = r.root ∧
      List.Forall₂ sameQueue r.rest (cancelPendingEvents r obj).rest ∧
      (cancelPendingEvents r obj).gAbortEvents = r.gAbortEvents) := by
  refine ⟨?_, ?_⟩
  · intro l1 q l2 hroot hrest hl1 hq
    have heq : cancelPendingEvents r obj =
        { root := r.root,
          rest := l1.map (fun w => { w with eventQueue := cancelObjectWalk obj w.eventQueue })
            ++ l2,
          gAbortEvents := r.gAbortEvents || q.executingEvents } := by
      simp only [cancelPendingEvents, hrest,
        cancelPendingLoop_owner obj q l2 hq l1 r.root.pScene r.gAbortEvents hroot hl1]
    refine ⟨heq, ?_, ?_, ?_⟩
    · rw [heq]
      exact List.rel_append (forall₂_sameQueue_map obj l1) (forall₂_sameQueue_refl l2)
    · rw [heq]; simp
    · intro hl2
      apply lookup_miss
      intro x hx
      rw [heq] at hx
      simp only [Registry.all, List.mem_cons, List.mem_append, List.mem_map] at hx
      rcases hx with rfl | ⟨w, hw, rfl⟩ | hx
      · exact hroot
      · exact hl1 w hw
      · exact hl2 x hx
  · intro hno
    by_cases hroot : r.root.pScene = obj
    · have : cancelPendingEvents r obj = r := by
        simp only [cancelPendingEvents, hroot, cancelPendingLoop_at_owner]
      rw [this]
      exact ⟨rfl, forall₂_sameQueue_refl _, rfl⟩
    · have : cancelPendingEvents r obj =
          { r with
            rest := r.rest.map
                      (fun w => { w with eventQueue := cancelObjectWalk obj w.eventQueue }) } := by
        simp only [cancelPendingEvents,
          cancelPendingLoop_no_owner obj r.rest r.root.pScene r.gAbortEvents hroot hno]
      rw [this]
      exact ⟨rfl, forall₂_sameQueue_map obj _, rfl⟩

/-- Witness for C11: in scenario D with the queue of object 1 registered
behind the queue of scene 2 and being dispatched, cancelPendingEvents(1)
leaves the sentinel and the queue of scene 2, raises `gAbortEvents`, and a
lookup for object 1 misses afterwards. -/
theorem cancelPendingEvents_registry_witness :
    cancelPendingEvents registryScenarioDBusy 1 =
      { root := SceneGraphEventQueue.new NULL,
        rest := [{ pScene := 2, eventQueue := [], currentSceneTime := 0, eventSequence := 1,
                   executingEvents := false }],
        gAbortEvents := true } ∧
    (lookupFromRoot (cancelPendingEvents registryScenarioDBusy 1) 1).2.pScene ≠ 1 := by
  have h := (cancelPendingEvents_registry registryScenarioDBusy 1).1
    [{ pScene := 2, eventQueue := [], currentSceneTime := 0, eventSequence := 1,
       executingEvents := false }]
    { pScene := 1,
      eventQueue := [{ mArgv := 0, startTime := 0, time := 5, sequenceCount := 1,
                       destObject := 7, execute := false }],
      currentSceneTime := 0, eventSequence := 2, executingEvents := true }
    [] (by decide) rfl (by decide) rfl
  exact ⟨h.1, (h.2.2.2 (by decide)).1⟩

/-! ## advanceToTime -/

theorem advanceLoop_ok (asserts : Bool) (t : F32) :
    ∀ (l : List SceneEvent) (clock : F32), l.Pairwise (fun a b => a.time ≤ b.time) →
      (∀ e ∈ l, e.execute = false → clock ≤ e.time) →
      (advanceLoop asserts t clock l).1 = true := by
  intro l
  induction l with
  | nil => intro _ _ _; rfl
  | cons c tl ih =>
    intro clock hp hc
    have hp2 := List.pairwise_cons.1 hp
    by_cases h : c.time ≤ t
    · by_cases hx : c.execute = true
      · simp only [advanceLoop, h, hx, if_true]
        exact ih clock hp2.2 (fun e he => hc e (List.mem_cons_of_mem _ he))
      · have hx2 : c.execute = false := by simpa using hx
        have hge : c.time ≥ clock := hc c (List.mem_cons_self _ _) hx2
        have ha : (asserts && !decide (c.time ≥ clock)) = false := by simp [hge]
        simp only [advanceLoop, h, hx, ha, if_true, if_false, Bool.false_eq_true]
        exact ih c.time hp2.2 (fun e he _ => hp2.1 e he)
    · simp [advanceLoop, h]

/-- On a queue whose chain is ordered by fire time and whose events that are
not due have fire times from the clock on, advanceToTime to a time from the
clock on returns and leaves the queue C12 describes. -/
theorem advanceToTime_sorted (asserts : Bool) (r : Registry) (s : SimObject) (i : Nat)
    (q : SceneGraphEventQueue) (hf : r.firstOwned s i q) (T : F32)
    (hT : T ≥ q.currentSceneTime) (hs : QueueTimeSorted q)
    (hc : ∀ e ∈ q.eventQueue, e.execute = false → q.currentSceneTime ≤ e.time) :
    advanceToTime asserts r s T = .ret (r.setQueue i (advancedTo T q)) := by
  have hps : q.pScene = s := by
    obtain ⟨_, _, _, _, _, hh⟩ := hf; exact hh
  subst hps
  have hok := advanceLoop_ok asserts T q.eventQueue q.currentSceneTime hs hc
  have ha : (asserts && !decide (T ≥ q.currentSceneTime)) = false := by simp [hT]
  rw [advanceToTime_found asserts r T i q hf, ha, hok,
    advanceLoop_sorted asserts T q.eventQueue q.currentSceneTime hs hok]
  rfl

theorem markDue_idem (T : F32) (e : SceneEvent) : markDue T (markDue T e) = markDue T e := by
  by_cases h : e.time ≤ T
  · simp [markDue, h]
  · simp [markDue, h]

theorem advancedTo_idem (T : F32) (q : SceneGraphEventQueue) :
    advancedTo T (advancedTo T q) = advancedTo T q := by
  simp [advancedTo, markDue_idem]

theorem advancedTo_sorted (T : F32) (q : SceneGraphEventQueue) (hs : QueueTimeSorted q) :
    QueueTimeSorted (advancedTo T q) := by
  unfold QueueTimeSorted advancedTo
  simp only
  rw [List.pairwise_map]
  simpa [markDue_time] using hs

theorem advancedTo_pending (T : F32) (q : SceneGraphEventQueue) :
    ∀ e ∈ (advancedTo T q).eventQueue, e.execute = false →
      (advancedTo T q).currentSceneTime ≤ e.time := by
  intro e he hx
  simp only [advancedTo, List.mem_map] at he
  obtain ⟨x, _, rfl⟩ := he
  rw [markDue_execute] at hx
  simp only [Bool.or_eq_false_iff, decide_eq_false_iff_not, not_le] at hx
  rw [markDue_time]
  exact le_of_lt hx.1

/-- A returning sequence of calls that meets the time preconditions keeps, in
every queue, the due events at or before the clock, the other events at or
after the clock, and the due events in front of the others. -/
theorem run_timed (asserts : Bool) :
    ∀ (ops : List Op) (r r2 : Registry) (em : List Emit),
      (∀ q ∈ r.all, QueueTimeSorted q ∧ QueueTimed q) → run asserts r ops = .ret (r2, em) →
      respects asserts r ops = true → ∀ q ∈ r2.all, QueueTimeSorted q ∧ QueueTimed q := by
  intro ops
  induction ops with
  | nil =>
    intro r r2 em hr h _
    simp only [run, Outcome.ret.injEq, Prod.mk.injEq] at h
    rw [← h.1]; exact hr
  | cons op ops ih =>
    intro r r2 em hr h hpre
    obtain ⟨r1, em1, em2, hs, hrun, _⟩ := run_cons_ret asserts r op ops r2 em h
    rw [respects_cons, hs] at hpre
    simp only [Bool.and_eq_true] at hpre
    refine ih r1 r2 em2 ?_ hrun hpre.2
    intro q2 hq2
    rcases step_mem asserts r op r1 em1 hs q2 hq2 with ⟨q, hq, p, log, he⟩ | ⟨s, _, rfl⟩
    · rw [hpre.1] at he
      exact ⟨qeffect_timeSorted he (hr q hq).1, qeffect_timed he (hr q hq).1 (hr q hq).2⟩
    · refine ⟨List.Pairwise.nil, ?_, ?_, List.Pairwise.nil⟩ <;>
        intro e he <;> cases he

theorem init_timed : ∀ q ∈ Registry.init.all, QueueTimeSorted q ∧ QueueTimed q := by
  intro q hq
  simp only [Registry.init, Registry.all, List.mem_singleton] at hq
  subst hq
  refine ⟨List.Pairwise.nil, ?_, ?_, List.Pairwise.nil⟩ <;> intro e he <;> cases he

theorem firstOwned_mem (r : Registry) (s : SimObject) (i : Nat) (q : SceneGraphEventQueue)
    (hf : r.firstOwned s i q) : q ∈ r.all := by
  obtain ⟨l1, l2, hall, _, _, _⟩ := hf
  rw [hall]; simp

/-- C14: take any registry reached from the initial one by a sequence of
calls that meet the time preconditions, a scene with a registered queue and a
time `T` from its clock on. Then advanceToTime(scene, T) returns a registry,
and the same call made again on that registry returns it unchanged: the
second call is a no-op. -/
theorem advanceToTime_idempotent (asserts : Bool) (ops : List Op) (r : Registry)
    (em : List Emit) (hrun : run asserts Registry.init ops = .ret (r, em))
    (hpre : respects asserts Registry.init ops = true) (s : SimObject) (i : Nat)
    (q : SceneGraphEventQueue) (hf : r.firstOwned s i q) (T : F32)
    (hT : T ≥ q.currentSceneTime) :
    ∃ r1, advanceToTime asserts r s T = .ret r1 ∧ advanceToTime asserts r1 s T = .ret r1 := by
  have hinv := run_timed asserts ops Registry.init r em init_timed hrun hpre q
    (firstOwned_mem r s i q hf)
  have hps : q.pScene = s := by
    obtain ⟨_, _, _, _, _, hh⟩ := hf; exact hh
  have hf1 : (r.setQueue i (advancedTo T q)).firstOwned s i (advancedTo T q) :=
    firstOwned_setQueue r s i q _ hf hps
  refine ⟨r.setQueue i (advancedTo T q),
    advanceToTime_sorted asserts r s i q hf T hT hinv.1 hinv.2.2.1, ?_⟩
  rw [advanceToTime_sorted asserts _ s i (advancedTo T q) hf1 T (le_refl T)
    (advancedTo_sorted T q hinv.1) (advancedTo_pending T q), advancedTo_idem,
    setQueue_self _ s i _ hf1]

/-- Witness for C14: on the registry with the three posts of scenario A/B a
second advanceToTime(1, 4) changes nothing. -/
theorem advanceToTime_idempotent_witness :
    ∃ r1, advanceToTime true registryThreePosts 1 4 = .ret r1 ∧
      advanceToTime true r1 1 4 = .ret r1 :=
  advanceToTime_idempotent true (scenarioAB.take 4) registryThreePosts [] (by decide)
    (by decide) 1 1 queueThreePosts ⟨[SceneGraphEventQueue.new NULL], [], rfl, rfl, by decide, rfl⟩
    4 (by decide)

/-! ## Where the walk of advanceToTime stops -/

theorem advanceLoop_front (asserts : Bool) (t : F32) :
    ∀ (l : List SceneEvent) (clock : F32), (advanceLoop asserts t clock l).1 = true →
      (advanceLoop asserts t clock l).2.2 =
        (l.takeWhile (fun e => decide (e.time ≤ t))).map (fun e => { e with execute := true })
          ++ l.dropWhile (fun e => decide (e.time ≤ t)) := by
  intro l
  induction l with
  | nil => intro _ _; rfl
  | cons c tl ih =>
    intro clock hok
    by_cases h : c.time ≤ t
    · by_cases hx : c.execute = true
      · simp only [advanceLoop, h, hx, if_true] at hok ⊢
        rw [ih clock hok]
        have : ({ c with execute := true } : SceneEvent) = c := by
          cases c; simp_all
        simp [List.takeWhile, List.dropWhile, h, this]
      · by_cases ha : (asserts && !decide (c.time ≥ clock)) = true
        · simp [advanceLoop, h, hx, ha] at hok
        · simp only [advanceLoop, h, hx, ha, if_true, if_false, Bool.false_eq_true] at hok ⊢
          rw [ih c.time hok]
          simp [List.takeWhile, List.dropWhile, h]
    · simp [advanceLoop, List.takeWhile, List.dropWhile, h]

theorem walk_sorted (t : F32) :
    ∀ l : List SceneEvent, l.Pairwise (fun a b => a.time ≤ b.time) →
      (l.takeWhile (fun e => decide (e.time ≤ t))).map (fun e => { e with execute := true })
          ++ l.dropWhile (fun e => decide (e.time ≤ t)) = l.map (markDue t) := by
  intro l
  induction l with
  | nil => intro _; rfl
  | cons c tl ih =>
    intro hp
    have hp2 := List.pairwise_cons.1 hp
    by_cases h : c.time ≤ t
    · simp [List.takeWhile, List.dropWhile, h, markDue, ih hp2.2]
    · have h2 : t < c.time := not_le.1 h
      rw [map_markDue_of_gt t (c :: tl)]
      · simp [List.takeWhile, List.dropWhile, h]
      · intro x hx
        rcases List.mem_cons.1 hx with rfl | hx
        · exact h2
        · exact lt_of_lt_of_le h2 (hp2.1 x hx)

/-- C20 fails: the calls of `dueThenPending` meet their time preconditions and
leave an event for time 2 behind an event that is already due; the walk of
advanceToTime(1, 3) passes the due event and marks the event behind it, which
therefore does not keep its flag. -/
theorem advanceToTime_walk_passes_due :
    respects true Registry.init dueThenPending = true ∧
    run true Registry.init dueThenPending = .ret (registryDueThenPending, []) ∧
    advanceToTime true registryDueThenPending 1 3 = .ret registryBothDue ∧
    advanceToTime false registryDueThenPending 1 3 = .ret registryBothDue ∧
    ¬ flagsKeptBehindDue queueDueThenPending.eventQueue queueBothDue.eventQueue := by
  refine ⟨by decide, by decide, by decide, by decide, ?_⟩
  intro h
  obtain ⟨e2, h1, h2⟩ := h []
    { mArgv := 0, startTime := 0, time := 1, sequenceCount := 1, destObject := 5,
      execute := true }
    [{ mArgv := 1, startTime := 1, time := 2, sequenceCount := 2, destObject := 5,
       execute := false }] rfl rfl 0 _ rfl
  simp only [queueBothDue, List.length_nil, Nat.zero_add, Nat.add_zero, List.getElem?_cons_succ,
    List.getElem?_cons_zero, Option.some.injEq] at h1
  subst h1
  cases h2

/-- C20 (amended): on a registry in which `scene` has a registered queue `q`,
the walk of advanceToTime(scene, T) runs from the front of the chain to the
first event whose fire time is greater than `T` and stops there; an event
whose `execute` flag is already set is passed over unchanged and the walk
goes on behind it. So after the call every event in front of the first event
with fire time greater than `T` is due, also behind an already-due event, and
the chain from that event on is as before (`walkedTo T q`). This is the
result whenever the call returns: always with `AssertFatal` compiled out, and
with asserts enabled unless an assertion stops the call. On a chain ordered
by fire time the events in front of the stop are exactly those with fire time
at most `T`. -/
theorem advanceToTime_walk (r : Registry) (s : SimObject) (i : Nat)
    (q : SceneGraphEventQueue) (hf : r.firstOwned s i q) (T : F32) :
    advanceToTime false r s T = .ret (r.setQueue i (walkedTo T q)) ∧
    (∀ r2, advanceToTime true r s T = .ret r2 → r2 = r.setQueue i (walkedTo T q)) ∧
    (QueueTimeSorted q → walkedTo T q = advancedTo T q) := by
  have hps : q.pScene = s := by
    obtain ⟨_, _, _, _, _, hh⟩ := hf; exact hh
  subst hps
  refine ⟨?_, ?_, ?_⟩
  · rw [advanceToTime_found false r T i q hf]
    simp only [Bool.false_and, Bool.false_eq_true, if_false, advanceLoop_false_ok, if_true]
    rw [advanceLoop_front false T q.eventQueue q.currentSceneTime (advanceLoop_false_ok T _ _)]
    rfl
  · intro r2 h
    rw [advanceToTime_found true r T i q hf] at h
    by_cases ha : (true && !decide (T ≥ q.currentSceneTime)) = true
    · rw [if_pos ha] at h; cases h
    · rw [if_neg ha] at h
      by_cases hok : (advanceLoop true T q.currentSceneTime q.eventQueue).1 = true
      · rw [if_pos hok, advanceLoop_front true T q.eventQueue q.currentSceneTime hok] at h
        simp only [Outcome.ret.injEq] at h
        rw [← h]; rfl
      · rw [if_neg hok] at h; cases h
  · intro hs
    simp only [walkedTo, advancedTo, walk_sorted T q.eventQueue hs]

/-- Witness for C20 (amended): on `registryDueThenPending` the walk of
advanceToTime(1, 3) passes the event that is already due and marks the event
for time 2 behind it. -/
theorem advanceToTime_walk_witness :
    advanceToTime false registryDueThenPending 1 3 = .ret registryBothDue :=
  (advanceToTime_walk registryDueThenPending 1 1 queueDueThenPending
    ⟨[SceneGraphEventQueue.new NULL], [], rfl, rfl, by decide, rfl⟩ 3).1

/-! ## One queue per owner -/

theorem owners_cancelPendingLoop (obj : SimObject) :
    ∀ (ws : List SceneGraphEventQueue) (cur : SimObject) (abort : Bool),
      ((cancelPendingLoop obj cur ws abort).1.map (fun q => q.pScene)).Sublist
        (ws.map (fun q => q.pScene)) := by
  intro ws
  induction ws with
  | nil => intro _ _; simp [cancelPendingLoop]
  | cons w ws ih =>
    intro cur abort
    by_cases hc : cur = obj
    · simp [cancelPendingLoop, hc]
    · by_cases hw : w.pScene = obj
      · simp only [cancelPendingLoop, hc, hw, ne_eq, not_false_eq_true, if_true, List.map_cons]
        have := ih obj (abort || w.executingEvents)
        exact List.Sublist.cons _ this
      · simp only [cancelPendingLoop, hc, hw, ne_eq, not_false_eq_true, if_true, if_false,
          List.map_cons]
        exact List.Sublist.cons₂ _ (ih w.pScene abort)

/-- A call other than the constructor and cancelPendingEvents leaves the
owners of the chain as they are. -/
theorem step_owners (asserts : Bool) (r : Registry) (op : Op) (r2 : Registry) (em : List Emit)
    (hop : op.isCancelPending = false) (hc : ∀ s, op ≠ .construct s)
    (h : step asserts r op = .ret (r2, em)) : r2.owners = r.owners := by
  have hlen : r2.all.length = r.all.length := by
    rcases step_length asserts r op r2 em hop h with h1 | ⟨s, h1, _⟩
    · exact h1
    · exact absurd h1 (hc s)
  apply List.ext_getElem?
  intro p
  simp only [Registry.owners, List.getElem?_map]
  cases hq : r.all[p]? with
  | none =>
    have : r.all.length ≤ p := by
      by_contra hlt
      rw [List.getElem?_eq_getElem (by omega)] at hq
      cases hq
    rw [List.getElem?_eq_none (by omega)]
  | some q =>
    obtain ⟨q2, hq2, he⟩ := step_at asserts r op r2 em hop h p q hq
    rw [hq2]
    generalize processedAt p em = lg at he
    have : q2.pScene = q.pScene := by cases he <;> rfl
    simp [this]

/-- C18 fails: two constructor calls for scene 1 both succeed, the second one
changes the registry, and two registered queues have the owner 1. -/
theorem construct_twice :
    run true Registry.init [Op.construct 1, Op.construct 1] = .ret (registryTwice, []) ∧
    constructQueue (constructQueue Registry.init 1) 1 ≠ constructQueue Registry.init 1 ∧
    ¬ registryTwice.owners.Nodup := by
  decide

/-- A returning sequence of calls whose constructor calls are all made for
scenes without a queue keeps the owners of the chain distinct. -/
theorem run_owners (asserts : Bool) :
    ∀ (ops : List Op) (r0 r : Registry) (em : List Emit), r0.owners.Nodup →
      run asserts r0 ops = .ret (r, em) → constructsFresh asserts r0 ops = true →
      r.owners.Nodup := by
  intro ops
  induction ops with
  | nil =>
    intro r0 r em h0 h _
    simp only [run, Outcome.ret.injEq, Prod.mk.injEq] at h
    rw [← h.1]; exact h0
  | cons op ops ih =>
    intro r0 r em h0 h hfresh
    obtain ⟨r1, em1, em2, hs, hrun, _⟩ := run_cons_ret asserts r0 op ops r em h
    have hf : op.fresh r0 = true ∧ constructsFresh asserts r1 ops = true := by
      have := hfresh
      simp only [constructsFresh, hs, Bool.and_eq_true] at this
      exact this
    refine ih r1 r em2 ?_ hrun hf.2
    cases op with
    | construct s =>
      simp only [step, Outcome.ret.injEq, Prod.mk.injEq] at hs
      have hnot : s ∉ r0.owners := by simpa [Op.fresh] using hf.1
      rw [← hs.1]
      have : (constructQueue r0 s).owners = r0.owners ++ [s] := by
        simp [constructQueue, Registry.owners, Registry.all, SceneGraphEventQueue.new]
      rw [this]
      exact List.Nodup.append h0 (List.nodup_singleton s) (by simpa using hnot)
    | cancelPending obj =>
      simp only [step, Outcome.ret.injEq, Prod.mk.injEq] at hs
      rw [← hs.1]
      refine List.Nodup.sublist ?_ h0
      simp only [cancelPendingEvents, Registry.owners, Registry.all, List.map_cons]
      exact List.Sublist.cons₂ _ (owners_cancelPendingLoop obj r0.rest r0.root.pScene _)
    | post s obj argv t =>
      rw [step_owners asserts r0 (.post s obj argv t) r1 em1 rfl (by intro s h; cases h) hs]; exact h0
    | cancel s id =>
      rw [step_owners asserts r0 (.cancel s id) r1 em1 rfl (by intro s h; cases h) hs]; exact h0
    | advance s t =>
      rw [step_owners asserts r0 (.advance s t) r1 em1 rfl (by intro s h; cases h) hs]; exact h0
    | execute d =>
      rw [step_owners asserts r0 (.execute d) r1 em1 rfl (by intro s h; cases h) hs]; exact h0

/-- C18 (amended): the constructor makes no check of its own; it appends a
queue whatever the chain holds. In every registry reached from the initial
one by a sequence of calls in which each constructor call is made for a scene
that owns no queue at that moment, no two queues of the chain, the sentinel
included, have the same `pScene`. -/
theorem one_queue_per_owner (asserts : Bool) (ops : List Op) (r : Registry) (em : List Emit)
    (hrun : run asserts Registry.init ops = .ret (r, em))
    (hfresh : constructsFresh asserts Registry.init ops = true) : r.owners.Nodup :=
  run_owners asserts ops Registry.init r em (by decide) hrun hfresh

/-- Witness for C18 (amended): constructing queues for the scenes 1 and 2,
destroying the queue of scene 1 and constructing it again leaves the owners
`NULL`, 2, 1. -/
theorem one_queue_per_owner_witness :
    Registry.owners
      { root := SceneGraphEventQueue.new NULL,
        rest := [SceneGraphEventQueue.new 2, SceneGraphEventQueue.new 1],
        gAbortEvents := false } = [NULL, 2, 1] ∧
    (Registry.owners
      { root := SceneGraphEventQueue.new NULL,
        rest := [SceneGraphEventQueue.new 2, SceneGraphEventQueue.new 1],
        gAbortEvents := false }).Nodup :=
  ⟨by decide,
    one_queue_per_owner true
      [Op.construct 1, Op.construct 2, Op.cancelPending 1, Op.construct 1] _ []
      (by decide) (by decide)⟩

/-! ## A dispatch pass without abort -/

theorem dispatchLoop_clear (isDeleted : SimObject → Bool) (qi : Nat) :
    ∀ l : List SceneEvent,
      dispatchLoop isDeleted false qi l =
        (l.dropWhile (fun e => e.execute),
          (l.takeWhile (fun e => e.execute)).map
            (fun e => if isDeleted e.destObject then Emit.dropped qi e
                      else Emit.processed qi e)) := by
  intro l
  induction l with
  | nil => rfl
  | cons c tl ih =>
    by_cases h : c.execute = true
    · simp [dispatchLoop, h, ih, List.takeWhile, List.dropWhile]
    · simp [dispatchLoop, h, List.takeWhile, List.dropWhile]

theorem executeLoop_clear (isDeleted : SimObject → Bool) :
    ∀ (ws : List SceneGraphEventQueue) (qi : Nat),
      executeLoop isDeleted false qi ws = (ws.map afterPass, passLog isDeleted qi ws) := by
  intro ws
  induction ws with
  | nil => intro _; rfl
  | cons w ws ih =>
    intro qi
    simp only [executeLoop, dispatchLoop_clear, ih, List.map_cons, passLog, afterPass]

/-- C19: with `gAbortEvents` clear and payloads that do not call back into
the scheduler, executeEvents leaves the sentinel as it is and turns every
queue behind it, in registration order, into `afterPass` of it: the maximal
front run of events with `execute` set is removed, the remaining events, the
owner, the clock and `eventSequence` are unchanged and `executingEvents` is
false. What it does with the removed events is `passLog`: queue by queue in
registration order and in list order within a queue, `process` is invoked on
the events whose target is not deleted and the others are removed without
being invoked. No event of the sentinel is removed or executed,
`gAbortEvents` is still clear, and with the flag of the sentinel false, as
its constructor leaves it, `executingEvents` is false on every queue. -/
theorem executeEvents_clear (isDeleted : SimObject → Bool) (r : Registry)
    (h : r.gAbortEvents = false) :
    executeEvents isDeleted r =
      ({ r with rest := r.rest.map afterPass }, passLog isDeleted 1 r.rest) ∧
    (executeEvents isDeleted r).1.root = r.root ∧
    (executeEvents isDeleted r).1.gAbortEvents = false ∧
    (∀ q ∈ (executeEvents isDeleted r).1.rest, q.executingEvents = false) ∧
    (r.root.executingEvents = false →
      ∀ q ∈ (executeEvents isDeleted r).1.all, q.executingEvents = false) ∧
    (∀ q, (afterPass q).pScene = q.pScene ∧
      (afterPass q).currentSceneTime = q.currentSceneTime ∧
      (afterPass q).eventSequence = q.eventSequence ∧
      (q.eventQueue.takeWhile (fun e => e.execute)) ++ (afterPass q).eventQueue
        = q.eventQueue ∧
      (∀ e ∈ q.eventQueue.takeWhile (fun e => e.execute), e.execute = true) ∧
      (∀ e, (afterPass q).eventQueue.head? = some e → e.execute = false)) ∧
    (∀ e, Emit.processed 0 e ∉ (executeEvents isDeleted r).2 ∧
      Emit.dropped 0 e ∉ (executeEvents isDeleted r).2) := by
  have heq : executeEvents isDeleted r =
      ({ r with rest := r.rest.map afterPass }, passLog isDeleted 1 r.rest) := by
    simp only [executeEvents, h, executeLoop_clear]
  refine ⟨heq, ?_, ?_, ?_, ?_, ?_, ?_⟩
  · rw [heq]
  · rw [heq]; exact h
  · rw [heq]
    intro q hq
    simp only [List.mem_map] at hq
    obtain ⟨x, _, rfl⟩ := hq
    rfl
  · rw [heq]
    intro h0 q hq
    simp only [Registry.all, List.mem_cons, List.mem_map] at hq
    rcases hq with rfl | ⟨x, _, rfl⟩
    · exact h0
    · rfl
  · intro q
    refine ⟨rfl, rfl, rfl, List.takeWhile_append_dropWhile _ _, ?_, ?_⟩
    · intro e he
      exact List.mem_takeWhile_imp he
    · intro e he
      simp only [afterPass] at he
      have := List.head?_dropWhile_not (fun e : SceneEvent => e.execute) q.eventQueue
      rw [he] at this
      simpa using this
  · rw [heq]
    have key : ∀ (ws : List SceneGraphEventQueue) (qi : Nat) (x : Emit),
        x ∈ passLog isDeleted qi ws →
        ∃ k e, qi ≤ k ∧ (x = Emit.processed k e ∨ x = Emit.dropped k e) := by
      intro ws
      induction ws with
      | nil => intro qi x hx; simp [passLog] at hx
      | cons w ws ih =>
        intro qi x hx
        simp only [passLog, List.mem_append, List.mem_map] at hx
        rcases hx with ⟨e, _, rfl⟩ | hx
        · refine ⟨qi, e, le_refl _, ?_⟩
          by_cases hd : isDeleted e.destObject = true
          · right; simp [hd]
          · left; simp [hd]
        · obtain ⟨k, e, hk, hh⟩ := ih (qi + 1) x hx
          exact ⟨k, e, by omega, hh⟩
    intro e
    refine ⟨?_, ?_⟩
    · intro hx
      obtain ⟨k, e2, hk, hh⟩ := key r.rest 1 _ hx
      rcases hh with hh | hh
      · simp only [Emit.processed.injEq] at hh; omega
      · cases hh
    · intro hx
      obtain ⟨k, e2, hk, hh⟩ := key r.rest 1 _ hx
      rcases hh with hh | hh
      · cases hh
      · simp only [Emit.dropped.injEq] at hh; omega

/-- Witness for C19 on `registryTwoScenes` with object 6 deleted: the pass
executes the first event of scene 1, drops the second, leaves the third, then
executes the event of scene 2; the due event of the sentinel stays. -/
theorem executeEvents_clear_witness :
    executeEvents (fun o => o == 6) registryTwoScenes =
      ({ root := registryTwoScenes.root,
         rest := [{ pScene := 1,
                    eventQueue := [{ mArgv := 2, startTime := 0, time := 7, sequenceCount := 3,
                                     destObject := 5, execute := false }],
                    currentSceneTime := 3, eventSequence := 4, executingEvents := false },
                  { pScene := 2, eventQueue := [], currentSceneTime := 1, eventSequence := 2,
                    executingEvents := false }],
         gAbortEvents := false },
       [Emit.processed 1 { mArgv := 0, startTime := 0, time := 1, sequenceCount := 1,
                           destObject := 5, execute := true },
        Emit.dropped 1 { mArgv := 1, startTime := 0, time := 2, sequenceCount := 2,
                         destObject := 6, execute := true },
        Emit.processed 2 { mArgv := 3, startTime := 0, time := 1, sequenceCount := 1,
                           destObject := 5, execute := true }]) :=
  (executeEvents_clear (fun o => o == 6) registryTwoScenes rfl).1.trans (by decide)

/-! ## The clock along a sequence of calls -/

theorem trackIndex_succ (d : Option Nat) (k : Nat) :
    trackIndex (d.map (fun j => j + 1)) (k + 1) = (trackIndex d k).map (fun j => j + 1) := by
  cases d with
  | none => rfl
  | some j =>
    simp only [trackIndex, Option.map_some', Nat.add_lt_add_iff_right, Nat.add_right_cancel_iff]
    by_cases h1 : k < j
    · simp [h1]
    · by_cases h2 : k = j
      · simp [h2]
      · simp only [h1, h2, if_false, Option.map_some', Option.some.injEq]
        omega

theorem trackIndex_zero (d : Option Nat) :
    trackIndex (d.map (fun j => j + 1)) 0 = some 0 := by
  cases d <;> simp [trackIndex]

/-- The queue object that `trackIndex` follows through the loop of
cancelPendingEvents is found at the new index with the same owner, clock,
counter and flag. -/
theorem cancelPendingLoop_track (obj : SimObject) :
    ∀ (ws : List SceneGraphEventQueue) (cur : SimObject) (abort : Bool) (k k1 : Nat)
      (w : SceneGraphEventQueue), ws[k]? = some w →
      trackIndex (deletedIndex obj cur ws) k = some k1 →
      ∃ w1, (cancelPendingLoop obj cur ws abort).1[k1]? = some w1 ∧ sameQueue w w1 := by
  intro ws
  induction ws with
  | nil => intro _ _ k _ w h _; simp at h
  | cons w0 ws ih =>
    intro cur abort k k1 w hk ht
    by_cases hc : cur = obj
    · simp only [deletedIndex, hc, ne_eq, not_true_eq_false, if_false, trackIndex,
        Option.some.injEq] at ht
      subst ht
      simp only [cancelPendingLoop, hc, ne_eq, not_true_eq_false, if_false]
      exact ⟨w, hk, rfl, rfl, rfl, rfl⟩
    · by_cases hw : w0.pScene = obj
      · simp only [deletedIndex, hc, hw, ne_eq, not_false_eq_true, if_true, trackIndex,
          Nat.not_lt_zero, if_false] at ht
        cases k with
        | zero => simp at ht
        | succ k2 =>
          simp only [Nat.add_one_ne_zero, if_false, Nat.add_sub_cancel, Option.some.injEq] at ht
          subst ht
          simp only [List.getElem?_cons_succ] at hk
          simp only [cancelPendingLoop, hc, hw, ne_eq, not_false_eq_true, if_true,
            cancelPendingLoop_at_owner]
          exact ⟨w, hk, rfl, rfl, rfl, rfl⟩
      · simp only [deletedIndex, hc, hw, ne_eq, not_false_eq_true, if_true, if_false] at ht
        simp only [cancelPendingLoop, hc, hw, ne_eq, not_false_eq_true, if_true, if_false]
        cases k with
        | zero =>
          rw [trackIndex_zero] at ht
          simp only [Option.some.injEq] at ht
          subst ht
          simp only [List.getElem?_cons_zero, Option.some.injEq] at hk
          subst hk
          exact ⟨_, List.getElem?_cons_zero, rfl, rfl, rfl, rfl⟩
        | succ k2 =>
          rw [trackIndex_succ] at ht
          simp only [List.getElem?_cons_succ] at hk
          cases hti : trackIndex (deletedIndex obj w0.pScene ws) k2 with
          | none => rw [hti] at ht; simp at ht
          | some k3 =>
            rw [hti] at ht
            simp only [Option.map_some', Option.some.injEq] at ht
            subst ht
            obtain ⟨w1, h1, h2⟩ := ih w0.pScene abort k2 k3 w hk hti
            exact ⟨w1, by simpa using h1, h2⟩

/-- One call and the clock of one queue object: the object is found where
`Op.track` says, with the same owner; its clock is not smaller when the call
meets its time precondition, and it is the same when the call is not
advanceToTime. -/
theorem step_clock (asserts : Bool) (r : Registry) (op : Op) (r1 : Registry) (em : List Emit)
    (h : step asserts r op = .ret (r1, em)) (p p1 : Nat) (q : SceneGraphEventQueue)
    (hq : r.all[p]? = some q) (ht : op.track r p = some p1) :
    ∃ q1, r1.all[p1]? = some q1 ∧ q1.pScene = q.pScene ∧
      (op.pre r = true → q.currentSceneTime ≤ q1.currentSceneTime) ∧
      (op.isAdvance = false → q1.currentSceneTime = q.currentSceneTime) := by
  by_cases hop : op.isCancelPending = true
  · cases op with
    | cancelPending obj =>
      simp only [step, Outcome.ret.injEq, Prod.mk.injEq] at h
      rw [← h.1]
      cases p with
      | zero =>
        simp only [Op.track, Option.some.injEq] at ht
        subst ht
        simp only [Registry.all, List.getElem?_cons_zero, Option.some.injEq] at hq
        subst hq
        exact ⟨r.root, by simp [cancelPendingEvents, Registry.all], rfl, fun _ => le_refl _,
          fun _ => rfl⟩
      | succ k =>
        simp only [Op.track] at ht
        cases hti : trackIndex (deletedIndex obj r.root.pScene r.rest) k with
        | none => rw [hti] at ht; simp at ht
        | some k1 =>
          rw [hti] at ht
          simp only [Option.map_some', Option.some.injEq] at ht
          subst ht
          simp only [Registry.all, List.getElem?_cons_succ] at hq
          obtain ⟨w1, h1, h2⟩ :=
            cancelPendingLoop_track obj r.rest r.root.pScene r.gAbortEvents k k1 q hq hti
          refine ⟨w1, ?_, h2.1.symm, fun _ => le_of_eq h2.2.1, fun _ => h2.2.1.symm⟩
          simpa [cancelPendingEvents, Registry.all] using h1
    | construct s => cases hop
    | post s obj argv t => cases hop
    | cancel s id => cases hop
    | advance s t => cases hop
    | execute d => cases hop
  · have hop2 : op.isCancelPending = false := by simpa using hop
    have hp : p1 = p := by
      cases op with
      | cancelPending obj => cases hop2
      | construct s => simpa [Op.track] using ht.symm
      | post s obj argv t => simpa [Op.track] using ht.symm
      | cancel s id => simpa [Op.track] using ht.symm
      | advance s t => simpa [Op.track] using ht.symm
      | execute d => simpa [Op.track] using ht.symm
    subst hp
    obtain ⟨q1, hq1, he⟩ := step_at asserts r op r1 em hop2 h p1 q hq
    refine ⟨q1, hq1, ?_⟩
    generalize processedAt p1 em = lg at he
    generalize op.pre r = pre at he
    cases he with
    | same => exact ⟨rfl, fun _ => le_refl _, fun _ => rfl⟩
    | post _ _ s obj argv t hs hobj hpre => exact ⟨rfl, fun _ => le_refl _, fun _ => rfl⟩
    | cancel _ _ s id => exact ⟨rfl, fun _ => le_refl _, fun _ => rfl⟩
    | cancelObject _ _ obj => exact ⟨rfl, fun _ => le_refl _, fun _ => rfl⟩
    | advance _ _ s t hpre hok =>
      exact ⟨rfl, fun hp => hpre hp, fun hf => by simp [Op.isAdvance] at hf⟩
    | dispatch _ _ d ab => exact ⟨rfl, fun _ => le_refl _, fun _ => rfl⟩

/-- A returning sequence of calls that meets the time preconditions never
lowers the clock of a queue object, and changes it only by advanceToTime. -/
theorem run_clock (asserts : Bool) :
    ∀ (ops : List Op) (r0 r : Registry) (em : List Emit) (p p2 : Nat)
      (q : SceneGraphEventQueue), run asserts r0 ops = .ret (r, em) →
      respects asserts r0 ops = true → r0.all[p]? = some q →
      trackRun asserts r0 ops p = some p2 →
      ∃ q2, r.all[p2]? = some q2 ∧ q2.pScene = q.pScene ∧
        q.currentSceneTime ≤ q2.currentSceneTime ∧
        ((∀ op ∈ ops, op.isAdvance = false) → q2.currentSceneTime = q.currentSceneTime) := by
  intro ops
  induction ops with
  | nil =>
    intro r0 r em p p2 q h _ hq ht
    simp only [run, Outcome.ret.injEq, Prod.mk.injEq] at h
    simp only [trackRun, Option.some.injEq] at ht
    subst ht
    rw [← h.1]
    exact ⟨q, hq, rfl, le_refl _, fun _ => rfl⟩
  | cons op ops ih =>
    intro r0 r em p p2 q h hpre hq ht
    obtain ⟨r1, em1, em2, hs, hrun, _⟩ := run_cons_ret asserts r0 op ops r em h
    rw [respects_cons, hs] at hpre
    simp only [Bool.and_eq_true] at hpre
    cases hp1 : op.track r0 p with
    | none => simp [trackRun, hp1] at ht
    | some p1 =>
      simp only [trackRun, hp1, hs] at ht
      obtain ⟨q1, hq1, hs1, hle1, heq1⟩ := step_clock asserts r0 op r1 em1 hs p p1 q hq hp1
      obtain ⟨q2, hq2, hs2, hle2, heq2⟩ := ih r1 r em2 p1 p2 q1 hrun hpre.2 hq1 ht
      refine ⟨q2, hq2, hs2.trans hs1, le_trans (hle1 hpre.1) hle2, ?_⟩
      intro hno
      rw [heq2 (fun o ho => hno o (List.mem_cons_of_mem _ ho)),
        heq1 (hno op (List.mem_cons_self _ _))]

/-- C13: take any returning sequence of calls (constructor, postEvent,
cancelEvent, cancelPendingEvents, advanceToTime, executeEvents) that meets
the time preconditions, from any registry, and a queue object of that
registry that exists at the end (`trackRun` follows it through the
deletions of other queues). Its `currentSceneTime` at the end is not smaller
than at the start, and it is the same when no call of the sequence is
advanceToTime. The four queries are functions of the registry and write
nothing. -/
theorem clock_monotonic (asserts : Bool) (ops : List Op) (r0 r : Registry) (em : List Emit)
    (p p2 : Nat) (q : SceneGraphEventQueue) (hrun : run asserts r0 ops = .ret (r, em))
    (hpre : respects asserts r0 ops = true) (hq : r0.all[p]? = some q)
    (ht : trackRun asserts r0 ops p = some p2) :
    ∃ q2, r.all[p2]? = some q2 ∧ q2.pScene = q.pScene ∧
      q.currentSceneTime ≤ q2.currentSceneTime ∧
      ((∀ op ∈ ops, op.isAdvance = false) → q2.currentSceneTime = q.currentSceneTime) :=
  run_clock asserts ops r0 r em p p2 q hrun hpre hq ht

/-- Witness for C13: along `clockTrace` the queue of scene 2, constructed at
position 2 with clock 0, moves to position 1 when the queue of scene 1 is
destroyed, and its clock ends at 8. -/
theorem clock_monotonic_witness :
    ∃ q2 : SceneGraphEventQueue,
      q2.pScene = (SceneGraphEventQueue.new 2).pScene ∧
      (SceneGraphEventQueue.new 2).currentSceneTime ≤ q2.currentSceneTime ∧
      run true (registryAt 1) (clockTrace.drop 1) =
        .ret ({ root := SceneGraphEventQueue.new NULL,
                rest := [{ pScene := 2,
                           eventQueue := [{ mArgv := 0, startTime := 3, time := 4,
                                            sequenceCount := 1, destObject := 5,
                                            execute := true }],
                           currentSceneTime := 8, eventSequence := 2,
                           executingEvents := false }],
                gAbortEvents := false }, []) := by
  obtain ⟨q2, _, h2, h3, _⟩ := clock_monotonic true (clockTrace.drop 2)
    { root := SceneGraphEventQueue.new NULL,
      rest := [SceneGraphEventQueue.new 1, SceneGraphEventQueue.new 2],
      gAbortEvents := false } _ [] 2 1 (SceneGraphEventQueue.new 2)
    (by decide : run true _ (clockTrace.drop 2) =
      .ret ({ root := SceneGraphEventQueue.new NULL,
              rest := [{ pScene := 2,
                         eventQueue := [{ mArgv := 0, startTime := 3, time := 4,
                                          sequenceCount := 1, destObject := 5,
                                          execute := true }],
                         currentSceneTime := 8, eventSequence := 2,
                         executingEvents := false }],
              gAbortEvents := false }, []))
    (by decide) (by decide) (by decide)
  exact ⟨q2, h2, h3, by decide⟩

/-! ## Abort and the dispatch pass -/

theorem all_setQueue_set (r : Registry) (p : Nat) (q : SceneGraphEventQueue) :
    (r.setQueue p q).all = r.all.set p q := by
  cases p <;> simp [Registry.setQueue, Registry.all]

theorem gAbortEvents_setQueue (r : Registry) (p : Nat) (q : SceneGraphEventQueue) :
    (r.setQueue p q).gAbortEvents = r.gAbortEvents := by
  cases p <;> rfl

theorem map_set_same {β : Type} (f : SceneGraphEventQueue → β) :
    ∀ (l : List SceneGraphEventQueue) (p : Nat) (q q2 : SceneGraphEventQueue),
      l[p]? = some q → f q2 = f q → (l.set p q2).map f = l.map f := by
  intro l
  induction l with
  | nil => intro p q q2 h _; simp at h
  | cons c tl ih =>
    intro p q q2 h hf
    cases p with
    | zero =>
      simp only [List.getElem?_cons_zero, Option.some.injEq] at h
      subst h
      simp [hf]
    | succ k =>
      simp only [List.getElem?_cons_succ] at h
      simp [ih k q q2 h hf]

theorem chains_setQueue (r : Registry) (p : Nat) (q q2 : SceneGraphEventQueue)
    (h : r.all[p]? = some q) (hq : q2.eventQueue = q.eventQueue) :
    (r.setQueue p q2).all.map (fun x => x.eventQueue) = r.all.map (fun x => x.eventQueue) := by
  rw [all_setQueue_set]
  exact map_set_same (fun x => x.eventQueue) r.all p q q2 h hq

/-- With `gAbortEvents` set a step of the driver removes no event, leaves
every chain as it is and leaves the flag set. -/
theorem driverStep_abort (payload : Registry → SceneEvent → List Call)
    (isDeleted : SimObject → Bool) (asserts : Bool) (d d1 : Driver) (acts : List Act)
    (ha : d.registry.gAbortEvents = true)
    (h : driverStep payload isDeleted asserts d = some (d1, acts)) :
    noRemoval acts ∧ d1.registry.gAbortEvents = true ∧
      d1.registry.all.map (fun x => x.eventQueue) =
        d.registry.all.map (fun x => x.eventQueue) := by
  have hnil : noRemoval [] := by intro a h0; cases h0
  have hrd : noRemoval [Act.freedRead] := by
    intro a h0 p e x
    simp only [List.mem_singleton] at h0
    subst h0
    intro hc; cases hc
  have hwr : noRemoval [Act.freedWrite] := by
    intro a h0 p e x
    simp only [List.mem_singleton] at h0
    subst h0
    intro hc; cases hc
  cases hpc : d.pc with
  | done => simp [driverStep, hpc] at h
  | outer =>
    cases hw : d.queueWalk with
    | null =>
      simp only [driverStep, hpc, hw, Option.some.injEq, Prod.mk.injEq] at h
      obtain ⟨rfl, rfl⟩ := h
      exact ⟨hnil, ha, rfl⟩
    | gone =>
      simp only [driverStep, hpc, hw, Option.some.injEq, Prod.mk.injEq] at h
      obtain ⟨rfl, rfl⟩ := h
      exact ⟨hrd, ha, rfl⟩
    | live p =>
      cases hq : d.registry.all[p]? with
      | none =>
        simp only [driverStep, hpc, hw, hq, Option.some.injEq, Prod.mk.injEq] at h
        obtain ⟨rfl, rfl⟩ := h
        exact ⟨hrd, ha, rfl⟩
      | some q =>
        simp only [driverStep, hpc, hw, hq, Option.some.injEq, Prod.mk.injEq] at h
        obtain ⟨rfl, rfl⟩ := h
        exact ⟨hnil, by rw [gAbortEvents_setQueue]; exact ha,
          chains_setQueue d.registry p q _ hq rfl⟩
  | inner =>
    simp only [driverStep, hpc, ha, if_true, Option.some.injEq, Prod.mk.injEq] at h
    obtain ⟨rfl, rfl⟩ := h
    exact ⟨hnil, ha, rfl⟩
  | leave =>
    cases hc : d.queueCurrent with
    | null =>
      simp only [driverStep, hpc, hc, Option.some.injEq, Prod.mk.injEq] at h
      obtain ⟨rfl, rfl⟩ := h
      exact ⟨hwr, ha, rfl⟩
    | gone =>
      simp only [driverStep, hpc, hc, Option.some.injEq, Prod.mk.injEq] at h
      obtain ⟨rfl, rfl⟩ := h
      exact ⟨hwr, ha, rfl⟩
    | live p =>
      cases hq : d.registry.all[p]? with
      | none =>
        simp only [driverStep, hpc, hc, hq, Option.some.injEq, Prod.mk.injEq] at h
        obtain ⟨rfl, rfl⟩ := h
        exact ⟨hwr, ha, rfl⟩
      | some q =>
        simp only [driverStep, hpc, hc, hq, Option.some.injEq, Prod.mk.injEq] at h
        obtain ⟨rfl, rfl⟩ := h
        exact ⟨hnil, by rw [gAbortEvents_setQueue]; exact ha,
          chains_setQueue d.registry p q _ hq rfl⟩

theorem driverRun_abort (payload : Registry → SceneEvent → List Call)
    (isDeleted : SimObject → Bool) (asserts : Bool) :
    ∀ (n : Nat) (d : Driver), d.registry.gAbortEvents = true →
      noRemoval (driverRun payload isDeleted asserts n d).2 ∧
      (driverRun payload isDeleted asserts n d).1.registry.gAbortEvents = true ∧
      (driverRun payload isDeleted asserts n d).1.registry.all.map (fun x => x.eventQueue) =
        d.registry.all.map (fun x => x.eventQueue) := by
  intro n
  induction n with
  | zero =>
    intro d ha
    exact ⟨(by intro a h0; cases h0), ha, rfl⟩
  | succ n ih =>
    intro d ha
    cases hs : driverStep payload isDeleted asserts d with
    | none =>
      have he : driverRun payload isDeleted asserts (n + 1) d = (d, []) := by
        simp only [driverRun, hs]
      rw [he]
      exact ⟨(by intro a h0; cases h0), ha, rfl⟩
    | some out =>
      obtain ⟨d1, acts⟩ := out
      obtain ⟨h1, h2, h3⟩ := driverStep_abort payload isDeleted asserts d d1 acts ha hs
      obtain ⟨g1, g2, g3⟩ := ih d1 h2
      have he : driverRun payload isDeleted asserts (n + 1) d =
          ((driverRun payload isDeleted asserts n d1).1,
            acts ++ (driverRun payload isDeleted asserts n d1).2) := by
        simp only [driverRun, hs]
      rw [he]
      refine ⟨?_, g2, g3.trans h3⟩
      intro a hmem
      rcases List.mem_append.1 hmem with hm | hm
      · exact h1 a hm
      · exact g1 a hm

theorem cancelPendingLoop_abort (obj : SimObject) :
    ∀ (ws : List SceneGraphEventQueue) (cur : SimObject),
      (cancelPendingLoop obj cur ws true).2 = true := by
  intro ws
  induction ws with
  | nil => intro _; rfl
  | cons w ws ih =>
    intro cur
    by_cases hc : cur = obj
    · simp [cancelPendingLoop, hc]
    · by_cases hw : w.pScene = obj
      · simp only [cancelPendingLoop, hc, hw, ne_eq, not_false_eq_true, if_true, Bool.true_or]
        exact ih obj
      · simp only [cancelPendingLoop, hc, hw, ne_eq, not_false_eq_true, if_true, if_false]
        exact ih w.pScene

theorem dispatchLoop_abort (isDeleted : SimObject → Bool) (qi : Nat) (l : List SceneEvent) :
    dispatchLoop isDeleted true qi l = (l, []) := by
  cases l <;> simp [dispatchLoop]

theorem executeLoop_abort (isDeleted : SimObject → Bool) :
    ∀ (ws : List SceneGraphEventQueue) (qi : Nat),
      (executeLoop isDeleted true qi ws).2 = [] := by
  intro ws
  induction ws with
  | nil => intro _; rfl
  | cons w ws ih => intro qi; simp [executeLoop, dispatchLoop_abort, ih]

/-- No call clears `gAbortEvents`, and a pass that starts with the flag set
executes and drops nothing. -/
theorem step_abort (asserts : Bool) (r : Registry) (op : Op) (r1 : Registry) (em : List Emit)
    (ha : r.gAbortEvents = true) (h : step asserts r op = .ret (r1, em)) :
    r1.gAbortEvents = true ∧ em = [] := by
  cases op with
  | construct s =>
    simp only [step, Outcome.ret.injEq, Prod.mk.injEq] at h
    obtain ⟨rfl, rfl⟩ := h
    exact ⟨ha, rfl⟩
  | post s obj argv t =>
    simp only [step] at h
    cases hp : postEvent asserts r s obj (SceneEvent.new argv) t with
    | fatal st => rw [hp] at h; cases h
    | ret out =>
      rw [hp] at h
      simp only [Outcome.ret.injEq, Prod.mk.injEq] at h
      obtain ⟨rfl, rfl⟩ := h
      refine ⟨?_, rfl⟩
      by_cases hobj : obj = NULL
      · subst hobj
        rw [postEvent_null] at hp
        cases asserts with
        | true => simp at hp
        | false =>
          simp only [Bool.false_eq_true, if_false, Outcome.ret.injEq] at hp
          rw [← hp]; exact ha
      · rcases lookup_cases r s with ⟨i, qi, hf, _⟩ | ⟨hno, _⟩
        · have hps : qi.pScene = s := by
            obtain ⟨_, _, _, _, _, hh⟩ := hf; exact hh
          subst hps
          rw [postEvent_found asserts r obj _ t i qi hf hobj] at hp
          by_cases hx : (asserts && !(t == -1 || decide (t ≥ qi.currentSceneTime))) = true
          · rw [if_pos hx] at hp; cases hp
          · rw [if_neg hx] at hp
            simp only [Outcome.ret.injEq] at hp
            rw [← hp, gAbortEvents_setQueue]; exact ha
        · rw [postEvent_not_owner asserts r s obj _ t hno hobj] at hp
          simp only [Outcome.ret.injEq] at hp
          rw [← hp]; exact ha
  | cancel s id =>
    simp only [step, Outcome.ret.injEq, Prod.mk.injEq] at h
    obtain ⟨rfl, rfl⟩ := h
    refine ⟨?_, rfl⟩
    simp only [cancelEvent]
    split
    · exact ha
    · rw [gAbortEvents_setQueue]; exact ha
  | cancelPending obj =>
    simp only [step, Outcome.ret.injEq, Prod.mk.injEq] at h
    obtain ⟨rfl, rfl⟩ := h
    refine ⟨?_, rfl⟩
    simp only [cancelPendingEvents, ha]
    exact cancelPendingLoop_abort obj r.rest r.root.pScene
  | advance s t =>
    simp only [step] at h
    cases hp : advanceToTime asserts r s t with
    | fatal st => rw [hp] at h; cases h
    | ret r2 =>
      rw [hp] at h
      simp only [Outcome.ret.injEq, Prod.mk.injEq] at h
      obtain ⟨rfl, rfl⟩ := h
      refine ⟨?_, rfl⟩
      rcases lookup_cases r s with ⟨i, qi, hf, _⟩ | ⟨_, hl⟩
      · have hps : qi.pScene = s := by
          obtain ⟨_, _, _, _, _, hh⟩ := hf; exact hh
        subst hps
        rw [advanceToTime_found asserts r t i qi hf] at hp
        by_cases hx : (asserts && !decide (t ≥ qi.currentSceneTime)) = true
        · rw [if_pos hx] at hp; cases hp
        · rw [if_neg hx] at hp
          by_cases hok : (advanceLoop asserts t qi.currentSceneTime qi.eventQueue).1 = true
          · rw [if_pos hok] at hp
            simp only [Outcome.ret.injEq] at hp
            rw [← hp, gAbortEvents_setQueue]; exact ha
          · rw [if_neg hok] at hp; cases hp
      · simp only [advanceToTime, hl, ne_eq, not_false_eq_true, if_true,
          Outcome.ret.injEq] at hp
        rw [← hp]; exact ha
  | execute d =>
    simp only [step, executeEvents, Outcome.ret.injEq, Prod.mk.injEq] at h
    obtain ⟨rfl, rfl⟩ := h
    exact ⟨ha, by rw [ha]; exact executeLoop_abort d r.rest 1⟩

theorem run_abort (asserts : Bool) :
    ∀ (ops : List Op) (r r2 : Registry) (em : List Emit), r.gAbortEvents = true →
      run asserts r ops = .ret (r2, em) → r2.gAbortEvents = true ∧ em = [] := by
  intro ops
  induction ops with
  | nil =>
    intro r r2 em ha h
    simp only [run, Outcome.ret.injEq, Prod.mk.injEq] at h
    obtain ⟨rfl, rfl⟩ := h
    exact ⟨ha, rfl⟩
  | cons op ops ih =>
    intro r r2 em ha h
    obtain ⟨r1, em1, em2, hs, hrun, rfl⟩ := run_cons_ret asserts r op ops r2 em h
    obtain ⟨h1, rfl⟩ := step_abort asserts r op r1 em1 ha hs
    obtain ⟨h2, rfl⟩ := ih r1 r2 em2 h1 hrun
    exact ⟨h2, rfl⟩

/-- C16: take executeEvents with payloads that call back into the scheduler,
in any state `d` of its run (on entry, or behind a payload) in which
`gAbortEvents` is set. In any number of further steps the driver unlinks and
executes no event, the chain of every queue, visited or not, stays as it is,
and the flag stays set. And no call clears the flag: after any returning
sequence of calls (constructor, postEvent, cancelEvent, cancelPendingEvents,
advanceToTime, dispatch passes) from a registry with the flag set, the flag
is set and the passes of the sequence have executed and dropped nothing, so
every later pass starts with the flag set again. -/
theorem abort_stops_pass (payload : Registry → SceneEvent → List Call)
    (isDeleted : SimObject → Bool) (asserts : Bool) :
    (∀ (n : Nat) (d : Driver), d.registry.gAbortEvents = true →
      noRemoval (driverRun payload isDeleted asserts n d).2 ∧
      (driverRun payload isDeleted asserts n d).1.registry.gAbortEvents = true ∧
      (driverRun payload isDeleted asserts n d).1.registry.all.map (fun x => x.eventQueue) =
        d.registry.all.map (fun x => x.eventQueue)) ∧
    (∀ (ops : List Op) (r r2 : Registry) (em : List Emit), r.gAbortEvents = true →
      run asserts r ops = .ret (r2, em) → r2.gAbortEvents = true ∧ em = []) :=
  ⟨driverRun_abort payload isDeleted asserts, run_abort asserts⟩

/-- Witness for C16: in the scenario the payload of the first event of scene
1 destroys the queue of scene 1, which sets `gAbortEvents`
(`driverAborted`); the rest of the pass removes no event, and the due event
of scene 2 and the flag are as they were. -/
theorem abort_stops_pass_witness :
    driverRun payloadSelfDestroy (fun _ => false) true 2 (driverInit registrySelfDestroy) =
      (driverAborted,
        [Act.removed 1 { mArgv := 0, startTime := 0, time := 1, sequenceCount := 1,
                         destObject := 5, execute := true } true]) ∧
    noRemoval (driverRun payloadSelfDestroy (fun _ => false) true 6 driverAborted).2 ∧
    (driverRun payloadSelfDestroy (fun _ => false) true 6 driverAborted).1.pc = Pc.done :=
  ⟨by decide,
    ((abort_stops_pass payloadSelfDestroy (fun _ => false) true).1 6 driverAborted rfl).1,
    by decide⟩

/-! ## The lifetime guard -/

/-- C17, at the failing input: the payload of the first event of scene 1
destroys the queue of scene 1 while that queue is being dispatched. The
destructor sets `gAbortEvents` and the inner loop is left by the `break`,
without another read of the queue; then the driver executes
`queueCurrent->executingEvents = false` through its pointer to the destroyed
queue (`Act.freedWrite`). The second event of scene 1 went with its queue,
and the event of scene 2 is not executed. -/
theorem executeEvents_writes_destroyed_queue :
    executeEventsWith payloadSelfDestroy (fun _ => false) true 8 registrySelfDestroy =
      ({ registry :=
           { root := SceneGraphEventQueue.new NULL,
             rest := [{ pScene := 2,
                        eventQueue := [{ mArgv := 2, startTime := 0, time := 1,
                                         sequenceCount := 1, destObject := 5,
                                         execute := true }],
                        currentSceneTime := 1, eventSequence := 2, executingEvents := false }],
             gAbortEvents := true },
         queueCurrent := .live 1, queueWalk := .null, pc := .done },
       [Act.removed 1 { mArgv := 0, startTime := 0, time := 1, sequenceCount := 1,
                        destObject := 5, execute := true } true,
        Act.freedWrite]) ∧
    executeEventsWith payloadSelfDestroy (fun _ => false) false 8 registrySelfDestroy =
      executeEventsWith payloadSelfDestroy (fun _ => false) true 8 registrySelfDestroy := by
  decide

/-! ## The driver with payloads that make no calls -/

theorem driverRun_done (payload : Registry → SceneEvent → List Call)
    (isDeleted : SimObject → Bool) (asserts : Bool) (d : Driver)
    (h : driverStep payload isDeleted asserts d = none) :
    ∀ m, driverRun payload isDeleted asserts m d = (d, []) := by
  intro m
  cases m with
  | zero => rfl
  | succ k => simp only [driverRun, h]

theorem driverRun_succ (payload : Registry → SceneEvent → List Call)
    (isDeleted : SimObject → Bool) (asserts : Bool) (d d1 : Driver) (acts : List Act)
    (h : driverStep payload isDeleted asserts d = some (d1, acts)) (n : Nat) :
    driverRun payload isDeleted asserts (n + 1) d =
      ((driverRun payload isDeleted asserts n d1).1,
        acts ++ (driverRun payload isDeleted asserts n d1).2) := by
  simp only [driverRun, h]

/-- Steps of the driver compose. -/
theorem driverRun_add (payload : Registry → SceneEvent → List Call)
    (isDeleted : SimObject → Bool) (asserts : Bool) :
    ∀ (n m : Nat) (d : Driver),
      driverRun payload isDeleted asserts (n + m) d =
        ((driverRun payload isDeleted asserts m (driverRun payload isDeleted asserts n d).1).1,
          (driverRun payload isDeleted asserts n d).2 ++
            (driverRun payload isDeleted asserts m
              (driverRun payload isDeleted asserts n d).1).2) := by
  intro n
  induction n with
  | zero => intro m d; simp [driverRun]
  | succ n ih =>
    intro m d
    have hnm : n + 1 + m = (n + m) + 1 := by omega
    rw [hnm]
    cases hs : driverStep payload isDeleted asserts d with
    | none =>
      rw [driverRun_done payload isDeleted asserts d hs, driverRun_done payload isDeleted asserts d hs,
        driverRun_done payload isDeleted asserts d hs]
      rfl
    | some out =>
      obtain ⟨d1, acts⟩ := out
      rw [driverRun_succ payload isDeleted asserts d d1 acts hs,
        driverRun_succ payload isDeleted asserts d d1 acts hs, ih m d1]
      simp

theorem registry_ext_all (a b : Registry) (h1 : a.all = b.all)
    (h2 : a.gAbortEvents = b.gAbortEvents) : a = b := by
  cases a; cases b
  simp only [Registry.all, List.cons.injEq] at h1
  simp only at h2
  simp [h1.1, h1.2, h2]

theorem list_set_self :
    ∀ (l : List SceneGraphEventQueue) (p : Nat) (q : SceneGraphEventQueue),
      l[p]? = some q → l.set p q = l := by
  intro l
  induction l with
  | nil => intro p q h; simp at h
  | cons c tl ih =>
    intro p q h
    cases p with
    | zero =>
      simp only [List.getElem?_cons_zero, Option.some.injEq] at h
      subst h; rfl
    | succ k =>
      simp only [List.getElem?_cons_succ] at h
      simp [ih k q h]

theorem setQueue_same (r : Registry) (p : Nat) (q : SceneGraphEventQueue)
    (h : r.all[p]? = some q) : r.setQueue p q = r :=
  registry_ext_all _ _ (by rw [all_setQueue_set, list_set_self r.all p q h])
    (gAbortEvents_setQueue r p q)

theorem setQueue_setQueue (r : Registry) (p : Nat) (a b : SceneGraphEventQueue) :
    (r.setQueue p a).setQueue p b = r.setQueue p b :=
  registry_ext_all _ _ (by simp [all_setQueue_set])
    (by simp [gAbortEvents_setQueue])

theorem getElem?_setQueue (r : Registry) (p : Nat) (q q2 : SceneGraphEventQueue)
    (h : r.all[p]? = some q) : (r.setQueue p q2).all[p]? = some q2 := by
  have hlt : p < r.all.length := by
    by_contra hc
    rw [List.getElem?_eq_none (by omega)] at h
    cases h
  rw [all_setQueue_set]
  simp [List.getElem?_set, hlt]

theorem reaches_step (payload : Registry → SceneEvent → List Call)
    (isDeleted : SimObject → Bool) (asserts : Bool) (d d1 : Driver) (acts : List Act)
    (h : driverStep payload isDeleted asserts d = some (d1, acts)) :
    Reaches payload isDeleted asserts d d1 acts :=
  ⟨1, by rw [driverRun_succ payload isDeleted asserts d d1 acts h]; simp [driverRun]⟩

theorem reaches_trans (payload : Registry → SceneEvent → List Call)
    (isDeleted : SimObject → Bool) (asserts : Bool) (d d1 d2 : Driver) (a1 a2 : List Act)
    (h1 : Reaches payload isDeleted asserts d d1 a1)
    (h2 : Reaches payload isDeleted asserts d1 d2 a2) :
    Reaches payload isDeleted asserts d d2 (a1 ++ a2) := by
  obtain ⟨n, hn⟩ := h1
  obtain ⟨m, hm⟩ := h2
  exact ⟨n + m, by rw [driverRun_add, hn]; simp only; rw [hm]⟩

/-- The inner loop of the driver with payloads that make no calls does what
`dispatchLoop` does. -/
theorem driver_inner (isDeleted : SimObject → Bool) (asserts : Bool) :
    ∀ (l : List SceneEvent) (R : Registry) (p : Nat) (q : SceneGraphEventQueue)
      (w : QueuePtr), R.all[p]? = some q → q.eventQueue = l →
      Reaches quietPayload isDeleted asserts
        { registry := R, queueCurrent := .live p, queueWalk := w, pc := .inner }
        { registry := R.setQueue p
            { q with eventQueue := (dispatchLoop isDeleted R.gAbortEvents p l).1 },
          queueCurrent := .live p, queueWalk := w, pc := .leave }
        ((dispatchLoop isDeleted R.gAbortEvents p l).2.map Emit.toAct) := by
  intro l
  induction l with
  | nil =>
    intro R p q w hq hl
    have hq2 : ({ q with eventQueue := [] } : SceneGraphEventQueue) = q := by
      cases q; simp_all
    apply reaches_step
    cases ha : R.gAbortEvents <;>
      simp [driverStep, ha, hq, hl, dispatchLoop, hq2, setQueue_same R p q hq]
  | cons e tl ih =>
    intro R p q w hq hl
    have hq2 : ({ q with eventQueue := e :: tl } : SceneGraphEventQueue) = q := by
      cases q; simp_all
    cases ha : R.gAbortEvents with
    | true =>
      apply reaches_step
      simp [driverStep, ha, dispatchLoop, hq2, setQueue_same R p q hq]
    | false =>
      by_cases hx : e.execute = true
      · have hq1 : (R.setQueue p { q with eventQueue := tl }).all[p]? =
            some { q with eventQueue := tl } := getElem?_setQueue R p q _ hq
        have hn := ih (R.setQueue p { q with eventQueue := tl }) p
          { q with eventQueue := tl } w hq1 rfl
        rw [gAbortEvents_setQueue, ha, setQueue_setQueue] at hn
        by_cases hd : isDeleted e.destObject = true
        · have hs : driverStep quietPayload isDeleted asserts
              { registry := R, queueCurrent := .live p, queueWalk := w, pc := .inner } =
              some ({ registry := R.setQueue p { q with eventQueue := tl },
                      queueCurrent := .live p, queueWalk := w, pc := .inner },
                    [Act.removed p e false]) := by
            simp [driverStep, ha, hq, hl, hx, hd]
          have := reaches_trans _ _ _ _ _ _ _ _ (reaches_step _ _ _ _ _ _ hs) hn
          simpa [dispatchLoop, hx, hd, Emit.toAct] using this
        · have hs : driverStep quietPayload isDeleted asserts
              { registry := R, queueCurrent := .live p, queueWalk := w, pc := .inner } =
              some ({ registry := R.setQueue p { q with eventQueue := tl },
                      queueCurrent := .live p, queueWalk := w, pc := .inner },
                    [Act.removed p e true]) := by
            simp [driverStep, ha, hq, hl, hx, hd, quietPayload, runCalls,
              gAbortEvents_setQueue]
          have := reaches_trans _ _ _ _ _ _ _ _ (reaches_step _ _ _ _ _ _ hs) hn
          simpa [dispatchLoop, hx, hd, Emit.toAct] using this
      · apply reaches_step
        simp [driverStep, ha, hq, hl, hx, dispatchLoop, hq2, setQueue_same R p q hq]

theorem setQueue_rest (R : Registry) (pre ws : List SceneGraphEventQueue)
    (w0 x : SceneGraphEventQueue) (h : R.rest = pre ++ w0 :: ws) :
    R.setQueue (pre.length + 1) x = { R with rest := pre ++ x :: ws } := by
  cases R with
  | mk root rest ab =>
    simp only at h
    subst h
    simp [Registry.setQueue]

/-- The outer loop of the driver with payloads that make no calls does what
`executeLoop` does. -/
theorem driver_outer (isDeleted : SimObject → Bool) (asserts : Bool) :
    ∀ (ws pre : List SceneGraphEventQueue) (R : Registry) (c : QueuePtr),
      R.rest = pre ++ ws →
      ∃ c2, Reaches quietPayload isDeleted asserts
        { registry := R, queueCurrent := c,
          queueWalk := if pre.length + 1 < R.all.length then .live (pre.length + 1) else .null,
          pc := .outer }
        { registry :=
            { R with
              rest := pre ++ (executeLoop isDeleted R.gAbortEvents (pre.length + 1) ws).1 },
          queueCurrent := c2, queueWalk := .null, pc := .done }
        ((executeLoop isDeleted R.gAbortEvents (pre.length + 1) ws).2.map Emit.toAct) := by
  intro ws
  induction ws with
  | nil =>
    intro pre R c hrest
    refine ⟨c, ?_⟩
    have hlen : R.all.length = pre.length + 1 := by simp [Registry.all, hrest]
    have hR : ({ R with rest := pre } : Registry) = R := by
      cases R; simp_all
    apply reaches_step
    simp [driverStep, hlen, executeLoop, hR]
  | cons w0 ws ih =>
    intro pre R c hrest
    obtain ⟨w1, hw1⟩ : ∃ w1 : SceneGraphEventQueue, w1 =
        { w0 with eventQueue := (dispatchLoop isDeleted R.gAbortEvents (pre.length + 1)
                    w0.eventQueue).1,
                  executingEvents := false } := ⟨_, rfl⟩
    have hlen : R.all.length = pre.length + 1 + (ws.length + 1) := by
      simp [Registry.all, hrest]; omega
    have hq : R.all[pre.length + 1]? = some w0 := by
      have : R.all = R.root :: (pre ++ w0 :: ws) := by simp [Registry.all, hrest]
      rw [this, List.getElem?_cons_succ, List.getElem?_append_right (le_refl _)]
      simp
    -- the step at the outer test
    have hs1 : driverStep quietPayload isDeleted asserts
        { registry := R, queueCurrent := c,
          queueWalk := if pre.length + 1 < R.all.length then .live (pre.length + 1) else .null,
          pc := .outer } =
        some ({ registry := R.setQueue (pre.length + 1) { w0 with executingEvents := true },
                queueCurrent := .live (pre.length + 1),
                queueWalk := if pre.length + 1 + 1 < R.all.length then .live (pre.length + 1 + 1)
                             else .null,
                pc := .inner }, []) := by
      have : pre.length + 1 < R.all.length := by omega
      simp [driverStep, this, hq]
    -- the inner loop
    have hq1 := getElem?_setQueue R (pre.length + 1) w0 { w0 with executingEvents := true } hq
    have hin := driver_inner isDeleted asserts w0.eventQueue
      (R.setQueue (pre.length + 1) { w0 with executingEvents := true }) (pre.length + 1)
      { w0 with executingEvents := true }
      (if pre.length + 1 + 1 < R.all.length then .live (pre.length + 1 + 1) else .null) hq1 rfl
    rw [gAbortEvents_setQueue, setQueue_setQueue] at hin
    -- the step behind the inner loop
    have hq2 := getElem?_setQueue R (pre.length + 1) w0
      { w0 with executingEvents := true,
                eventQueue := (dispatchLoop isDeleted R.gAbortEvents (pre.length + 1)
                  w0.eventQueue).1 } hq
    have hs3 : driverStep quietPayload isDeleted asserts
        { registry := R.setQueue (pre.length + 1)
            { w0 with executingEvents := true,
                      eventQueue := (dispatchLoop isDeleted R.gAbortEvents (pre.length + 1)
                        w0.eventQueue).1 },
          queueCurrent := .live (pre.length + 1),
          queueWalk := if pre.length + 1 + 1 < R.all.length then .live (pre.length + 1 + 1)
                       else .null,
          pc := .leave } =
        some ({ registry := R.setQueue (pre.length + 1) w1,
                queueCurrent := .live (pre.length + 1),
                queueWalk := if pre.length + 1 + 1 < R.all.length then .live (pre.length + 1 + 1)
                             else .null,
                pc := .outer }, []) := by
      simp [driverStep, hq2, setQueue_setQueue, hw1]
    -- the rest of the chain
    have hrest3 := setQueue_rest R pre ws w0 w1 hrest
    rw [hrest3] at hs3
    obtain ⟨c2, htl⟩ := ih (pre ++ [w1]) { R with rest := pre ++ w1 :: ws }
      (.live (pre.length + 1)) (by simp)
    refine ⟨c2, ?_⟩
    have hlen3 : ({ R with rest := pre ++ w1 :: ws } : Registry).all.length = R.all.length := by
      rw [hlen]; simp [Registry.all]; omega
    rw [hlen3] at htl
    simp only [List.length_append, List.length_singleton] at htl
    have h123 := reaches_trans _ _ _ _ _ _ _ _
      (reaches_trans _ _ _ _ _ _ _ _
        (reaches_trans _ _ _ _ _ _ _ _ (reaches_step _ _ _ _ _ _ hs1) hin)
        (reaches_step _ _ _ _ _ _ hs3)) htl
    simpa [executeLoop, hw1] using h123

/-- With payloads that make no calls the step model of executeEvents returns,
and it returns what `executeEvents` gives: the same registry, and the same
events unlinked in the same order, executed or dropped alike. -/
theorem executeEventsWith_quiet (isDeleted : SimObject → Bool) (asserts : Bool)
    (r : Registry) :
    ∃ n c, executeEventsWith quietPayload isDeleted asserts n r =
      ({ registry := (executeEvents isDeleted r).1, queueCurrent := c, queueWalk := .null,
         pc := .done },
        (executeEvents isDeleted r).2.map Emit.toAct) := by
  obtain ⟨c, n, hn⟩ := driver_outer isDeleted asserts r.rest [] r (.live 0) rfl
  refine ⟨n, c, ?_⟩
  simp only [executeEventsWith, driverInit, executeEvents]
  simpa using hn

/-! ## The two lookup loops -/

theorem firstQueueFor_some (s : SimObject) :
    ∀ (l : List SceneGraphEventQueue) (k i : Nat) (q : SceneGraphEventQueue),
      firstQueueFor s k l = some (i, q) →
      ∃ l1 l2, l = l1 ++ q :: l2 ∧ i = k + l1.length ∧ (∀ x ∈ l1, x.pScene ≠ s) ∧
        q.pScene = s := by
  intro l
  induction l with
  | nil => intro k i q h; simp [firstQueueFor] at h
  | cons c tl ih =>
    intro k i q h
    by_cases hc : c.pScene = s
    · simp only [firstQueueFor, hc, if_true, Option.some.injEq, Prod.mk.injEq] at h
      obtain ⟨rfl, rfl⟩ := h
      exact ⟨[], tl, rfl, rfl, by simp, hc⟩
    · simp only [firstQueueFor, hc, if_false] at h
      obtain ⟨l1, l2, h1, h2, h3, h4⟩ := ih (k + 1) i q h
      refine ⟨c :: l1, l2, by simp [h1], by simp [h2]; omega, ?_, h4⟩
      intro x hx
      rcases List.mem_cons.1 hx with rfl | hx
      · exact hc
      · exact h3 x hx

theorem firstQueueFor_none (s : SimObject) :
    ∀ (l : List SceneGraphEventQueue) (k : Nat),
      firstQueueFor s k l = none ↔ ∀ x ∈ l, x.pScene ≠ s := by
  intro l
  induction l with
  | nil => intro k; simp [firstQueueFor]
  | cons c tl ih =>
    intro k
    by_cases hc : c.pScene = s
    · simp [firstQueueFor, hc]
    · simp [firstQueueFor, hc, ih (k + 1)]

/-- C22: for every registry and every scene handle the lookup loop that
starts its walk at the root and the loop that starts it at `root->nextQueue`
end on the same queue (both are total functions of the finite chain). When
some queue of the chain, the sentinel included, has the handle as `pScene`,
both yield the first such queue in list order (`firstQueueFor`), at its
position; the not-found test `queueCurrent->pScene != destScene` that follows
either loop holds exactly when no queue of the chain has that `pScene`. -/
theorem lookup_variants (r : Registry) (s : SimObject) :
    lookupFromRoot r s = lookupFromNext r s ∧
    (∀ (i : Nat) (q : SceneGraphEventQueue), firstQueueFor s 0 r.all = some (i, q) →
      lookupFromRoot r s = (i, q) ∧ lookupFromNext r s = (i, q) ∧ r.all[i]? = some q ∧
      q.pScene = s ∧ ∀ (j : Nat) (x : SceneGraphEventQueue), j < i → r.all[j]? = some x →
        x.pScene ≠ s) ∧
    (firstQueueFor s 0 r.all = none →
      (lookupFromRoot r s).2.pScene ≠ s ∧ (lookupFromNext r s).2.pScene ≠ s) ∧
    ((lookupFromRoot r s).2.pScene ≠ s ↔ ∀ x ∈ r.all, x.pScene ≠ s) ∧
    ((lookupFromNext r s).2.pScene ≠ s ↔ ∀ x ∈ r.all, x.pScene ≠ s) ∧
    (firstQueueFor s 0 r.all = none ↔ ∀ x ∈ r.all, x.pScene ≠ s) := by
  have hiff : (lookupFromNext r s).2.pScene ≠ s ↔ ∀ x ∈ r.all, x.pScene ≠ s := by
    constructor
    · intro h
      rcases lookup_cases r s with ⟨i, q, ⟨_, _, _, _, _, hq⟩, hl⟩ | ⟨hno, _⟩
      · rw [hl] at h; exact absurd hq h
      · exact hno
    · intro h; exact (lookup_miss r s h).2
  refine ⟨lookupFromRoot_eq_lookupFromNext r s, ?_, ?_, ?_, hiff,
    firstQueueFor_none s r.all 0⟩
  · intro i q h
    obtain ⟨l1, l2, h1, h2, h3, h4⟩ := firstQueueFor_some s r.all 0 i q h
    have hi : l1.length = i := by omega
    have hf : r.firstOwned s i q := ⟨l1, l2, h1, hi, h3, h4⟩
    refine ⟨lookupFromRoot_of_firstOwned r s i q hf, lookupFromNext_of_firstOwned r s i q hf,
      ?_, h4, ?_⟩
    · rw [h1, ← hi, List.getElem?_append_right (le_refl _)]; simp
    · intro j x hj hx
      rw [h1, List.getElem?_append_left (by omega)] at hx
      exact h3 x (List.getElem?_mem hx)
  · intro h
    exact lookup_miss r s ((firstQueueFor_none s r.all 0).1 h)
  · rw [lookupFromRoot_eq_lookupFromNext]; exact hiff

/-- The two loops on the registry of scenario D: for scene 2 both yield the
queue at position 2, for the null handle both yield the sentinel, and for
scene 9, which owns no queue, both end on a queue with another owner. -/
theorem lookup_variants_scenarioD :
    lookupFromRoot registryScenarioD 2 = lookupFromNext registryScenarioD 2 ∧
    (lookupFromRoot registryScenarioD 2).1 = 2 ∧
    lookupFromRoot registryScenarioD NULL = (0, SceneGraphEventQueue.new NULL) ∧
    lookupFromNext registryScenarioD NULL = (0, SceneGraphEventQueue.new NULL) ∧
    (lookupFromRoot registryScenarioD 9).2.pScene ≠ 9 ∧
    (lookupFromNext registryScenarioD 9).2.pScene ≠ 9 := by
  decide

/-! ## The invariant of the due flags -/

/-- Rounds of post and cancel on the queue that holds the event for time
1000: each round posts an event for the clock, which goes to the front of the
chain, and cancels it again; only `eventSequence` moves on. -/
theorem postCancelRounds_holding (asserts : Bool) :
    ∀ (n s : Nat), s < U32_SIZE →
      run asserts (registryHolding s) (postCancelRounds s n) =
        .ret (registryHolding ((s + n) % U32_SIZE), []) ∧
      respects asserts (registryHolding s) (postCancelRounds s n) = true := by
  intro n
  induction n with
  | zero =>
    intro s hs
    simp [postCancelRounds, run, respects, Nat.mod_eq_of_lt hs]
  | succ n ih =>
    intro s hs
    have hlt : (s + 1) % U32_SIZE < U32_SIZE := Nat.mod_lt _ (by decide)
    obtain ⟨h1, h2⟩ := ih ((s + 1) % U32_SIZE) hlt
    have hmod : ((s + 1) % U32_SIZE + n) % U32_SIZE = (s + (n + 1)) % U32_SIZE := by
      simp only [U32_SIZE]; omega
    rw [hmod] at h1
    have hf : (registryHolding s).firstOwned 1 1
        { pScene := 1,
          eventQueue := [{ mArgv := 7, startTime := 0, time := 1000, sequenceCount := 1,
                           destObject := 5, execute := false }],
          currentSceneTime := 0, eventSequence := s, executingEvents := false } :=
      ⟨[SceneGraphEventQueue.new NULL], [], rfl, rfl, by decide, rfl⟩
    have hpost : step asserts (registryHolding s) (Op.post 1 5 0 (-1)) =
        .ret ({ root := SceneGraphEventQueue.new NULL,
                rest := [{ pScene := 1,
                           eventQueue := [{ mArgv := 0, startTime := 0, time := 0,
                                            sequenceCount := s, destObject := 5,
                                            execute := false },
                                          { mArgv := 7, startTime := 0, time := 1000,
                                            sequenceCount := 1, destObject := 5,
                                            execute := false }],
                           currentSceneTime := 0, eventSequence := (s + 1) % U32_SIZE,
                           executingEvents := false }],
                gAbortEvents := false }, []) := by
      have := postEvent_found asserts (registryHolding s) 5 (SceneEvent.new 0) (-1) 1 _ hf
        (by decide)
      simp only [step]
      rw [this]
      simp [insertWalkLt, insertWalkEq, SceneEvent.new, Registry.setQueue, registryHolding]
    have hpre : (Op.post 1 5 0 (-1)).pre (registryHolding s) = true := by
      simp [Op.pre, lookupFromRoot_of_firstOwned _ _ _ _ hf]
    have hcancel : cancelEvent
        { root := SceneGraphEventQueue.new NULL,
          rest := [{ pScene := 1,
                     eventQueue := [{ mArgv := 0, startTime := 0, time := 0,
                                      sequenceCount := s, destObject := 5,
                                      execute := false },
                                    { mArgv := 7, startTime := 0, time := 1000,
                                      sequenceCount := 1, destObject := 5,
                                      execute := false }],
                     currentSceneTime := 0, eventSequence := (s + 1) % U32_SIZE,
                     executingEvents := false }],
          gAbortEvents := false } 1 s = registryHolding ((s + 1) % U32_SIZE) := by
      simp [cancelEvent, lookupFromNext, lookupLoop, SceneGraphEventQueue.new, NULL,
        cancelWalk, Registry.setQueue, registryHolding]
    have hcs : step asserts
        { root := SceneGraphEventQueue.new NULL,
          rest := [{ pScene := 1,
                     eventQueue := [{ mArgv := 0, startTime := 0, time := 0,
                                      sequenceCount := s, destObject := 5,
                                      execute := false },
                                    { mArgv := 7, startTime := 0, time := 1000,
                                      sequenceCount := 1, destObject := 5,
                                      execute := false }],
                     currentSceneTime := 0, eventSequence := (s + 1) % U32_SIZE,
                     executingEvents := false }],
          gAbortEvents := false } (Op.cancel 1 s) =
        .ret (registryHolding ((s + 1) % U32_SIZE), []) := by
      simp only [step, hcancel]
    constructor
    · rw [postCancelRounds, run_cons, hpost]
      simp only
      rw [run_cons, hcs]
      simp only
      rw [h1]
      rfl
    · rw [postCancelRounds, respects_cons, hpost, hpre]
      simp only
      rw [respects_cons, hcs]
      simp only
      rw [h2]
      rfl

/-- The calls `wrapSameId`, followed by any calls `tl`, run as `tl` runs from
the registry in which the counter is back at 1. -/
theorem run_wrapSameId (asserts : Bool) (tl : List Op) :
    run asserts Registry.init
        (Op.construct 1 :: Op.post 1 5 7 1000 :: (postCancelRounds 2 4294967295 ++ tl)) =
      match run asserts (registryHolding 1) tl with
      | .ret out => .ret (out.1, out.2)
      | .fatal st => .fatal st := by
  have hc : step asserts Registry.init (Op.construct 1) = .ret (registryAt 1, []) := rfl
  have hp : step asserts (registryAt 1) (Op.post 1 5 7 1000) =
      .ret (registryHolding 2, []) := by
    cases asserts <;> decide
  obtain ⟨h1, _⟩ := postCancelRounds_holding asserts 4294967295 2 (by decide)
  have hm : (2 + 4294967295) % U32_SIZE = 1 := by decide
  rw [hm] at h1
  rw [run_cons, hc]
  simp only
  rw [run_cons, hp]
  simp only
  rw [run_append asserts (postCancelRounds 2 4294967295) (registryHolding 2) tl _ _ h1]
  cases run asserts (registryHolding 1) tl <;> simp

theorem respects_wrapSameId (asserts : Bool) (tl : List Op)
    (h : respects asserts (registryHolding 1) tl = true) :
    respects asserts Registry.init
      (Op.construct 1 :: Op.post 1 5 7 1000 :: (postCancelRounds 2 4294967295 ++ tl)) =
      true := by
  have hc : step asserts Registry.init (Op.construct 1) = .ret (registryAt 1, []) := rfl
  have hp : step asserts (registryAt 1) (Op.post 1 5 7 1000) =
      .ret (registryHolding 2, []) := by
    cases asserts <;> decide
  obtain ⟨h1, h2⟩ := postCancelRounds_holding asserts 4294967295 2 (by decide)
  have hm : (2 + 4294967295) % U32_SIZE = 1 := by decide
  rw [hm] at h1
  rw [respects_cons, hc]
  simp only [Op.pre, Bool.true_and]
  rw [respects_cons, hp]
  have hpre : (Op.post 1 5 7 1000).pre (registryAt 1) = true := by decide
  rw [hpre]
  simp only [Bool.true_and]
  exact respects_append asserts (postCancelRounds 2 4294967295) (registryHolding 2) tl _ _
    h1 h2 h
theorem first_holder_split (id : Nat) :
    ∀ l : List SceneEvent, (∃ x ∈ l, x.sequenceCount = id) →
      ∃ l1 e l2, l = l1 ++ e :: l2 ∧ e.sequenceCount = id ∧
        ∀ x ∈ l1, x.sequenceCount ≠ id := by
  intro l
  induction l with
  | nil => intro h; obtain ⟨x, hx, _⟩ := h; cases hx
  | cons c tl ih =>
    intro h
    by_cases hc : c.sequenceCount = id
    · exact ⟨[], c, tl, rfl, hc, by simp⟩
    · obtain ⟨x, hx, hxid⟩ := h
      have hx2 : x ∈ tl := by
        rcases List.mem_cons.1 hx with rfl | hx2
        · exact absurd hxid hc
        · exact hx2
      obtain ⟨l1, e, l2, h1, h2, h3⟩ := ih ⟨x, hx2, hxid⟩
      refine ⟨c :: l1, e, l2, by simp [h1], h2, ?_⟩
      intro y hy
      rcases List.mem_cons.1 hy with rfl | hy
      · exact hc
      · exact h3 y hy

/-- C8 fails after a wrap of the counter: the calls of `wrapSameId` meet their
time preconditions (with asserts enabled and with asserts compiled out) and
leave two events with id 1 in the queue of scene 1; cancelEvent(1, 1) unlinks
the first of them, and isEventPending(1, 1) is still true afterwards. -/
theorem cancelEvent_same_id :
    respects true Registry.init wrapSameId = true ∧
    run true Registry.init wrapSameId = .ret (registrySameId, []) ∧
    respects false Registry.init wrapSameId = true ∧
    run false Registry.init wrapSameId = .ret (registrySameId, []) ∧
    cancelEvent registrySameId 1 1 =
      { root := SceneGraphEventQueue.new NULL,
        rest := [{ pScene := 1,
                   eventQueue := [{ mArgv := 8, startTime := 0, time := 2000,
                                    sequenceCount := 1, destObject := 5, execute := false }],
                   currentSceneTime := 0, eventSequence := 2, executingEvents := false }],
        gAbortEvents := false } ∧
    isEventPending (cancelEvent registrySameId 1 1) 1 1 = true := by
  refine ⟨?_, ?_, ?_, ?_, by decide, by decide⟩
  · exact respects_wrapSameId true _ (by decide)
  · rw [wrapSameId, run_wrapSameId]; decide
  · exact respects_wrapSameId false _ (by decide)
  · rw [wrapSameId, run_wrapSameId]; decide

/-- C8 (amended): for the queue `q` found for a scene, cancelEvent with an
id removes the first event of the chain that has the id (`e`, with the chain
`l1 ++ e :: l2` becoming `l1 ++ l2`) and changes nothing else: the other
events and their order, the clock, `eventSequence`, every other queue and
`gAbortEvents` stay; when no event has the id the registry is unchanged.
isEventPending for the id is false afterwards when no event behind `e` has
the same id; and that is so in every registry reached from the initial one
by calls of which fewer than `2^32 - 1` are postEvent calls for the scene,
so that `eventSequence` has not wrapped. -/
theorem cancelEvent_first_holder (r : Registry) (destScene : SimObject) (id : Nat) (i : Nat)
    (q : SceneGraphEventQueue) (hq : r.firstOwned destScene i q) :
    (∀ l1 e l2, q.eventQueue = l1 ++ e :: l2 → e.sequenceCount = id →
        (∀ x ∈ l1, x.sequenceCount ≠ id) →
        cancelEvent r destScene id = r.setQueue i
          { pScene := q.pScene, eventQueue := l1 ++ l2,
            currentSceneTime := q.currentSceneTime, eventSequence := q.eventSequence,
            executingEvents := q.executingEvents } ∧
        ((∀ x ∈ l2, x.sequenceCount ≠ id) →
          isEventPending (cancelEvent r destScene id) destScene id = false)) ∧
    ((∀ x ∈ q.eventQueue, x.sequenceCount ≠ id) → cancelEvent r destScene id = r) ∧
    (∀ (asserts : Bool) (ops : List Op) (em : List Emit),
      run asserts Registry.init ops = .ret (r, em) → postsFor destScene ops + 1 < U32_SIZE →
      isEventPending (cancelEvent r destScene id) destScene id = false) := by
  have hbase := cancelEvent_registered r destScene id i q hq
  refine ⟨hbase.1, hbase.2, ?_⟩
  intro asserts ops em hrun hw
  have hps : q.pScene = destScene := by
    obtain ⟨_, _, _, _, _, h⟩ := hq; exact h
  have hord := (run_ordered asserts destScene ops Registry.init r em hw
    (registryOrdered_init destScene ops hw) hrun q (firstOwned_mem r destScene i q hq) hps).1
  by_cases hex : ∃ x ∈ q.eventQueue, x.sequenceCount = id
  · obtain ⟨l1, e, l2, h1, h2, h3⟩ := first_holder_split id q.eventQueue hex
    refine (hbase.1 l1 e l2 h1 h2 h3).2 ?_
    intro x hx hxid
    have hnd := hord.2
    rw [h1, List.map_append, List.map_cons] at hnd
    have hnd2 := (List.nodup_cons.1 (List.nodup_append.1 hnd).2.1).1
    apply hnd2
    rw [h2, ← hxid]
    exact List.mem_map_of_mem _ hx
  · have hno : ∀ x ∈ q.eventQueue, x.sequenceCount ≠ id := by
      intro x hx hxid
      exact hex ⟨x, hx, hxid⟩
    rw [hbase.2 hno]
    simp [isEventPending, lookupFromRoot_of_firstOwned r destScene i q hq, hps,
      findEvent_none id q.eventQueue hno]

/-- Witness for C8 (amended): cancelling id 1 in the registry of scenario E,
which `scenarioE` reaches with one post, empties the queue of scene 1 and the
id is no longer pending; cancelling id 9 changes nothing. -/
theorem cancelEvent_first_holder_witness :
    (cancelEvent registryScenarioE 1 1 =
        { root := SceneGraphEventQueue.new NULL,
          rest := [{ pScene := 1, eventQueue := [], currentSceneTime := 4,
                     eventSequence := 2, executingEvents := false }],
          gAbortEvents := false } ∧
      isEventPending (cancelEvent registryScenarioE 1 1) 1 1 = false) ∧
    cancelEvent registryScenarioE 1 9 = registryScenarioE := by
  have hq : registryScenarioE.firstOwned 1 1
      { pScene := 1,
        eventQueue := [{ mArgv := 0, startTime := 2, time := 7, sequenceCount := 1,
                         destObject := 5, execute := false }],
        currentSceneTime := 4, eventSequence := 2, executingEvents := false } :=
    ⟨[SceneGraphEventQueue.new NULL], [], rfl, rfl, by decide, rfl⟩
  have h1 := (cancelEvent_first_holder registryScenarioE 1 1 1 _ hq).1 [] _ [] rfl rfl (by simp)
  have h2 := (cancelEvent_first_holder registryScenarioE 1 9 1 _ hq).2.1 (by decide)
  have h3 := (cancelEvent_first_holder registryScenarioE 1 1 1 _ hq).2.2 true scenarioE []
    (by decide) (by decide)
  exact ⟨⟨h1.1, h3⟩, h2⟩

/-- C15 fails in a build with `AssertFatal` compiled out: in scenario E (clock
4) postEvent for time 3 returns the id 2 and has queued the event with the
past fire time, and advanceToTime to 3 returns and has set the clock back to
3. -/
theorem past_time_without_asserts :
    postEvent false registryScenarioE 1 5 (SceneEvent.new 9) 3 = .ret (registryPastPost, 2) ∧
    advanceToTime false registryScenarioE 1 3 = .ret registryClockBack := by
  decide

/-- C15 (amended): on a registry in which `scene` has a registered queue `q`,
take postEvent with a non-null target and a time that is not -1 and is
earlier than the clock of `q`, and advanceToTime with a time earlier than the
clock of `q`. With asserts enabled each call stops at its `AssertFatal` on
the time, and the state at the stop is the registry the call was made in: no
event is inserted or marked due and the clock is unchanged. With
`AssertFatal` compiled out each call returns: postEvent has inserted the
event with the past fire time and returns its id, and advanceToTime has set
the clock back to the time given (and has marked the events up to it). -/
theorem fatal_preconditions (r : Registry) (s : SimObject) (i : Nat)
    (q : SceneGraphEventQueue) (hf : r.firstOwned s i q) :
    (∀ (destObject : SimObject) (event : SceneEvent) (t : F32), destObject ≠ NULL → t ≠ -1 →
      t < q.currentSceneTime →
      postEvent true r s destObject event t = .fatal r ∧
      postEvent false r s destObject event t =
        .ret (r.setQueue i
          { q with
            eventSequence := (q.eventSequence + 1) % U32_SIZE,
            eventQueue := insertWalkLt
              { mArgv := event.mArgv, startTime := q.currentSceneTime, time := t,
                sequenceCount := q.eventSequence, destObject := destObject,
                execute := event.execute }
              q.eventQueue }, q.eventSequence)) ∧
    (∀ T : F32, T < q.currentSceneTime →
      advanceToTime true r s T = .fatal r ∧
      advanceToTime false r s T = .ret (r.setQueue i (walkedTo T q))) := by
  have hps : q.pScene = s := by
    obtain ⟨_, _, _, _, _, hh⟩ := hf; exact hh
  subst hps
  refine ⟨?_, ?_⟩
  · intro destObject event t hobj h1 hlt
    refine ⟨?_, ?_⟩
    · rw [postEvent_found true r destObject event t i q hf hobj]
      have : (true && !(t == -1 || decide (t ≥ q.currentSceneTime))) = true := by
        simp [h1, not_le.2 hlt]
      rw [if_pos this]
    · rw [postEvent_found false r destObject event t i q hf hobj]
      simp [h1]
  · intro T hlt
    refine ⟨?_, ?_⟩
    · rw [advanceToTime_found true r T i q hf]
      have : (true && !decide (T ≥ q.currentSceneTime)) = true := by
        simp [not_le.2 hlt]
      rw [if_pos this]
    · rw [advanceToTime_found false r T i q hf]
      simp only [Bool.false_and, Bool.false_eq_true, if_false, advanceLoop_false_ok, if_true]
      rw [advanceLoop_front false T q.eventQueue q.currentSceneTime
        (advanceLoop_false_ok T _ _)]
      rfl

/-- Witness for C15 (amended): in scenario E (clock 4) a post for time 3 and
an advance to time 3 are fatal with asserts enabled. -/
theorem fatal_preconditions_witness :
    postEvent true registryScenarioE 1 5 (SceneEvent.new 9) 3 = .fatal registryScenarioE ∧
    advanceToTime true registryScenarioE 1 3 = .fatal registryScenarioE :=
  have h := fatal_preconditions registryScenarioE 1 1
    { pScene := 1,
      eventQueue := [{ mArgv := 0, startTime := 2, time := 7, sequenceCount := 1,
                       destObject := 5, execute := false }],
      currentSceneTime := 4, eventSequence := 2, executingEvents := false }
    ⟨[SceneGraphEventQueue.new NULL], [], rfl, rfl, by decide, rfl⟩
  ⟨(h.1 5 (SceneEvent.new 9) 3 (by decide) (by decide) (by decide)).1, (h.2 3 (by decide)).1⟩

end SceneEventManager
